import Mathlib

/-!
# Descriptor matching for loop-closure detection (`dsg_lcd_matching.cpp`)

A shallow embedding of `kimera::lcd` descriptor matching:

* `computeDistanceHist`, `computeDistanceBow`, `computeDistance` : the distance engine;
* `computeDescriptorScore` : the score normaliser;
* `searchDescriptors` : root candidate search;
* `searchLeafDescriptors` : leaf candidate search.

Modelling conventions.

* `float` / `double` quantities live in an arbitrary linearly ordered field `K`
  (exact arithmetic, no NaN); every definition is computable and can be run at `K := ℚ`.
  Where the rounding of `float` operations decides a property (the score map of
  `computeDescriptorScore`), it is explicit: `roundFloat32` is the binary32 rounding of an
  exact result and `computeDescriptorScoreRounded` applies it after each operation.
* `std::set<NodeId>` is the list of its elements in iteration (ascending) order;
  `std::map<NodeId, V>` is the list of its entries in iteration order, `.at` is `mapAt`.
* A failed `CHECK_EQ` and a throwing `.at` are the result `none`.
* The header of the translation unit is not part of the sources: the two raw distances
  `computeL1Distance`, `computeCosineDistance`, Eigen's `norm()` and `std::sort` are taken as
  parameters (`Externals`).
-/

namespace kimera.lcd

/-- Node identifiers (`NodeId`, an unsigned 64 bit integer; only compared, never computed on). -/
abbrev NodeId := Nat

/-- The `Eigen::Vector3d` of a root position. -/
abbrev Vector3 (K : Type) := K × K × K

/-- The fields of `Descriptor` that the translation unit reads. -/
structure Descriptor (K : Type) where
  values : List K
  words : List Nat
  nodes : List NodeId
  root_node : NodeId
  timestamp : K
  root_position : Vector3 K

/-- The enumeration `DescriptorScoreType`; `other` stands for any value outside the two
enumerators (it reaches the `default:` label of the switch). -/
inductive DescriptorScoreType where
  | COSINE
  | L1
  | other (v : Nat)
  deriving DecidableEq

/-- The record `DescriptorMatchConfig`. -/
structure DescriptorMatchConfig (K : Type) where
  type : DescriptorScoreType
  min_time_separation_s : K
  min_score : K
  min_registration_score : K
  min_score_ratio : K
  min_match_separation_m : K
  max_registration_matches : Nat

/-- The record `LayerSearchResults`, fields in declaration (aggregate initialisation) order. -/
structure LayerSearchResults (K : Type) where
  score : List K
  valid_matches : List NodeId
  query_nodes : List NodeId
  match_nodes : List (List NodeId)
  query_root : NodeId
  match_root : List NodeId

/-- A `std::map<NodeId, V>`: its entries in iteration order. -/
abbrev StdMap (V : Type) := List (NodeId × V)

/-- The type `DescriptorCache` : node id to owned descriptor. -/
abbrev DescriptorCache (K : Type) := StdMap (Descriptor K)

/-- The type `DescriptorCacheMap` : root id to the cache of its leaves. -/
abbrev DescriptorCacheMap (K : Type) := StdMap (DescriptorCache K)

/-- The call `m.at(k)` : the mapped value, `none` when the call throws `std::out_of_range`. -/
def mapAt {V : Type} : StdMap V → NodeId → Option V
  | [], _ => none
  | (k', v) :: m, k => if k' = k then some v else mapAt m k

/-- The call `s.insert(x)` on a `std::set<NodeId>` kept in ascending order. -/
def setInsert (x : NodeId) : List NodeId → List NodeId
  | [] => [x]
  | y :: ys =>
    if x < y then x :: y :: ys
    else if x = y then y :: ys
    else y :: setInsert x ys

/-- Functions used by the translation unit and declared outside of it. -/
structure Externals (K : Type) where
  computeL1Distance : Descriptor K → Descriptor K → Option K
  computeCosineDistance : Descriptor K → Descriptor K → Option K
  norm : Vector3 K → K
  sort : List (NodeId × K) → List (NodeId × K)

section Embedding

variable {K : Type} [LinearOrderedField K]

/-! ## Distance engine -/

/-- Body of the `for` loop of `computeDistanceHist` at row `r`. -/
def histStep (lhs rhs : Descriptor K) (distance_func : K → K → K) (score : K) (r : Nat) : K :=
  if lhs.values.getD r 0 = 0 ∨ rhs.values.getD r 0 = 0 then score
  else score + distance_func (lhs.values.getD r 0) (rhs.values.getD r 0)

/-- The function `computeDistanceHist`; `none` is the failed `CHECK_EQ`. -/
def computeDistanceHist (lhs rhs : Descriptor K) (distance_func : K → K → K) : Option K :=
  if lhs.values.length = rhs.values.length then
    some ((List.range lhs.values.length).foldl (histStep lhs rhs distance_func) 0)
  else none

/-- The `while` loop of `computeDistanceBow` from cursors `r1`, `r2` and accumulator `score`. -/
def bowLoop (lhs rhs : Descriptor K) (distance_func : K → K → K) (r1 r2 : Nat) (score : K) : K :=
  if r1 < lhs.values.length ∧ r2 < rhs.values.length then
    let word1 := lhs.words.getD r1 0
    let word2 := rhs.words.getD r2 0
    if word1 = word2 then
      bowLoop lhs rhs distance_func (r1 + 1) (r2 + 1)
        (score + distance_func (lhs.values.getD r1 0) (rhs.values.getD r2 0))
    else if word1 < word2 then
      bowLoop lhs rhs distance_func (r1 + 1) r2 score
    else
      bowLoop lhs rhs distance_func r1 (r2 + 1) score
  else score
termination_by (lhs.values.length - r1) + (rhs.values.length - r2)
decreasing_by all_goals (simp_wf; omega)

/-- The function `computeDistanceBow`; `none` is a failed `CHECK_EQ`. -/
def computeDistanceBow (lhs rhs : Descriptor K) (distance_func : K → K → K) : Option K :=
  if lhs.values.length = lhs.words.length then
    if rhs.values.length = rhs.words.length then
      some (bowLoop lhs rhs distance_func 0 0 0)
    else none
  else none

/-- The function `computeDistance` : dense path when both word lists are empty. -/
def computeDistance (lhs rhs : Descriptor K) (distance_func : K → K → K) : Option K :=
  if lhs.words.length = 0 ∧ rhs.words.length = 0 then
    computeDistanceHist lhs rhs distance_func
  else
    computeDistanceBow lhs rhs distance_func

/-! ## Score normaliser -/

/-- The function `computeDescriptorScore`. -/
def computeDescriptorScore (ext : Externals K) (lhs rhs : Descriptor K) :
    DescriptorScoreType → Option K
  | .COSINE => (ext.computeCosineDistance lhs rhs).map (fun raw => 0.5 * raw + 0.5)
  | _ => (ext.computeL1Distance lhs rhs).map (fun raw => 1.0 - 0.5 * raw)


/-- The value a descriptor stores for word id `w` (the entry of `values` at the row of `w`). -/
def valueAt (d : Descriptor K) (w : Nat) : K :=
  d.values.getD (d.words.indexOf w) 0


/-! ## Root candidate search -/

/-- What the first loop of `searchDescriptors` does with one candidate before it touches its
state: `none` when a `.at` throws or the score aborts, `some none` when the candidate is
skipped by a `continue` (self-containment or temporal filter), `some (some curr_score)` when it
is scored. -/
def candidateScore (ext : Externals K) (descriptor : Descriptor K)
    (match_config : DescriptorMatchConfig K) (descriptors : DescriptorCache K)
    (root_leaf_map : StdMap (List NodeId)) (query_id valid_id : NodeId) : Option (Option K) :=
  match mapAt root_leaf_map valid_id with
  | none => none
  | some leaves =>
    if query_id ∈ leaves then some none
    else
      match mapAt descriptors valid_id with
      | none => none
      | some other_descriptor =>
        if descriptor.timestamp - other_descriptor.timestamp
            < match_config.min_time_separation_s then some none
        else
          (computeDescriptorScore ext descriptor other_descriptor match_config.type).map some

/-- The local variables of the first loop of `searchDescriptors`. -/
structure ScoringState (K : Type) where
  best_score : K
  new_valid_match_scores : List (NodeId × K)
  new_valid_matches : List NodeId

/-- The state update of the first loop for a candidate scored `curr_score`. -/
def scoringStep (match_config : DescriptorMatchConfig K) (st : ScoringState K)
    (valid_id : NodeId) (curr_score : K) : ScoringState K :=
  let best_score := if curr_score > st.best_score then curr_score else st.best_score
  if curr_score > match_config.min_score then
    { best_score := best_score
      new_valid_match_scores := st.new_valid_match_scores ++ [(valid_id, curr_score)]
      new_valid_matches := setInsert valid_id st.new_valid_matches }
  else
    { best_score := best_score
      new_valid_match_scores := st.new_valid_match_scores
      new_valid_matches := st.new_valid_matches }

/-- The first loop of `searchDescriptors` over the remaining candidates. -/
def scoringPass (ext : Externals K) (descriptor : Descriptor K)
    (match_config : DescriptorMatchConfig K) (descriptors : DescriptorCache K)
    (root_leaf_map : StdMap (List NodeId)) (query_id : NodeId) :
    List NodeId → ScoringState K → Option (ScoringState K)
  | [], st => some st
  | valid_id :: rest, st =>
    match candidateScore ext descriptor match_config descriptors root_leaf_map query_id
        valid_id with
    | none => none
    | some none =>
      scoringPass ext descriptor match_config descriptors root_leaf_map query_id rest st
    | some (some curr_score) =>
      scoringPass ext descriptor match_config descriptors root_leaf_map query_id rest
        (scoringStep match_config st valid_id curr_score)

/-- The inner loop of the second loop: is the root position of `id` at least
`min_match_separation_m` away from the root position of every accepted match? -/
def spatiallyDistinct (ext : Externals K) (match_config : DescriptorMatchConfig K)
    (descriptors : DescriptorCache K) (id : NodeId) : List NodeId → Option Bool
  | [] => some true
  | m :: ms =>
    match mapAt descriptors id with
    | none => none
    | some d =>
      match mapAt descriptors m with
      | none => none
      | some dm =>
        if ext.norm (d.root_position - dm.root_position)
            < match_config.min_match_separation_m then some false
        else spatiallyDistinct ext match_config descriptors id ms

/-- The three result vectors built by the second loop of `searchDescriptors` (the vector
`matches` is the field `matches_`, the source name being reserved). -/
structure MatchState (K : Type) where
  match_nodes : List (List NodeId)
  matches_ : List NodeId
  match_scores : List K

/-- The second loop of `searchDescriptors` over the remaining sorted `(id, score)` pairs. -/
def filterPass (ext : Externals K) (match_config : DescriptorMatchConfig K)
    (descriptors : DescriptorCache K) (best_score : K) :
    List (NodeId × K) → MatchState K → Option (MatchState K)
  | [], st => some st
  | id_score :: rest, st =>
    if id_score.2 < match_config.min_registration_score then some st
    else if id_score.2 > best_score * match_config.min_score_ratio then
      match spatiallyDistinct ext match_config descriptors id_score.1 st.matches_ with
      | none => none
      | some false => filterPass ext match_config descriptors best_score rest st
      | some true =>
        match mapAt descriptors id_score.1 with
        | none => none
        | some d =>
          if (st.matches_ ++ [id_score.1]).length = match_config.max_registration_matches then
            some { match_nodes := st.match_nodes ++ [d.nodes]
                   matches_ := st.matches_ ++ [id_score.1]
                   match_scores := st.match_scores ++ [id_score.2] }
          else
            filterPass ext match_config descriptors best_score rest
              { match_nodes := st.match_nodes ++ [d.nodes]
                matches_ := st.matches_ ++ [id_score.1]
                match_scores := st.match_scores ++ [id_score.2] }
    else if st.matches_.length = match_config.max_registration_matches then some st
    else filterPass ext match_config descriptors best_score rest st

/-- The function `searchDescriptors`; `none` when a lookup throws or a score aborts. -/
def searchDescriptors (ext : Externals K) (descriptor : Descriptor K)
    (match_config : DescriptorMatchConfig K) (valid_matches : List NodeId)
    (descriptors : DescriptorCache K) (root_leaf_map : StdMap (List NodeId))
    (query_id : NodeId) : Option (LayerSearchResults K) :=
  match scoringPass ext descriptor match_config descriptors root_leaf_map query_id
      valid_matches { best_score := 0, new_valid_match_scores := [], new_valid_matches := [] } with
  | none => none
  | some st =>
    match filterPass ext match_config descriptors st.best_score
        (ext.sort st.new_valid_match_scores)
        { match_nodes := [], matches_ := [], match_scores := [] } with
    | none => none
    | some ms =>
      some { score := ms.match_scores
             valid_matches := st.new_valid_matches
             query_nodes := descriptor.nodes
             match_nodes := ms.match_nodes
             query_root := descriptor.root_node
             match_root := ms.matches_ }

/-- The value of the local variable `best_score` of `searchDescriptors` when its first loop
ends. -/
def finalBestScore (ext : Externals K) (descriptor : Descriptor K)
    (match_config : DescriptorMatchConfig K) (valid_matches : List NodeId)
    (descriptors : DescriptorCache K) (root_leaf_map : StdMap (List NodeId))
    (query_id : NodeId) : Option K :=
  (scoringPass ext descriptor match_config descriptors root_leaf_map query_id valid_matches
    { best_score := 0, new_valid_match_scores := [], new_valid_matches := [] }).map
    (fun st => st.best_score)

/-- The test the inner loop of the second loop of `searchDescriptors` makes for a new id `b`
against an accepted id `a`, when it does not reject `b`: both have a descriptor and the norm of
`b`'s root position minus `a`'s is not below `min_match_separation_m`. -/
def Separated (ext : Externals K) (cfg : DescriptorMatchConfig K)
    (descriptors : DescriptorCache K) (a b : NodeId) : Prop :=
  ∃ da db, mapAt descriptors a = some da ∧ mapAt descriptors b = some db ∧
    cfg.min_match_separation_m ≤ ext.norm (db.root_position - da.root_position)

/-- What `std::sort` with the comparator `a.second > b.second` guarantees: the output is a
rearrangement of the input in which no later score exceeds an earlier one. -/
def SortsDescending (sort : List (NodeId × K) → List (NodeId × K)) : Prop :=
  ∀ l, (sort l).Perm l ∧ (sort l).Pairwise (fun a b => b.2 ≤ a.2)

/-! ## Leaf candidate search -/

/-- The local variables of the loops of `searchLeafDescriptors`. -/
structure LeafState (K : Type) where
  best_score : K
  best_node : NodeId
  best_root : NodeId
  found_match : Bool

/-- The inner loop of `searchLeafDescriptors` over the entries of one leaf cache. -/
def leafInner (ext : Externals K) (descriptor : Descriptor K)
    (match_config : DescriptorMatchConfig K) (query_id : NodeId) :
    List (NodeId × Descriptor K) → LeafState K → Option (LeafState K)
  | [], st => some st
  | id_desc_pair :: rest, st =>
    if id_desc_pair.1 = query_id then
      leafInner ext descriptor match_config query_id rest st
    else if descriptor.timestamp - id_desc_pair.2.timestamp
        < match_config.min_time_separation_s then
      leafInner ext descriptor match_config query_id rest st
    else
      match computeDescriptorScore ext descriptor id_desc_pair.2 match_config.type with
      | none => none
      | some curr_score =>
        if curr_score > st.best_score then
          leafInner ext descriptor match_config query_id rest
            { best_score := curr_score
              best_node := id_desc_pair.1
              best_root := id_desc_pair.2.root_node
              found_match := true }
        else
          leafInner ext descriptor match_config query_id rest st

/-- The outer loop of `searchLeafDescriptors` over the valid root ids. -/
def leafOuter (ext : Externals K) (descriptor : Descriptor K)
    (match_config : DescriptorMatchConfig K) (leaf_cache_map : DescriptorCacheMap K)
    (query_id : NodeId) : List NodeId → LeafState K → Option (LeafState K)
  | [], st => some st
  | valid_id :: rest, st =>
    match mapAt leaf_cache_map valid_id with
    | none => none
    | some leaf_cache =>
      match leafInner ext descriptor match_config query_id leaf_cache st with
      | none => none
      | some st' => leafOuter ext descriptor match_config leaf_cache_map query_id rest st'

/-- The function `searchLeafDescriptors`; `none` when a lookup throws or a score aborts. -/
def searchLeafDescriptors (ext : Externals K) (descriptor : Descriptor K)
    (match_config : DescriptorMatchConfig K) (valid_matches : List NodeId)
    (leaf_cache_map : DescriptorCacheMap K) (query_id : NodeId) :
    Option (LayerSearchResults K) :=
  match leafOuter ext descriptor match_config leaf_cache_map query_id valid_matches
      { best_score := 0, best_node := 0, best_root := 0, found_match := false } with
  | none => none
  | some st =>
    if !st.found_match then
      some { score := [], valid_matches := [], query_nodes := [], match_nodes := [],
             query_root := descriptor.root_node, match_root := [] }
    else
      some { score := [st.best_score]
             valid_matches := [st.best_node]
             query_nodes := descriptor.nodes
             match_nodes := [[st.best_node]]
             query_root := descriptor.root_node
             match_root := [st.best_root] }

end Embedding

/-! ## Concrete inputs over `ℚ` -/

section Examples

/-- Externals used to run the embedding: an `|a - b|` raw L1 distance, a product raw cosine
distance, the 1-norm (equal to Eigen's `norm()` on vectors along one axis, the only ones the
examples use) and insertion sort by descending score. -/
def exampleExt : Externals ℚ where
  computeL1Distance := fun lhs rhs => computeDistance lhs rhs (fun a b => |a - b|)
  computeCosineDistance := fun lhs rhs => computeDistance lhs rhs (fun a b => a * b)
  norm := fun v => |v.1| + |v.2.1| + |v.2.2|
  sort := List.insertionSort (fun a b => b.2 ≤ a.2)

/-- A dense descriptor with the single value `v`, summarising node `id` at time `t` and
position `(x, 0, 0)`. -/
def exampleDescriptor (id : NodeId) (t x v : ℚ) : Descriptor ℚ :=
  { values := [v], words := [], nodes := [id], root_node := id, timestamp := t,
    root_position := (x, 0, 0) }

/-- The query of the examples: node `9` at time `10`. -/
def exampleQuery : Descriptor ℚ := exampleDescriptor 9 10 0 1

/-- A descriptor cache: `1` and `2` share a position, `3` is two metres further, `4` is as
recent as the query. -/
def exampleCache : DescriptorCache ℚ :=
  [(1, exampleDescriptor 1 0 5 (1 / 2)), (2, exampleDescriptor 2 0 5 1),
   (3, exampleDescriptor 3 0 7 (1 / 2)), (4, exampleDescriptor 4 10 9 1)]

/-- A root-to-leaves map: root `5` already contains the query node `9`. -/
def exampleRootLeafMap : StdMap (List NodeId) :=
  [(1, [1]), (2, [2]), (3, [3]), (4, [4]), (5, [5, 9])]

/-- A configuration with every threshold at `0`, ratio `1/2` and the given cap. -/
def exampleConfig (cap : Nat) : DescriptorMatchConfig ℚ :=
  { type := DescriptorScoreType.L1, min_time_separation_s := 1, min_score := 0,
    min_registration_score := 0, min_score_ratio := 1 / 2, min_match_separation_m := 1,
    max_registration_matches := cap }

/-- The result of searching `exampleCache` for `exampleQuery` among the candidates `1` to `5`
with a cap of two matches. -/
def exampleResult : LayerSearchResults ℚ :=
  { score := [1, 3 / 4], valid_matches := [1, 2, 3], query_nodes := [9],
    match_nodes := [[2], [3]], query_root := 9, match_root := [2, 3] }

/-- A leaf cache map with one root whose leaves are the query node itself and a leaf as recent
as the query. -/
def exampleLeafMap : DescriptorCacheMap ℚ :=
  [(1, [(4, exampleDescriptor 4 10 9 1), (9, exampleQuery)])]

/-- A sparse descriptor over the words `1`, `4`, `7`. -/
def exampleSparseA : Descriptor ℚ :=
  { values := [1, 2, 3], words := [1, 4, 7], nodes := [], root_node := 0, timestamp := 0,
    root_position := (0, 0, 0) }

/-- A sparse descriptor over the words `2`, `4`, `7`. -/
def exampleSparseB : Descriptor ℚ :=
  { values := [5, 6, 7], words := [2, 4, 7], nodes := [], root_node := 0, timestamp := 0,
    root_position := (0, 0, 0) }

/-- A dense descriptor with a zero entry. -/
def exampleDenseA : Descriptor ℚ :=
  { values := [1, 0, 3], words := [], nodes := [], root_node := 0, timestamp := 0,
    root_position := (0, 0, 0) }

/-- A dense descriptor without zero entries. -/
def exampleDenseB : Descriptor ℚ :=
  { values := [5, 6, 7], words := [], nodes := [], root_node := 0, timestamp := 0,
    root_position := (0, 0, 0) }

end Examples

section EmbeddingMore

variable {K : Type} [LinearOrderedField K]

/-- The pair the first loop of `searchDescriptors` appends to `new_valid_match_scores` for a
candidate, if it appends one: the candidate was scored and its score exceeds `min_score`. -/
def recordedPair (ext : Externals K) (descriptor : Descriptor K)
    (match_config : DescriptorMatchConfig K) (descriptors : DescriptorCache K)
    (root_leaf_map : StdMap (List NodeId)) (query_id valid_id : NodeId) : Option (NodeId × K) :=
  match candidateScore ext descriptor match_config descriptors root_leaf_map query_id
      valid_id with
  | some (some curr_score) =>
    if curr_score > match_config.min_score then some (valid_id, curr_score) else none
  | _ => none

/-- The bag-of-words form of a dense descriptor: its words are the rows of the non-zero
entries of `values` in ascending order, its values are those entries. -/
def sparseOf (d : Descriptor K) : Descriptor K :=
  { d with
    words := (List.range d.values.length).filter (fun i => d.values.getD i 0 ≠ 0)
    values := ((List.range d.values.length).filter (fun i => d.values.getD i 0 ≠ 0)).map
      (fun i => d.values.getD i 0) }

end EmbeddingMore

section MoreExamples

/-- The example configuration with a cap of two and a minimum separation of three metres, so
that the positions of candidates `1` and `3` are too close. -/
def exampleConfigWide : DescriptorMatchConfig ℚ :=
  { type := DescriptorScoreType.L1, min_time_separation_s := 1, min_score := 0,
    min_registration_score := 0, min_score_ratio := 1 / 2, min_match_separation_m := 3,
    max_registration_matches := 2 }

/-- A sparse descriptor whose word list `4`, `1`, `7` is not sorted. -/
def exampleSparseUnsorted : Descriptor ℚ :=
  { values := [1, 2, 3], words := [4, 1, 7], nodes := [], root_node := 0, timestamp := 0,
    root_position := (0, 0, 0) }

/-- A leaf descriptor like `exampleDescriptor` whose `root_node` is `root`. -/
def exampleLeaf (id root : NodeId) (t x v : ℚ) : Descriptor ℚ :=
  { values := [v], words := [], nodes := [id], root_node := root, timestamp := t,
    root_position := (x, 0, 0) }

/-- A leaf cache map with two roots: under root `1` the leaves `2` (score `1`), `3` (score
`3/4`) and the query node itself, under root `5` a leaf as recent as the query. The leaves of
root `1` record `7` as their root node. -/
def exampleLeafMapFound : DescriptorCacheMap ℚ :=
  [(1, [(2, exampleLeaf 2 7 0 5 1), (3, exampleLeaf 3 7 0 7 (1 / 2)), (9, exampleQuery)]),
   (5, [(4, exampleLeaf 4 8 10 9 1)])]

/-- The result of the leaf search for `exampleQuery` in `exampleLeafMapFound`. -/
def exampleLeafResult : LayerSearchResults ℚ :=
  { score := [1], valid_matches := [2], query_nodes := [9], match_nodes := [[2]],
    query_root := 9, match_root := [7] }

/-- A leaf cache map whose only leaf is old enough and is not the query, and scores exactly
`0` against `exampleQuery` (raw L1 distance `2`). -/
def exampleLeafMapZero : DescriptorCacheMap ℚ :=
  [(1, [(3, exampleLeaf 3 7 0 7 3)])]

end MoreExamples


section FloatArithmetic

/-- Rounding of a rational to the nearest integer, a tie going to the even neighbour. -/
def roundHalfEven (x : ℚ) : ℤ :=
  if x - ⌊x⌋ < 1 / 2 then ⌊x⌋
  else if 1 / 2 < x - ⌊x⌋ then ⌊x⌋ + 1
  else if ⌊x⌋ % 2 = 0 then ⌊x⌋
  else ⌊x⌋ + 1

/-- The spacing of the `float` (IEEE-754 binary32) values around a non-negative `x`:
`2 ^ (e - 23)` for the binary exponent `e` of `x`, which is not below the least normal
exponent `-126` (below it the values are the subnormal ones, spaced `2 ^ (-149)`). -/
def float32Spacing (x : ℚ) : ℚ :=
  2 ^ (max (Int.log 2 x) (-126) - 23)

/-- The `float` nearest to a non-negative rational `x`. -/
def roundFloat32Magnitude (x : ℚ) : ℚ :=
  roundHalfEven (x / float32Spacing x) * float32Spacing x

/-- The value a `float` operation stores for the exact result `x`: the nearest binary32 value,
ties to even (the default rounding mode), applied to the magnitude and keeping the sign.
Overflow to infinity (magnitudes from `2 ^ 128` on) is not represented. -/
def roundFloat32 (x : ℚ) : ℚ :=
  if 0 ≤ x then roundFloat32Magnitude x else -roundFloat32Magnitude (-x)

end FloatArithmetic

section FloatScore

variable {K : Type} [LinearOrderedField K]

/-- The expression `1.0f - 0.5f * raw` of the `L1` (and `default`) label of
`computeDescriptorScore`, evaluated in `float`: `fl` rounds the exact result of each of the
two operations (the product and the difference). -/
def scoreFromL1 (fl : K → K) (raw : K) : K := fl (1.0 - fl (0.5 * raw))

/-- The expression `0.5f * raw + 0.5f` of the `COSINE` label of `computeDescriptorScore`,
evaluated in `float`: `fl` rounds the exact result of each of the two operations. -/
def scoreFromCosine (fl : K → K) (raw : K) : K := fl (fl (0.5 * raw) + 0.5)

/-- The function `computeDescriptorScore` with the rounding `fl` of its `float` operations
made explicit; with `fl` the identity it is `computeDescriptorScore`. -/
def computeDescriptorScoreRounded (fl : K → K) (ext : Externals K) (lhs rhs : Descriptor K) :
    DescriptorScoreType → Option K
  | .COSINE => (ext.computeCosineDistance lhs rhs).map (scoreFromCosine fl)
  | _ => (ext.computeL1Distance lhs rhs).map (scoreFromL1 fl)

end FloatScore

section DistanceProofs

variable {K : Type} [LinearOrderedField K]

theorem histFold_eq_sum (lhs rhs : Descriptor K) (f : K → K → K) (n : Nat) :
    (List.range n).foldl (histStep lhs rhs f) 0
      = ∑ i in (Finset.range n).filter
          (fun i => lhs.values.getD i 0 ≠ 0 ∧ rhs.values.getD i 0 ≠ 0),
          f (lhs.values.getD i 0) (rhs.values.getD i 0) := by
  induction n with
  | zero => simp
  | succ n ih =>
    rw [List.range_succ, List.foldl_append, ih, Finset.range_succ, Finset.filter_insert]
    simp only [List.foldl_cons, List.foldl_nil, histStep]
    by_cases h : lhs.values.getD n 0 = 0 ∨ rhs.values.getD n 0 = 0
    · have h' : ¬ (lhs.values.getD n 0 ≠ 0 ∧ rhs.values.getD n 0 ≠ 0) := by tauto
      rw [if_pos h, if_neg h']
    · have h' : lhs.values.getD n 0 ≠ 0 ∧ rhs.values.getD n 0 ≠ 0 := by tauto
      rw [if_neg h, if_pos h', Finset.sum_insert (by simp), add_comm]

theorem drop_sorted_cons {l : List Nat} (hs : l.Sorted (· < ·)) {r : Nat} (hr : r < l.length) :
    l.drop r = l[r] :: l.drop (r + 1) ∧ ∀ x ∈ l.drop (r + 1), l[r] < x := by
  have h1 : l.drop r = l[r] :: l.drop (r + 1) := List.drop_eq_getElem_cons hr
  refine ⟨h1, ?_⟩
  have h2 : (l.drop r).Pairwise (· < ·) := List.Pairwise.sublist (List.drop_sublist r l) hs
  rw [h1, List.pairwise_cons] at h2
  exact h2.1

theorem bowLoop_eq_sum (lhs rhs : Descriptor K) (f : K → K → K)
    (hl : lhs.values.length = lhs.words.length) (hr : rhs.values.length = rhs.words.length)
    (hsl : lhs.words.Sorted (· < ·)) (hsr : rhs.words.Sorted (· < ·)) :
    ∀ (m r1 r2 : Nat) (score : K),
      (lhs.values.length - r1) + (rhs.values.length - r2) = m →
      bowLoop lhs rhs f r1 r2 score
        = score + ∑ w in (lhs.words.drop r1).toFinset ∩ (rhs.words.drop r2).toFinset,
            f (valueAt lhs w) (valueAt rhs w) := by
  intro m
  induction m using Nat.strong_induction_on with
  | _ m ih =>
    intro r1 r2 score hm
    rw [bowLoop]
    by_cases hc : r1 < lhs.values.length ∧ r2 < rhs.values.length
    · rw [if_pos hc]
      obtain ⟨h1, h2⟩ := hc
      have h1' : r1 < lhs.words.length := hl ▸ h1
      have h2' : r2 < rhs.words.length := hr ▸ h2
      obtain ⟨e1, g1⟩ := drop_sorted_cons hsl h1'
      obtain ⟨e2, g2⟩ := drop_sorted_cons hsr h2'
      have w1 : lhs.words.getD r1 0 = lhs.words[r1] := List.getD_eq_getElem _ _ h1'
      have w2 : rhs.words.getD r2 0 = rhs.words[r2] := List.getD_eq_getElem _ _ h2'
      simp only [w1, w2]
      rw [e1, e2]
      simp only [List.toFinset_cons]
      have n1 : lhs.words[r1] ∉ (lhs.words.drop (r1 + 1)).toFinset := by
        intro h; exact lt_irrefl _ (g1 _ (List.mem_toFinset.1 h))
      have n2 : rhs.words[r2] ∉ (rhs.words.drop (r2 + 1)).toFinset := by
        intro h; exact lt_irrefl _ (g2 _ (List.mem_toFinset.1 h))
      by_cases heq : lhs.words[r1] = rhs.words[r2]
      · rw [if_pos heq, ih _ (by omega) (r1 + 1) (r2 + 1) _ rfl]
        have hv1 : valueAt lhs lhs.words[r1] = lhs.values.getD r1 0 := by
          unfold valueAt
          rw [List.indexOf_getElem hsl.nodup]
        have hv2 : valueAt rhs lhs.words[r1] = rhs.values.getD r2 0 := by
          unfold valueAt
          rw [heq, List.indexOf_getElem hsr.nodup]
        have hni : lhs.words[r1] ∉
            (lhs.words.drop (r1 + 1)).toFinset ∩ (rhs.words.drop (r2 + 1)).toFinset := by
          intro h; exact n1 (Finset.mem_inter.1 h).1
        have hset : insert lhs.words[r1] (lhs.words.drop (r1 + 1)).toFinset ∩
              insert rhs.words[r2] (rhs.words.drop (r2 + 1)).toFinset
            = insert lhs.words[r1]
                ((lhs.words.drop (r1 + 1)).toFinset ∩ (rhs.words.drop (r2 + 1)).toFinset) := by
          rw [← heq, ← Finset.insert_inter_distrib]
        rw [hset, Finset.sum_insert hni, hv1, hv2, add_assoc]
      · rw [if_neg heq]
        by_cases hlt : lhs.words[r1] < rhs.words[r2]
        · rw [if_pos hlt, ih _ (by omega) (r1 + 1) r2 _ rfl, e2]
          simp only [List.toFinset_cons]
          have hnot : lhs.words[r1] ∉ insert rhs.words[r2] (rhs.words.drop (r2 + 1)).toFinset := by
            intro h
            rcases Finset.mem_insert.1 h with h | h
            · exact heq h
            · exact absurd (g2 _ (List.mem_toFinset.1 h)) (by omega)
          rw [Finset.insert_inter_of_not_mem hnot]
        · rw [if_neg hlt, ih _ (by omega) r1 (r2 + 1) _ rfl, e1]
          simp only [List.toFinset_cons]
          have hnot : rhs.words[r2] ∉ insert lhs.words[r1] (lhs.words.drop (r1 + 1)).toFinset := by
            intro h
            rcases Finset.mem_insert.1 h with h | h
            · exact heq h.symm
            · exact absurd (g1 _ (List.mem_toFinset.1 h)) (by omega)
          rw [Finset.inter_insert_of_not_mem hnot]
    · rw [if_neg hc]
      have : lhs.words.drop r1 = [] ∨ rhs.words.drop r2 = [] := by
        rcases not_and_or.1 hc with h | h
        · left; exact List.drop_eq_nil_of_le (by omega)
        · right; exact List.drop_eq_nil_of_le (by omega)
      rcases this with h | h <;> simp [h]

/-- C1: on sparse descriptors whose word lists are strictly ascending (sorted, unique ids) and
whose values and words have equal length, `computeDistanceBow` returns the sum of
`distance_func (lhs value at w) (rhs value at w)` over exactly the word ids `w` in the
intersection of the two word lists; a word on one side only contributes nothing. -/
theorem computeDistanceBow_eq_sum_inter (lhs rhs : Descriptor K) (f : K → K → K)
    (hl : lhs.values.length = lhs.words.length) (hr : rhs.values.length = rhs.words.length)
    (hsl : lhs.words.Sorted (· < ·)) (hsr : rhs.words.Sorted (· < ·)) :
    computeDistanceBow lhs rhs f
      = some (∑ w in lhs.words.toFinset ∩ rhs.words.toFinset,
                f (valueAt lhs w) (valueAt rhs w)) := by
  unfold computeDistanceBow
  rw [if_pos hl, if_pos hr, bowLoop_eq_sum lhs rhs f hl hr hsl hsr _ 0 0 0 rfl]
  simp

/-- C2: on dense descriptors of equal length, `computeDistanceHist` returns the sum of
`distance_func lhs[i] rhs[i]` over exactly the rows `i` where both entries are non-zero; a row
where either entry is `0` contributes nothing, whatever `distance_func` returns there. -/
theorem computeDistanceHist_eq_sum_nonzero (lhs rhs : Descriptor K) (f : K → K → K)
    (h : lhs.values.length = rhs.values.length) :
    computeDistanceHist lhs rhs f
      = some (∑ i in (Finset.range lhs.values.length).filter
                (fun i => lhs.values.getD i 0 ≠ 0 ∧ rhs.values.getD i 0 ≠ 0),
                f (lhs.values.getD i 0) (rhs.values.getD i 0)) := by
  unfold computeDistanceHist
  rw [if_pos h, histFold_eq_sum]

end DistanceProofs


section SearchLemmas

variable {K : Type} [LinearOrderedField K]

theorem mem_setInsert (x a : NodeId) (l : List NodeId) :
    x ∈ setInsert a l ↔ x = a ∨ x ∈ l := by
  induction l with
  | nil => simp [setInsert]
  | cons y ys ih =>
    unfold setInsert
    by_cases h1 : a < y
    · simp [h1]
    · by_cases h2 : a = y
      · subst h2
        simp
      · simp only [h1, h2, if_false, List.mem_cons, ih]
        tauto

theorem candidateScore_eq_some_some (ext : Externals K) (q : Descriptor K)
    (cfg : DescriptorMatchConfig K) (descriptors : DescriptorCache K)
    (rlm : StdMap (List NodeId)) (qid c : NodeId) (s : K) :
    candidateScore ext q cfg descriptors rlm qid c = some (some s) ↔
      ∃ leaves d, mapAt rlm c = some leaves ∧ qid ∉ leaves ∧ mapAt descriptors c = some d ∧
        cfg.min_time_separation_s ≤ q.timestamp - d.timestamp ∧
        computeDescriptorScore ext q d cfg.type = some s := by
  unfold candidateScore
  cases h1 : mapAt rlm c with
  | none => simp
  | some leaves =>
    by_cases h2 : qid ∈ leaves
    · simp [h2]
    · cases h3 : mapAt descriptors c with
      | none => simp [h2]
      | some d =>
        by_cases h4 : q.timestamp - d.timestamp < cfg.min_time_separation_s
        · simp [h2, h4]
        · simp [h2, h4, not_lt.1 h4]

theorem candidateScore_config (ext : Externals K) (q : Descriptor K)
    (cfg cfg' : DescriptorMatchConfig K) (descriptors : DescriptorCache K)
    (rlm : StdMap (List NodeId)) (qid c : NodeId)
    (ht : cfg'.type = cfg.type)
    (hs : cfg'.min_time_separation_s = cfg.min_time_separation_s) :
    candidateScore ext q cfg' descriptors rlm qid c
      = candidateScore ext q cfg descriptors rlm qid c := by
  unfold candidateScore
  rw [ht, hs]

theorem scoringStep_config (cfg cfg' : DescriptorMatchConfig K) (st : ScoringState K)
    (c : NodeId) (s : K) (hm : cfg'.min_score = cfg.min_score) :
    scoringStep cfg' st c s = scoringStep cfg st c s := by
  unfold scoringStep
  rw [hm]

theorem scoringPass_config (ext : Externals K) (q : Descriptor K)
    (cfg cfg' : DescriptorMatchConfig K) (descriptors : DescriptorCache K)
    (rlm : StdMap (List NodeId)) (qid : NodeId)
    (ht : cfg'.type = cfg.type)
    (hs : cfg'.min_time_separation_s = cfg.min_time_separation_s)
    (hm : cfg'.min_score = cfg.min_score) :
    ∀ (valid : List NodeId) (st : ScoringState K),
      scoringPass ext q cfg' descriptors rlm qid valid st
        = scoringPass ext q cfg descriptors rlm qid valid st := by
  intro valid
  induction valid with
  | nil => intro st; rfl
  | cons c rest ih =>
    intro st
    simp only [scoringPass, candidateScore_config ext q cfg cfg' descriptors rlm qid c ht hs,
      scoringStep_config cfg cfg' _ _ _ hm, ih]

/-- Everything the first loop guarantees about its final state. -/
theorem scoringPass_spec (ext : Externals K) (q : Descriptor K)
    (cfg : DescriptorMatchConfig K) (descriptors : DescriptorCache K)
    (rlm : StdMap (List NodeId)) (qid : NodeId) :
    ∀ (valid : List NodeId) (st st' : ScoringState K),
      scoringPass ext q cfg descriptors rlm qid valid st = some st' →
      (∀ c, c ∈ st'.new_valid_matches ↔ c ∈ st.new_valid_matches ∨
          (c ∈ valid ∧ ∃ s, candidateScore ext q cfg descriptors rlm qid c = some (some s) ∧
            cfg.min_score < s)) ∧
      (∀ p, p ∈ st'.new_valid_match_scores ↔ p ∈ st.new_valid_match_scores ∨
          (p.1 ∈ valid ∧ candidateScore ext q cfg descriptors rlm qid p.1 = some (some p.2) ∧
            cfg.min_score < p.2)) ∧
      st.best_score ≤ st'.best_score ∧
      (∀ c ∈ valid, ∀ s, candidateScore ext q cfg descriptors rlm qid c = some (some s) →
          s ≤ st'.best_score) ∧
      (st'.best_score = st.best_score ∨
        ∃ c ∈ valid, candidateScore ext q cfg descriptors rlm qid c
          = some (some st'.best_score)) ∧
      (∀ c ∈ valid, candidateScore ext q cfg descriptors rlm qid c ≠ none) := by
  intro valid
  induction valid with
  | nil =>
    intro st st' h
    simp only [scoringPass, Option.some.injEq] at h
    subst h
    simp
  | cons c rest ih =>
    intro st st' h
    rw [scoringPass] at h
    cases hc : candidateScore ext q cfg descriptors rlm qid c with
    | none => rw [hc] at h; simp at h
    | some o =>
      cases o with
      | none =>
        rw [hc] at h
        simp only at h
        obtain ⟨i1, i2, i3, i4, i5, i6⟩ := ih st st' h
        refine ⟨?_, ?_, i3, ?_, ?_, ?_⟩
        · intro x
          rw [i1 x]
          constructor
          · rintro (h' | ⟨h', h''⟩)
            · exact Or.inl h'
            · exact Or.inr ⟨List.mem_cons_of_mem _ h', h''⟩
          · rintro (h' | ⟨h', s, hs, hlt⟩)
            · exact Or.inl h'
            · rcases List.mem_cons.1 h' with e | e
              · subst e; rw [hc] at hs; simp at hs
              · exact Or.inr ⟨e, s, hs, hlt⟩
        · intro p
          rw [i2 p]
          constructor
          · rintro (h' | ⟨h', h''⟩)
            · exact Or.inl h'
            · exact Or.inr ⟨List.mem_cons_of_mem _ h', h''⟩
          · rintro (h' | ⟨h', hs, hlt⟩)
            · exact Or.inl h'
            · rcases List.mem_cons.1 h' with e | e
              · rw [e, hc] at hs; simp at hs
              · exact Or.inr ⟨e, hs, hlt⟩
        · intro x hx s hs
          rcases List.mem_cons.1 hx with e | e
          · subst e; rw [hc] at hs; simp at hs
          · exact i4 x e s hs
        · rcases i5 with e | ⟨x, hx, e⟩
          · exact Or.inl e
          · exact Or.inr ⟨x, List.mem_cons_of_mem _ hx, e⟩
        · intro x hx
          rcases List.mem_cons.1 hx with e | e
          · subst e; rw [hc]; simp
          · exact i6 x e
      | some s0 =>
        rw [hc] at h
        simp only at h
        obtain ⟨i1, i2, i3, i4, i5, i6⟩ := ih _ st' h
        have hb : (scoringStep cfg st c s0).best_score = max s0 st.best_score := by
          unfold scoringStep
          by_cases hgt : s0 > st.best_score
          · have : max s0 st.best_score = s0 := max_eq_left (le_of_lt hgt)
            by_cases hm : s0 > cfg.min_score <;> simp only [hgt, hm, if_true, if_false, this]
          · have : max s0 st.best_score = st.best_score := max_eq_right (not_lt.1 hgt)
            by_cases hm : s0 > cfg.min_score <;> simp only [hgt, hm, if_true, if_false, this]
        have hv : ∀ x, x ∈ (scoringStep cfg st c s0).new_valid_matches ↔
            x ∈ st.new_valid_matches ∨ (x = c ∧ cfg.min_score < s0) := by
          intro x
          unfold scoringStep
          by_cases hgt : s0 > cfg.min_score
          · simp only [hgt, if_true, mem_setInsert]
            have : cfg.min_score < s0 := hgt
            tauto
          · simp only [hgt, if_false]
            have : ¬ cfg.min_score < s0 := hgt
            tauto
        have hp : ∀ p, p ∈ (scoringStep cfg st c s0).new_valid_match_scores ↔
            p ∈ st.new_valid_match_scores ∨ (p = (c, s0) ∧ cfg.min_score < s0) := by
          intro p
          unfold scoringStep
          by_cases hgt : s0 > cfg.min_score
          · simp only [hgt, if_true, List.mem_append, List.mem_singleton]
            have : cfg.min_score < s0 := hgt
            tauto
          · simp only [hgt, if_false]
            have : ¬ cfg.min_score < s0 := hgt
            tauto
        rw [hb] at i3 i5
        refine ⟨?_, ?_, le_trans (le_max_right _ _) i3, ?_, ?_, ?_⟩
        · intro x
          rw [i1 x, hv x]
          constructor
          · rintro ((h' | ⟨e, hlt⟩) | ⟨h', h''⟩)
            · exact Or.inl h'
            · exact Or.inr ⟨by rw [e]; exact List.mem_cons_self _ _, s0, by rw [e]; exact hc, hlt⟩
            · exact Or.inr ⟨List.mem_cons_of_mem _ h', h''⟩
          · rintro (h' | ⟨h', s, hs, hlt⟩)
            · exact Or.inl (Or.inl h')
            · rcases List.mem_cons.1 h' with e | e
              · subst e
                rw [hc] at hs
                simp only [Option.some.injEq] at hs
                subst hs
                exact Or.inl (Or.inr ⟨rfl, hlt⟩)
              · exact Or.inr ⟨e, s, hs, hlt⟩
        · intro p
          rw [i2 p, hp p]
          constructor
          · rintro ((h' | ⟨e, hlt⟩) | ⟨h', h''⟩)
            · exact Or.inl h'
            · subst e
              exact Or.inr ⟨List.mem_cons_self _ _, hc, hlt⟩
            · exact Or.inr ⟨List.mem_cons_of_mem _ h', h''⟩
          · rintro (h' | ⟨h', hs, hlt⟩)
            · exact Or.inl (Or.inl h')
            · rcases List.mem_cons.1 h' with e | e
              · rw [e, hc] at hs
                simp only [Option.some.injEq] at hs
                exact Or.inl (Or.inr ⟨Prod.ext e hs.symm, hs ▸ hlt⟩)
              · exact Or.inr ⟨e, hs, hlt⟩
        · intro x hx s hs
          rcases List.mem_cons.1 hx with e | e
          · subst e
            rw [hc] at hs
            simp only [Option.some.injEq] at hs
            subst hs
            exact le_trans (le_max_left _ _) i3
          · exact i4 x e s hs
        · rcases i5 with e | ⟨x, hx, e⟩
          · rcases max_choice s0 st.best_score with m | m
            · right
              refine ⟨c, List.mem_cons_self _ _, ?_⟩
              rw [e, m, hc]
            · left
              rw [e, m]
          · exact Or.inr ⟨x, List.mem_cons_of_mem _ hx, e⟩
        · intro x hx
          rcases List.mem_cons.1 hx with e | e
          · subst e; rw [hc]; simp
          · exact i6 x e

end SearchLemmas

section FilterLemmas

variable {K : Type} [LinearOrderedField K]

theorem spatiallyDistinct_true (ext : Externals K) (cfg : DescriptorMatchConfig K)
    (descriptors : DescriptorCache K) (id : NodeId) :
    ∀ ms : List NodeId, spatiallyDistinct ext cfg descriptors id ms = some true →
      ∀ m ∈ ms, Separated ext cfg descriptors m id := by
  intro ms
  induction ms with
  | nil => intro _ m hm; simp at hm
  | cons m0 ms ih =>
    intro h m hm
    rw [spatiallyDistinct] at h
    cases hd : mapAt descriptors id with
    | none => rw [hd] at h; simp at h
    | some d =>
      cases hdm : mapAt descriptors m0 with
      | none => rw [hd, hdm] at h; simp at h
      | some dm =>
        rw [hd, hdm] at h
        simp only at h
        by_cases hlt : ext.norm (d.root_position - dm.root_position)
            < cfg.min_match_separation_m
        · rw [if_pos hlt] at h; simp at h
        · rw [if_neg hlt] at h
          rcases List.mem_cons.1 hm with e | e
          · subst e
            exact ⟨dm, d, hdm, hd, not_lt.1 hlt⟩
          · exact ih h m e

theorem spatiallyDistinct_isSome (ext : Externals K) (cfg : DescriptorMatchConfig K)
    (descriptors : DescriptorCache K) (id : NodeId)
    (hid : ∃ d, mapAt descriptors id = some d) :
    ∀ ms : List NodeId, (∀ m ∈ ms, ∃ d, mapAt descriptors m = some d) →
      ∃ b, spatiallyDistinct ext cfg descriptors id ms = some b := by
  intro ms
  induction ms with
  | nil => intro _; exact ⟨true, rfl⟩
  | cons m0 ms ih =>
    intro hms
    obtain ⟨d, hd⟩ := hid
    obtain ⟨dm, hdm⟩ := hms m0 (List.mem_cons_self _ _)
    rw [spatiallyDistinct, hd, hdm]
    simp only
    by_cases hlt : ext.norm (d.root_position - dm.root_position)
        < cfg.min_match_separation_m
    · rw [if_pos hlt]; exact ⟨false, rfl⟩
    · rw [if_neg hlt]
      exact ih (fun m hm => hms m (List.mem_cons_of_mem _ hm))

/-- The accepted matches are a sub-list of the pairs offered to the second loop, appended in
order to the three result vectors, and each of them passed the two score tests. -/
theorem filterPass_spec (ext : Externals K) (cfg : DescriptorMatchConfig K)
    (descriptors : DescriptorCache K) (best : K) :
    ∀ (l : List (NodeId × K)) (st r : MatchState K),
      filterPass ext cfg descriptors best l st = some r →
      ∃ acc : List (NodeId × K), acc.Sublist l ∧
        r.matches_ = st.matches_ ++ acc.map Prod.fst ∧
        r.match_scores = st.match_scores ++ acc.map Prod.snd ∧
        ∀ p ∈ acc, cfg.min_registration_score ≤ p.2 ∧ best * cfg.min_score_ratio < p.2 := by
  intro l
  induction l with
  | nil =>
    intro st r h
    simp only [filterPass, Option.some.injEq] at h
    subst h
    exact ⟨[], List.Sublist.refl _, by simp, by simp, by simp⟩
  | cons p rest ih =>
    intro st r h
    rw [filterPass] at h
    by_cases h1 : p.2 < cfg.min_registration_score
    · rw [if_pos h1] at h
      simp only [Option.some.injEq] at h
      subst h
      exact ⟨[], List.nil_sublist _, by simp, by simp, by simp⟩
    · rw [if_neg h1] at h
      by_cases h2 : p.2 > best * cfg.min_score_ratio
      · rw [if_pos h2] at h
        cases hsd : spatiallyDistinct ext cfg descriptors p.1 st.matches_ with
        | none => rw [hsd] at h; simp at h
        | some b =>
          rw [hsd] at h
          cases b with
          | false =>
            simp only at h
            obtain ⟨acc, a1, a2, a3, a4⟩ := ih st r h
            exact ⟨acc, List.Sublist.cons _ a1, a2, a3, a4⟩
          | true =>
            simp only at h
            cases hd : mapAt descriptors p.1 with
            | none => rw [hd] at h; simp at h
            | some d =>
              rw [hd] at h
              simp only at h
              by_cases h3 : (st.matches_ ++ [p.1]).length = cfg.max_registration_matches
              · rw [if_pos h3] at h
                simp only [Option.some.injEq] at h
                subst h
                refine ⟨[p], ?_, by simp, by simp, ?_⟩
                · exact List.Sublist.cons₂ _ (List.nil_sublist _)
                · intro x hx
                  rw [List.mem_singleton] at hx
                  subst hx
                  exact ⟨not_lt.1 h1, h2⟩
              · rw [if_neg h3] at h
                obtain ⟨acc, a1, a2, a3, a4⟩ := ih _ r h
                refine ⟨p :: acc, List.Sublist.cons₂ _ a1, ?_, ?_, ?_⟩
                · rw [a2]; simp
                · rw [a3]; simp
                · intro x hx
                  rcases List.mem_cons.1 hx with e | e
                  · subst e; exact ⟨not_lt.1 h1, h2⟩
                  · exact a4 x e
      · rw [if_neg h2] at h
        by_cases h3 : st.matches_.length = cfg.max_registration_matches
        · rw [if_pos h3] at h
          simp only [Option.some.injEq] at h
          subst h
          exact ⟨[], List.nil_sublist _, by simp, by simp, by simp⟩
        · rw [if_neg h3] at h
          obtain ⟨acc, a1, a2, a3, a4⟩ := ih st r h
          exact ⟨acc, List.Sublist.cons _ a1, a2, a3, a4⟩

theorem filterPass_separated (ext : Externals K) (cfg : DescriptorMatchConfig K)
    (descriptors : DescriptorCache K) (best : K) :
    ∀ (l : List (NodeId × K)) (st r : MatchState K),
      st.matches_.Pairwise (Separated ext cfg descriptors) →
      filterPass ext cfg descriptors best l st = some r →
      r.matches_.Pairwise (Separated ext cfg descriptors) := by
  intro l
  induction l with
  | nil =>
    intro st r hp h
    simp only [filterPass, Option.some.injEq] at h
    subst h
    exact hp
  | cons p rest ih =>
    intro st r hp h
    rw [filterPass] at h
    by_cases h1 : p.2 < cfg.min_registration_score
    · rw [if_pos h1] at h
      simp only [Option.some.injEq] at h
      subst h
      exact hp
    · rw [if_neg h1] at h
      by_cases h2 : p.2 > best * cfg.min_score_ratio
      · rw [if_pos h2] at h
        cases hsd : spatiallyDistinct ext cfg descriptors p.1 st.matches_ with
        | none => rw [hsd] at h; simp at h
        | some b =>
          rw [hsd] at h
          cases b with
          | false => exact ih st r hp h
          | true =>
            simp only at h
            have hnew : (st.matches_ ++ [p.1]).Pairwise (Separated ext cfg descriptors) := by
              rw [List.pairwise_append]
              refine ⟨hp, List.pairwise_singleton _ _, ?_⟩
              intro a ha b hb
              rw [List.mem_singleton] at hb
              subst hb
              exact spatiallyDistinct_true ext cfg descriptors _ _ hsd a ha
            cases hd : mapAt descriptors p.1 with
            | none => rw [hd] at h; simp at h
            | some d =>
              rw [hd] at h
              simp only at h
              by_cases h3 : (st.matches_ ++ [p.1]).length = cfg.max_registration_matches
              · rw [if_pos h3] at h
                simp only [Option.some.injEq] at h
                subst h
                exact hnew
              · rw [if_neg h3] at h
                exact ih _ r hnew h
      · rw [if_neg h2] at h
        by_cases h3 : st.matches_.length = cfg.max_registration_matches
        · rw [if_pos h3] at h
          simp only [Option.some.injEq] at h
          subst h
          exact hp
        · rw [if_neg h3] at h
          exact ih st r hp h

/-- With a cap of at least one the second loop never exceeds it. -/
theorem filterPass_length_le (ext : Externals K) (cfg : DescriptorMatchConfig K)
    (descriptors : DescriptorCache K) (best : K) :
    ∀ (l : List (NodeId × K)) (st r : MatchState K),
      st.matches_.length < cfg.max_registration_matches →
      filterPass ext cfg descriptors best l st = some r →
      r.matches_.length ≤ cfg.max_registration_matches := by
  intro l
  induction l with
  | nil =>
    intro st r hp h
    simp only [filterPass, Option.some.injEq] at h
    subst h
    exact le_of_lt hp
  | cons p rest ih =>
    intro st r hp h
    rw [filterPass] at h
    by_cases h1 : p.2 < cfg.min_registration_score
    · rw [if_pos h1] at h
      simp only [Option.some.injEq] at h
      subst h
      exact le_of_lt hp
    · rw [if_neg h1] at h
      by_cases h2 : p.2 > best * cfg.min_score_ratio
      · rw [if_pos h2] at h
        cases hsd : spatiallyDistinct ext cfg descriptors p.1 st.matches_ with
        | none => rw [hsd] at h; simp at h
        | some b =>
          rw [hsd] at h
          cases b with
          | false => exact ih st r hp h
          | true =>
            simp only at h
            cases hd : mapAt descriptors p.1 with
            | none => rw [hd] at h; simp at h
            | some d =>
              rw [hd] at h
              simp only at h
              by_cases h3 : (st.matches_ ++ [p.1]).length = cfg.max_registration_matches
              · rw [if_pos h3] at h
                simp only [Option.some.injEq] at h
                subst h
                exact le_of_eq h3
              · rw [if_neg h3] at h
                refine ih _ r ?_ h
                simp only [List.length_append, List.length_singleton] at h3 ⊢
                omega
      · rw [if_neg h2] at h
        by_cases h3 : st.matches_.length = cfg.max_registration_matches
        · rw [if_pos h3] at h
          simp only [Option.some.injEq] at h
          subst h
          exact le_of_lt hp
        · rw [if_neg h3] at h
          exact ih st r hp h

/-- The second loop cannot throw when every id it is given has a descriptor. -/
theorem filterPass_isSome (ext : Externals K) (cfg : DescriptorMatchConfig K)
    (descriptors : DescriptorCache K) (best : K) :
    ∀ (l : List (NodeId × K)) (st : MatchState K),
      (∀ p ∈ l, ∃ d, mapAt descriptors p.1 = some d) →
      (∀ m ∈ st.matches_, ∃ d, mapAt descriptors m = some d) →
      ∃ r, filterPass ext cfg descriptors best l st = some r := by
  intro l
  induction l with
  | nil => intro st _ _; exact ⟨st, rfl⟩
  | cons p rest ih =>
    intro st hl hst
    have hrest : ∀ x ∈ rest, ∃ d, mapAt descriptors x.1 = some d :=
      fun x hx => hl x (List.mem_cons_of_mem _ hx)
    obtain ⟨d, hd⟩ := hl p (List.mem_cons_self _ _)
    rw [filterPass]
    by_cases h1 : p.2 < cfg.min_registration_score
    · rw [if_pos h1]; exact ⟨st, rfl⟩
    · rw [if_neg h1]
      by_cases h2 : p.2 > best * cfg.min_score_ratio
      · rw [if_pos h2]
        obtain ⟨b, hb⟩ := spatiallyDistinct_isSome ext cfg descriptors p.1 ⟨d, hd⟩ _ hst
        rw [hb]
        cases b with
        | false => exact ih st hrest hst
        | true =>
          simp only [hd]
          by_cases h3 : (st.matches_ ++ [p.1]).length = cfg.max_registration_matches
          · rw [if_pos h3]; exact ⟨_, rfl⟩
          · rw [if_neg h3]
            refine ih _ hrest ?_
            intro m hm
            rcases List.mem_append.1 hm with e | e
            · exact hst m e
            · rw [List.mem_singleton] at e
              subst e
              exact ⟨d, hd⟩
      · rw [if_neg h2]
        by_cases h3 : st.matches_.length = cfg.max_registration_matches
        · rw [if_pos h3]; exact ⟨st, rfl⟩
        · rw [if_neg h3]
          exact ih st hrest hst

end FilterLemmas

section ExampleRuns

theorem exampleExt_sortsDescending : SortsDescending exampleExt.sort := by
  intro l
  have htot : IsTotal (NodeId × ℚ) (fun a b => b.2 ≤ a.2) := ⟨fun a b => le_total b.2 a.2⟩
  have htr : IsTrans (NodeId × ℚ) (fun a b => b.2 ≤ a.2) := ⟨fun _ _ _ h1 h2 => le_trans h2 h1⟩
  exact ⟨List.perm_insertionSort _ l, List.sorted_insertionSort _ l⟩

theorem exampleExt_norm_symm (p q : Vector3 ℚ) :
    exampleExt.norm (p - q) = exampleExt.norm (q - p) := by
  simp only [exampleExt, Prod.fst_sub, Prod.snd_sub]
  rw [abs_sub_comm p.1, abs_sub_comm p.2.1, abs_sub_comm p.2.2]

theorem exampleScore (id : NodeId) (t x v : ℚ) (hv : v ≠ 0) :
    computeDescriptorScore exampleExt exampleQuery (exampleDescriptor id t x v)
      DescriptorScoreType.L1 = some (1 - |1 - v| / 2) := by
  simp [computeDescriptorScore, exampleExt, computeDistance, computeDistanceHist, histStep,
    exampleQuery, exampleDescriptor, List.range_succ, hv]
  ring

theorem exampleCandidates (cap : Nat) :
    candidateScore exampleExt exampleQuery (exampleConfig cap) exampleCache exampleRootLeafMap
      9 1 = some (some (3 / 4)) ∧
    candidateScore exampleExt exampleQuery (exampleConfig cap) exampleCache exampleRootLeafMap
      9 2 = some (some 1) ∧
    candidateScore exampleExt exampleQuery (exampleConfig cap) exampleCache exampleRootLeafMap
      9 3 = some (some (3 / 4)) ∧
    candidateScore exampleExt exampleQuery (exampleConfig cap) exampleCache exampleRootLeafMap
      9 4 = some none ∧
    candidateScore exampleExt exampleQuery (exampleConfig cap) exampleCache exampleRootLeafMap
      9 5 = some none := by
  refine ⟨?_, ?_, ?_, ?_, ?_⟩
  · simp [candidateScore, mapAt, exampleCache, exampleRootLeafMap, exampleScore, exampleConfig]
    norm_num [exampleQuery, exampleDescriptor, abs_of_pos]
  · simp [candidateScore, mapAt, exampleCache, exampleRootLeafMap, exampleScore, exampleConfig]
    norm_num [exampleQuery, exampleDescriptor, abs_of_pos]
  · simp [candidateScore, mapAt, exampleCache, exampleRootLeafMap, exampleScore, exampleConfig]
    norm_num [exampleQuery, exampleDescriptor, abs_of_pos]
  · simp [candidateScore, mapAt, exampleCache, exampleRootLeafMap, exampleScore, exampleConfig]
    norm_num [exampleQuery, exampleDescriptor, abs_of_pos]
  · simp [candidateScore, mapAt, exampleCache, exampleRootLeafMap, exampleScore, exampleConfig]

theorem exampleScoring (cap : Nat) :
    scoringPass exampleExt exampleQuery (exampleConfig cap) exampleCache exampleRootLeafMap 9
      [1, 2, 3, 4, 5] { best_score := 0, new_valid_match_scores := [], new_valid_matches := [] }
      = some { best_score := 1, new_valid_match_scores := [(1, 3 / 4), (2, 1), (3, 3 / 4)],
               new_valid_matches := [1, 2, 3] } := by
  obtain ⟨h1, h2, h3, h4, h5⟩ := exampleCandidates cap
  simp only [scoringPass, h1, h2, h3, h4, h5]
  norm_num [scoringStep, exampleConfig, setInsert]

theorem exampleSorted :
    exampleExt.sort [(1, 3 / 4), (2, 1), (3, 3 / 4)] = [(2, 1), (1, 3 / 4), (3, 3 / 4)] := by
  norm_num [exampleExt, List.insertionSort, List.orderedInsert]

theorem exampleFilterTwo :
    filterPass exampleExt (exampleConfig 2) exampleCache 1 [(2, 1), (1, 3 / 4), (3, 3 / 4)]
      { match_nodes := [], matches_ := [], match_scores := [] }
      = some { match_nodes := [[2], [3]], matches_ := [2, 3], match_scores := [1, 3 / 4] } := by
  norm_num [filterPass, spatiallyDistinct, mapAt, exampleCache, exampleConfig, exampleExt,
    exampleDescriptor]

theorem exampleFilterZero :
    filterPass exampleExt (exampleConfig 0) exampleCache 1 [(2, 1), (1, 3 / 4), (3, 3 / 4)]
      { match_nodes := [], matches_ := [], match_scores := [] }
      = some { match_nodes := [[2], [3]], matches_ := [2, 3], match_scores := [1, 3 / 4] } := by
  norm_num [filterPass, spatiallyDistinct, mapAt, exampleCache, exampleConfig, exampleExt,
    exampleDescriptor]

/-- The run of `searchDescriptors` used to instantiate the theorems below: candidates `4`
(too recent) and `5` (contains the query) are skipped, `2` scores `1`, `1` and `3` score
`3/4`, and `1` is dropped for being at the position of `2`. -/
theorem exampleSearch :
    searchDescriptors exampleExt exampleQuery (exampleConfig 2) [1, 2, 3, 4, 5] exampleCache
      exampleRootLeafMap 9 = some exampleResult := by
  simp only [searchDescriptors, exampleScoring, exampleSorted, exampleFilterTwo]
  rfl

/-- The run of `searchLeafDescriptors` used below: leaf `4` is too recent and leaf `9` is the
query itself. -/
theorem exampleLeafSearch :
    searchLeafDescriptors exampleExt exampleQuery (exampleConfig 1) [1] exampleLeafMap 9
      = some { score := [], valid_matches := [], query_nodes := [], match_nodes := [],
               query_root := 9, match_root := [] } := by
  norm_num [searchLeafDescriptors, leafOuter, leafInner, mapAt, exampleLeafMap, exampleQuery,
    exampleDescriptor, exampleConfig]

theorem exampleLeafMap_no_pass :
    ∀ root ∈ [1], ∀ cache, mapAt exampleLeafMap root = some cache →
      ∀ p ∈ cache, p.1 = 9 ∨
        exampleQuery.timestamp - p.2.timestamp < (exampleConfig 1).min_time_separation_s := by
  intro root hroot cache hcache p hp
  rw [List.mem_singleton] at hroot
  subst hroot
  simp only [exampleLeafMap, mapAt, if_true, Option.some.injEq] at hcache
  subst hcache
  simp only [List.mem_cons, List.mem_singleton, List.not_mem_nil, or_false] at hp
  rcases hp with e | e
  · right
    rw [e]
    norm_num [exampleQuery, exampleDescriptor, exampleConfig]
  · left
    rw [e]

end ExampleRuns

section RootSearch

variable {K : Type} [LinearOrderedField K]

/-- A returning call of `searchDescriptors` went through both loops. -/
theorem searchDescriptors_eq_some (ext : Externals K) (q : Descriptor K)
    (cfg : DescriptorMatchConfig K) (valid : List NodeId) (descriptors : DescriptorCache K)
    (rlm : StdMap (List NodeId)) (qid : NodeId) (r : LayerSearchResults K)
    (h : searchDescriptors ext q cfg valid descriptors rlm qid = some r) :
    ∃ st ms,
      scoringPass ext q cfg descriptors rlm qid valid
        { best_score := 0, new_valid_match_scores := [], new_valid_matches := [] } = some st ∧
      filterPass ext cfg descriptors st.best_score (ext.sort st.new_valid_match_scores)
        { match_nodes := [], matches_ := [], match_scores := [] } = some ms ∧
      r = { score := ms.match_scores, valid_matches := st.new_valid_matches,
            query_nodes := q.nodes, match_nodes := ms.match_nodes, query_root := q.root_node,
            match_root := ms.matches_ } := by
  unfold searchDescriptors at h
  cases h1 : scoringPass ext q cfg descriptors rlm qid valid
      { best_score := 0, new_valid_match_scores := [], new_valid_matches := [] } with
  | none => rw [h1] at h; simp at h
  | some st =>
    rw [h1] at h
    simp only at h
    cases h2 : filterPass ext cfg descriptors st.best_score (ext.sort st.new_valid_match_scores)
        { match_nodes := [], matches_ := [], match_scores := [] } with
    | none => rw [h2] at h; simp at h
    | some ms =>
      rw [h2] at h
      simp only [Option.some.injEq] at h
      exact ⟨st, ms, rfl, h2, h.symm⟩

/-- The returned ids and scores are, position by position, pairs recorded by the first loop. -/
theorem searchDescriptors_pairs (ext : Externals K) (hsort : SortsDescending ext.sort)
    (q : Descriptor K) (cfg : DescriptorMatchConfig K) (valid : List NodeId)
    (descriptors : DescriptorCache K) (rlm : StdMap (List NodeId)) (qid : NodeId)
    (r : LayerSearchResults K)
    (h : searchDescriptors ext q cfg valid descriptors rlm qid = some r) :
    ∃ (st : ScoringState K) (acc : List (NodeId × K)),
      scoringPass ext q cfg descriptors rlm qid valid
        { best_score := 0, new_valid_match_scores := [], new_valid_matches := [] } = some st ∧
      r.valid_matches = st.new_valid_matches ∧
      r.match_root = acc.map Prod.fst ∧ r.score = acc.map Prod.snd ∧
      acc.Pairwise (fun a b => b.2 ≤ a.2) ∧
      ∀ p ∈ acc, p ∈ st.new_valid_match_scores ∧ cfg.min_registration_score ≤ p.2 ∧
        st.best_score * cfg.min_score_ratio < p.2 := by
  obtain ⟨st, ms, h1, h2, h3⟩ := searchDescriptors_eq_some ext q cfg valid descriptors rlm qid r h
  obtain ⟨acc, a1, a2, a3, a4⟩ := filterPass_spec ext cfg descriptors _ _ _ _ h2
  obtain ⟨hperm, hsorted⟩ := hsort st.new_valid_match_scores
  subst h3
  refine ⟨st, acc, h1, rfl, by simpa using a2, by simpa using a3,
    List.Pairwise.sublist a1 hsorted, ?_⟩
  intro p hp
  exact ⟨hperm.subset (a1.subset hp), a4 p hp⟩

theorem mem_zip_map_fst_snd {α β : Type} (acc : List (α × β)) (p : α × β)
    (hp : p ∈ List.zip (acc.map Prod.fst) (acc.map Prod.snd)) : p ∈ acc := by
  induction acc with
  | nil => simp at hp
  | cons a rest ih =>
    simp only [List.map_cons, List.zip_cons_cons, List.mem_cons] at hp ⊢
    rcases hp with e | e
    · left; rw [e]
    · right; exact ih e

/-- With a cap of at least one, `searchDescriptors` returns at most
`max_registration_matches` matches and as many scores. -/
theorem searchDescriptors_length_le_of_pos (ext : Externals K) (q : Descriptor K)
    (cfg : DescriptorMatchConfig K) (valid : List NodeId) (descriptors : DescriptorCache K)
    (rlm : StdMap (List NodeId)) (qid : NodeId) (r : LayerSearchResults K)
    (hcap : 1 ≤ cfg.max_registration_matches)
    (h : searchDescriptors ext q cfg valid descriptors rlm qid = some r) :
    r.match_root.length ≤ cfg.max_registration_matches ∧
    r.score.length = r.match_root.length := by
  obtain ⟨st, ms, h1, h2, h3⟩ := searchDescriptors_eq_some ext q cfg valid descriptors rlm qid r h
  obtain ⟨acc, _, a2, a3, _⟩ := filterPass_spec ext cfg descriptors _ _ _ _ h2
  have hle := filterPass_length_le ext cfg descriptors _ _ _ _ (by simpa using hcap) h2
  subst h3
  refine ⟨hle, ?_⟩
  simp only [a2, a3, List.nil_append, List.length_map]

/-- C3 (evaluation at the failing input): with `max_registration_matches = 0` the search
returns two matches and two scores, more than the cap. -/
theorem searchDescriptors_zero_cap_exceeded :
    ∃ r, searchDescriptors exampleExt exampleQuery (exampleConfig 0) [1, 2, 3, 4, 5]
        exampleCache exampleRootLeafMap 9 = some r ∧
      r.match_root = [2, 3] ∧ r.score = [1, 3 / 4] ∧
      (exampleConfig 0).max_registration_matches = 0 ∧
      (exampleConfig 0).max_registration_matches < r.match_root.length := by
  refine ⟨exampleResult, ?_, rfl, rfl, rfl, by decide⟩
  simp only [searchDescriptors, exampleScoring, exampleSorted, exampleFilterZero]
  rfl

/-- C4: when `searchDescriptors` returns, any two distinct returned match ids have cached
descriptors whose root positions are at least `min_match_separation_m` apart (the norm of a
difference does not depend on the order of its operands). -/
theorem searchDescriptors_matches_separated (ext : Externals K)
    (hnorm : ∀ p p' : Vector3 K, ext.norm (p - p') = ext.norm (p' - p))
    (q : Descriptor K) (cfg : DescriptorMatchConfig K) (valid : List NodeId)
    (descriptors : DescriptorCache K) (rlm : StdMap (List NodeId)) (qid : NodeId)
    (r : LayerSearchResults K)
    (h : searchDescriptors ext q cfg valid descriptors rlm qid = some r) :
    ∀ a ∈ r.match_root, ∀ b ∈ r.match_root, a ≠ b →
      ∃ da db, mapAt descriptors a = some da ∧ mapAt descriptors b = some db ∧
        cfg.min_match_separation_m ≤ ext.norm (da.root_position - db.root_position) := by
  obtain ⟨st, ms, _, h2, h3⟩ := searchDescriptors_eq_some ext q cfg valid descriptors rlm qid r h
  have hp := filterPass_separated ext cfg descriptors _ _ _ _ List.Pairwise.nil h2
  subst h3
  have hsymm : Symmetric (Separated ext cfg descriptors) := by
    rintro a b ⟨da, db, h1, h2', h3⟩
    exact ⟨db, da, h2', h1, by rw [hnorm]; exact h3⟩
  intro a ha b hb hab
  obtain ⟨da, db, e1, e2, e3⟩ := hp.forall hsymm ha hb hab
  exact ⟨da, db, e1, e2, by rw [hnorm]; exact e3⟩

/-- C5: when `searchDescriptors` returns, the returned scores are in non-increasing order,
there are as many scores as match ids, and the score at each position is the score of the
match id at that position against the query. -/
theorem searchDescriptors_scores_sorted (ext : Externals K) (hsort : SortsDescending ext.sort)
    (q : Descriptor K) (cfg : DescriptorMatchConfig K) (valid : List NodeId)
    (descriptors : DescriptorCache K) (rlm : StdMap (List NodeId)) (qid : NodeId)
    (r : LayerSearchResults K)
    (h : searchDescriptors ext q cfg valid descriptors rlm qid = some r) :
    r.score.Pairwise (fun s s' => s' ≤ s) ∧
    List.Chain' (fun s s' => s ≥ s') r.score ∧
    r.score.length = r.match_root.length ∧
    ∀ p ∈ List.zip r.match_root r.score,
      ∃ d, mapAt descriptors p.1 = some d ∧
        computeDescriptorScore ext q d cfg.type = some p.2 := by
  obtain ⟨st, acc, h1, _, h3, h4, h5, h6⟩ :=
    searchDescriptors_pairs ext hsort q cfg valid descriptors rlm qid r h
  have hpw : r.score.Pairwise (fun s s' => s' ≤ s) := by
    rw [h4, List.pairwise_map]
    exact h5
  refine ⟨hpw, List.Pairwise.chain' hpw, by rw [h3, h4]; simp, ?_⟩
  intro p hp
  rw [h3, h4] at hp
  have hmem := (h6 p (mem_zip_map_fst_snd acc p hp)).1
  obtain ⟨_, i2, _⟩ := scoringPass_spec ext q cfg descriptors rlm qid _ _ _ h1
  rcases (i2 p).1 hmem with e | ⟨_, e, _⟩
  · simp at e
  · obtain ⟨_, d, _, _, hd, _, hs⟩ :=
      (candidateScore_eq_some_some ext q cfg descriptors rlm qid p.1 p.2).1 e
    exact ⟨d, hd, hs⟩

/-- C6: when `searchDescriptors` returns, a candidate whose `root_leaf_map` entry contains the
query id is neither among the returned match ids nor in the returned new-valid-matches set. -/
theorem searchDescriptors_excludes_self_containing (ext : Externals K)
    (hsort : SortsDescending ext.sort)
    (q : Descriptor K) (cfg : DescriptorMatchConfig K) (valid : List NodeId)
    (descriptors : DescriptorCache K) (rlm : StdMap (List NodeId)) (qid : NodeId)
    (r : LayerSearchResults K)
    (h : searchDescriptors ext q cfg valid descriptors rlm qid = some r)
    (c : NodeId) (leaves : List NodeId) (hc : mapAt rlm c = some leaves)
    (hq : qid ∈ leaves) :
    c ∉ r.match_root ∧ c ∉ r.valid_matches := by
  obtain ⟨st, acc, h1, h2, h3, _, _, h6⟩ :=
    searchDescriptors_pairs ext hsort q cfg valid descriptors rlm qid r h
  obtain ⟨i1, i2, _⟩ := scoringPass_spec ext q cfg descriptors rlm qid _ _ _ h1
  have hno : ∀ s, candidateScore ext q cfg descriptors rlm qid c ≠ some (some s) := by
    intro s hs
    obtain ⟨leaves', _, e1, e2, _⟩ :=
      (candidateScore_eq_some_some ext q cfg descriptors rlm qid c s).1 hs
    rw [hc] at e1
    simp only [Option.some.injEq] at e1
    subst e1
    exact e2 hq
  constructor
  · rw [h3]
    intro hmem
    obtain ⟨p, hp, rfl⟩ := List.mem_map.1 hmem
    rcases (i2 p).1 (h6 p hp).1 with e | ⟨_, e, _⟩
    · simp at e
    · exact hno _ e
  · rw [h2]
    intro hmem
    rcases (i1 c).1 hmem with e | ⟨_, s, e, _⟩
    · simp at e
    · exact hno _ e

end RootSearch

section RootSearchFilters

variable {K : Type} [LinearOrderedField K]

/-- A candidate that the first loop skips can be removed from the candidate set without
changing what the loop computes. -/
theorem scoringPass_filter_skipped (ext : Externals K) (q : Descriptor K)
    (cfg : DescriptorMatchConfig K) (descriptors : DescriptorCache K)
    (rlm : StdMap (List NodeId)) (qid c : NodeId)
    (hc : candidateScore ext q cfg descriptors rlm qid c = some none) :
    ∀ (valid : List NodeId) (st : ScoringState K),
      scoringPass ext q cfg descriptors rlm qid (valid.filter (fun x => x ≠ c)) st
        = scoringPass ext q cfg descriptors rlm qid valid st := by
  intro valid
  induction valid with
  | nil => intro st; rfl
  | cons x rest ih =>
    intro st
    by_cases hx : x = c
    · subst hx
      rw [List.filter_cons_of_neg (by simp), ih st]
      conv_rhs => rw [scoringPass, hc]
    · rw [List.filter_cons_of_pos (by simpa using hx)]
      rw [scoringPass]
      conv_rhs => rw [scoringPass]
      cases candidateScore ext q cfg descriptors rlm qid x with
      | none => rfl
      | some o =>
        cases o with
        | none => exact ih st
        | some s => exact ih _

/-- C7: when `searchDescriptors` returns, a candidate whose cached timestamp is less than
`min_time_separation_s` before the query is neither a returned match nor in the
new-valid-matches set, whatever it would score, and it has no influence on `best_score`:
without it in the candidate set the first loop ends with the same `best_score` and the search
returns the same result. -/
theorem searchDescriptors_excludes_recent (ext : Externals K)
    (hsort : SortsDescending ext.sort)
    (q : Descriptor K) (cfg : DescriptorMatchConfig K) (valid : List NodeId)
    (descriptors : DescriptorCache K) (rlm : StdMap (List NodeId)) (qid : NodeId)
    (r : LayerSearchResults K)
    (h : searchDescriptors ext q cfg valid descriptors rlm qid = some r)
    (c : NodeId) (d : Descriptor K) (hd : mapAt descriptors c = some d)
    (ht : q.timestamp - d.timestamp < cfg.min_time_separation_s) :
    c ∉ r.match_root ∧ c ∉ r.valid_matches ∧
    (∃ best, finalBestScore ext q cfg valid descriptors rlm qid = some best ∧
      finalBestScore ext q cfg (valid.filter (fun x => x ≠ c)) descriptors rlm qid
        = some best) ∧
    searchDescriptors ext q cfg (valid.filter (fun x => x ≠ c)) descriptors rlm qid
      = some r := by
  obtain ⟨st, acc, h1, h2, h3, _, _, h6⟩ :=
    searchDescriptors_pairs ext hsort q cfg valid descriptors rlm qid r h
  obtain ⟨i1, i2, _, _, _, i6⟩ := scoringPass_spec ext q cfg descriptors rlm qid _ _ _ h1
  have hno : ∀ s, candidateScore ext q cfg descriptors rlm qid c ≠ some (some s) := by
    intro s hs
    obtain ⟨_, d', _, _, e3, e4, _⟩ :=
      (candidateScore_eq_some_some ext q cfg descriptors rlm qid c s).1 hs
    rw [hd] at e3
    simp only [Option.some.injEq] at e3
    subst e3
    exact absurd ht (not_lt.2 e4)
  have hpass : scoringPass ext q cfg descriptors rlm qid (valid.filter (fun x => x ≠ c))
      { best_score := 0, new_valid_match_scores := [], new_valid_matches := [] }
      = scoringPass ext q cfg descriptors rlm qid valid
      { best_score := 0, new_valid_match_scores := [], new_valid_matches := [] } := by
    by_cases hmem : c ∈ valid
    · have hskip : candidateScore ext q cfg descriptors rlm qid c = some none := by
        cases hcs : candidateScore ext q cfg descriptors rlm qid c with
        | none => exact absurd hcs (i6 c hmem)
        | some o =>
          cases o with
          | none => rfl
          | some s => exact absurd hcs (hno s)
      exact scoringPass_filter_skipped ext q cfg descriptors rlm qid c hskip valid _
    · have : valid.filter (fun x => x ≠ c) = valid := by
        rw [List.filter_eq_self]
        intro x hx
        have : x ≠ c := fun e => hmem (e ▸ hx)
        simpa using this
      rw [this]
  refine ⟨?_, ?_, ⟨st.best_score, ?_, ?_⟩, ?_⟩
  · rw [h3]
    intro hmem
    obtain ⟨p, hp, rfl⟩ := List.mem_map.1 hmem
    rcases (i2 p).1 (h6 p hp).1 with e | ⟨_, e, _⟩
    · simp at e
    · exact hno _ e
  · rw [h2]
    intro hmem
    rcases (i1 c).1 hmem with e | ⟨_, s, e, _⟩
    · simp at e
    · exact hno _ e
  · unfold finalBestScore
    rw [h1]
    rfl
  · unfold finalBestScore
    rw [hpass, h1]
    rfl
  · rw [← h]
    unfold searchDescriptors
    rw [hpass]

/-- C8: when `searchDescriptors` returns, the new-valid-matches set holds exactly the
candidate ids whose `root_leaf_map` entry does not contain the query id, whose cached
timestamp is at least `min_time_separation_s` before the query and whose score is strictly
above `min_score`; a candidate scoring exactly `min_score` is not in it; and a configuration
that differs only in `min_registration_score`, `min_score_ratio`, `min_match_separation_m` or
`max_registration_matches` returns the same set. -/
theorem searchDescriptors_new_valid_matches (ext : Externals K)
    (hsort : SortsDescending ext.sort)
    (q : Descriptor K) (cfg : DescriptorMatchConfig K) (valid : List NodeId)
    (descriptors : DescriptorCache K) (rlm : StdMap (List NodeId)) (qid : NodeId)
    (r : LayerSearchResults K)
    (h : searchDescriptors ext q cfg valid descriptors rlm qid = some r) :
    (∀ c, c ∈ r.valid_matches ↔
      c ∈ valid ∧ ∃ leaves d s, mapAt rlm c = some leaves ∧ qid ∉ leaves ∧
        mapAt descriptors c = some d ∧
        q.timestamp - d.timestamp ≥ cfg.min_time_separation_s ∧
        computeDescriptorScore ext q d cfg.type = some s ∧ s > cfg.min_score) ∧
    (∀ c d, mapAt descriptors c = some d →
      computeDescriptorScore ext q d cfg.type = some cfg.min_score → c ∉ r.valid_matches) ∧
    (∀ cfg' : DescriptorMatchConfig K, cfg'.type = cfg.type →
      cfg'.min_time_separation_s = cfg.min_time_separation_s →
      cfg'.min_score = cfg.min_score →
      ∃ r', searchDescriptors ext q cfg' valid descriptors rlm qid = some r' ∧
        r'.valid_matches = r.valid_matches) := by
  obtain ⟨st, ms, h1, _, h3⟩ := searchDescriptors_eq_some ext q cfg valid descriptors rlm qid r h
  obtain ⟨i1, i2, _⟩ := scoringPass_spec ext q cfg descriptors rlm qid _ _ _ h1
  have hchar : ∀ c, c ∈ r.valid_matches ↔
      c ∈ valid ∧ ∃ leaves d s, mapAt rlm c = some leaves ∧ qid ∉ leaves ∧
        mapAt descriptors c = some d ∧
        q.timestamp - d.timestamp ≥ cfg.min_time_separation_s ∧
        computeDescriptorScore ext q d cfg.type = some s ∧ s > cfg.min_score := by
    intro c
    subst h3
    simp only
    rw [i1 c]
    constructor
    · rintro (e | ⟨hv, s, hs, hlt⟩)
      · simp at e
      · obtain ⟨leaves, d, e1, e2, e3, e4, e5⟩ :=
          (candidateScore_eq_some_some ext q cfg descriptors rlm qid c s).1 hs
        exact ⟨hv, leaves, d, s, e1, e2, e3, e4, e5, hlt⟩
    · rintro ⟨hv, leaves, d, s, e1, e2, e3, e4, e5, hlt⟩
      exact Or.inr ⟨hv, s,
        (candidateScore_eq_some_some ext q cfg descriptors rlm qid c s).2
          ⟨leaves, d, e1, e2, e3, e4, e5⟩, hlt⟩
  refine ⟨hchar, ?_, ?_⟩
  · intro c d hd hs hmem
    obtain ⟨_, _, d', s, _, _, e3, _, e5, hlt⟩ := (hchar c).1 hmem
    rw [hd] at e3
    simp only [Option.some.injEq] at e3
    subst e3
    rw [hs] at e5
    simp only [Option.some.injEq] at e5
    subst e5
    exact lt_irrefl _ hlt
  · intro cfg' ht hs hm
    have h1' : scoringPass ext q cfg' descriptors rlm qid valid
        { best_score := 0, new_valid_match_scores := [], new_valid_matches := [] } = some st := by
      rw [scoringPass_config ext q cfg cfg' descriptors rlm qid ht hs hm, h1]
    obtain ⟨hperm, _⟩ := hsort st.new_valid_match_scores
    have hdesc : ∀ p ∈ ext.sort st.new_valid_match_scores,
        ∃ d, mapAt descriptors p.1 = some d := by
      intro p hp
      rcases (i2 p).1 (hperm.subset hp) with e | ⟨_, e, _⟩
      · simp at e
      · obtain ⟨_, d, _, _, e3, _⟩ :=
          (candidateScore_eq_some_some ext q cfg descriptors rlm qid p.1 p.2).1 e
        exact ⟨d, e3⟩
    obtain ⟨ms', hms'⟩ := filterPass_isSome ext cfg' descriptors st.best_score _
      { match_nodes := [], matches_ := [], match_scores := [] } hdesc (by simp)
    refine ⟨{ score := ms'.match_scores, valid_matches := st.new_valid_matches,
              query_nodes := q.nodes, match_nodes := ms'.match_nodes,
              query_root := q.root_node, match_root := ms'.matches_ }, ?_, ?_⟩
    · unfold searchDescriptors
      rw [h1']
      simp only
      rw [hms']
    · subst h3
      rfl

/-- C9: when `searchDescriptors` returns, `best_score` is the maximum of `0` and the scores of
all candidates that passed the self-containment and temporal filters, and every returned match
id is in the new-valid-matches set, has the returned score as its score, and that score `s`
satisfies `s ≥ min_registration_score` and `s > best_score * min_score_ratio` strictly (so it
is never equal to `best_score * min_score_ratio`). -/
theorem searchDescriptors_matches_registered (ext : Externals K)
    (hsort : SortsDescending ext.sort)
    (q : Descriptor K) (cfg : DescriptorMatchConfig K) (valid : List NodeId)
    (descriptors : DescriptorCache K) (rlm : StdMap (List NodeId)) (qid : NodeId)
    (r : LayerSearchResults K)
    (h : searchDescriptors ext q cfg valid descriptors rlm qid = some r) :
    ∃ best, finalBestScore ext q cfg valid descriptors rlm qid = some best ∧
      0 ≤ best ∧
      (∀ c ∈ valid, ∀ s,
        candidateScore ext q cfg descriptors rlm qid c = some (some s) → s ≤ best) ∧
      (best = 0 ∨ ∃ c ∈ valid,
        candidateScore ext q cfg descriptors rlm qid c = some (some best)) ∧
      r.score.length = r.match_root.length ∧
      ∀ p ∈ List.zip r.match_root r.score,
        p.1 ∈ r.valid_matches ∧
        candidateScore ext q cfg descriptors rlm qid p.1 = some (some p.2) ∧
        p.2 ≥ cfg.min_registration_score ∧
        p.2 > best * cfg.min_score_ratio ∧
        p.2 ≠ best * cfg.min_score_ratio := by
  obtain ⟨st, acc, h1, h2, h3, h4, _, h6⟩ :=
    searchDescriptors_pairs ext hsort q cfg valid descriptors rlm qid r h
  obtain ⟨i1, i2, i3, i4, i5, _⟩ := scoringPass_spec ext q cfg descriptors rlm qid _ _ _ h1
  refine ⟨st.best_score, ?_, i3, i4, i5, by rw [h3, h4]; simp, ?_⟩
  · unfold finalBestScore
    rw [h1]
    rfl
  · intro p hp
    rw [h3, h4] at hp
    obtain ⟨hmem, hreg, hratio⟩ := h6 p (mem_zip_map_fst_snd acc p hp)
    rcases (i2 p).1 hmem with e | ⟨hv, e, hlt⟩
    · simp at e
    · refine ⟨?_, e, hreg, hratio, ne_of_gt hratio⟩
      rw [h2]
      exact (i1 p.1).2 (Or.inr ⟨hv, p.2, e, hlt⟩)

end RootSearchFilters

section LeafSearch

variable {K : Type} [LinearOrderedField K]

theorem leafInner_no_pass (ext : Externals K) (q : Descriptor K)
    (cfg : DescriptorMatchConfig K) (qid : NodeId) :
    ∀ (cache : List (NodeId × Descriptor K)) (st : LeafState K),
      (∀ p ∈ cache, p.1 = qid ∨ q.timestamp - p.2.timestamp < cfg.min_time_separation_s) →
      leafInner ext q cfg qid cache st = some st := by
  intro cache
  induction cache with
  | nil => intro st _; rfl
  | cons p rest ih =>
    intro st hno
    have hrest := ih st (fun x hx => hno x (List.mem_cons_of_mem _ hx))
    rw [leafInner]
    by_cases h1 : p.1 = qid
    · rw [if_pos h1]; exact hrest
    · rw [if_neg h1]
      rcases hno p (List.mem_cons_self _ _) with e | e
      · exact absurd e h1
      · rw [if_pos e]; exact hrest

theorem leafOuter_no_pass (ext : Externals K) (q : Descriptor K)
    (cfg : DescriptorMatchConfig K) (lcm : DescriptorCacheMap K) (qid : NodeId) :
    ∀ (valid : List NodeId) (st st' : LeafState K),
      (∀ root ∈ valid, ∀ cache, mapAt lcm root = some cache →
        ∀ p ∈ cache, p.1 = qid ∨ q.timestamp - p.2.timestamp < cfg.min_time_separation_s) →
      leafOuter ext q cfg lcm qid valid st = some st' → st' = st := by
  intro valid
  induction valid with
  | nil =>
    intro st st' _ h
    simp only [leafOuter, Option.some.injEq] at h
    exact h.symm
  | cons root rest ih =>
    intro st st' hno h
    rw [leafOuter] at h
    cases hc : mapAt lcm root with
    | none => rw [hc] at h; simp at h
    | some cache =>
      rw [hc] at h
      simp only at h
      rw [leafInner_no_pass ext q cfg qid cache st
        (hno root (List.mem_cons_self _ _) cache hc)] at h
      exact ih st st' (fun x hx => hno x (List.mem_cons_of_mem _ hx)) h

/-- C10 (as amended): when `searchLeafDescriptors` returns and no leaf of the valid roots
passes the self-match and temporal filters, the result has empty score, valid-match,
match-node and match-root lists, an empty query node set, and the query descriptor's
`root_node` as its query root. -/
theorem searchLeafDescriptors_no_match (ext : Externals K) (q : Descriptor K)
    (cfg : DescriptorMatchConfig K) (valid : List NodeId) (lcm : DescriptorCacheMap K)
    (qid : NodeId) (r : LayerSearchResults K)
    (h : searchLeafDescriptors ext q cfg valid lcm qid = some r)
    (hno : ∀ root ∈ valid, ∀ cache, mapAt lcm root = some cache →
      ∀ p ∈ cache, p.1 = qid ∨ q.timestamp - p.2.timestamp < cfg.min_time_separation_s) :
    r.score = [] ∧ r.valid_matches = [] ∧ r.match_nodes = [] ∧ r.match_root = [] ∧
    r.query_nodes = [] ∧ r.query_root = q.root_node := by
  unfold searchLeafDescriptors at h
  cases ho : leafOuter ext q cfg lcm qid valid
      { best_score := 0, best_node := 0, best_root := 0, found_match := false } with
  | none => rw [ho] at h; simp at h
  | some st =>
    rw [ho] at h
    have hst := leafOuter_no_pass ext q cfg lcm qid valid _ st hno ho
    subst hst
    simp only [Bool.not_false, if_true, Option.some.injEq] at h
    subst h
    exact ⟨rfl, rfl, rfl, rfl, rfl, rfl⟩

end LeafSearch

section Instances

/-- C1 at two sparse descriptors sharing the words `4` and `7`. -/
theorem computeDistanceBow_eq_sum_inter_witness :
    (exampleSparseA.words.Sorted (· < ·) ∧ exampleSparseB.words.Sorted (· < ·)) ∧
    computeDistanceBow exampleSparseA exampleSparseB (fun a b => a * b)
      = some (∑ w in exampleSparseA.words.toFinset ∩ exampleSparseB.words.toFinset,
                valueAt exampleSparseA w * valueAt exampleSparseB w) :=
  ⟨⟨by decide, by decide⟩,
   computeDistanceBow_eq_sum_inter exampleSparseA exampleSparseB (fun a b => a * b) rfl rfl
     (by decide) (by decide)⟩

/-- C2 at two dense descriptors of length three, one with a zero entry. -/
theorem computeDistanceHist_eq_sum_nonzero_witness :
    exampleDenseA.values.length = exampleDenseB.values.length ∧
    computeDistanceHist exampleDenseA exampleDenseB (fun a b => |a - b|)
      = some (∑ i in (Finset.range exampleDenseA.values.length).filter
                (fun i => exampleDenseA.values.getD i 0 ≠ 0 ∧ exampleDenseB.values.getD i 0 ≠ 0),
                |exampleDenseA.values.getD i 0 - exampleDenseB.values.getD i 0|) :=
  ⟨rfl, computeDistanceHist_eq_sum_nonzero exampleDenseA exampleDenseB (fun a b => |a - b|) rfl⟩

/-- C4 at the example run of `searchDescriptors`, for the two returned ids `2` and `3`. -/
theorem searchDescriptors_matches_separated_witness :
    searchDescriptors exampleExt exampleQuery (exampleConfig 2) [1, 2, 3, 4, 5] exampleCache
      exampleRootLeafMap 9 = some exampleResult ∧
    ∃ da db, mapAt exampleCache 2 = some da ∧ mapAt exampleCache 3 = some db ∧
      (exampleConfig 2).min_match_separation_m
        ≤ exampleExt.norm (da.root_position - db.root_position) :=
  ⟨exampleSearch,
   searchDescriptors_matches_separated exampleExt exampleExt_norm_symm exampleQuery
     (exampleConfig 2) [1, 2, 3, 4, 5] exampleCache exampleRootLeafMap 9 exampleResult
     exampleSearch 2 (by simp [exampleResult]) 3 (by simp [exampleResult]) (by decide)⟩

/-- C5 at the example run of `searchDescriptors`. -/
theorem searchDescriptors_scores_sorted_witness :
    exampleResult.score.Pairwise (fun s s' => s' ≤ s) ∧
    List.Chain' (fun s s' => s ≥ s') exampleResult.score ∧
    exampleResult.score.length = exampleResult.match_root.length ∧
    ∀ p ∈ List.zip exampleResult.match_root exampleResult.score,
      ∃ d, mapAt exampleCache p.1 = some d ∧
        computeDescriptorScore exampleExt exampleQuery d (exampleConfig 2).type = some p.2 :=
  searchDescriptors_scores_sorted exampleExt exampleExt_sortsDescending exampleQuery
    (exampleConfig 2) [1, 2, 3, 4, 5] exampleCache exampleRootLeafMap 9 exampleResult
    exampleSearch

/-- C6 at the example run of `searchDescriptors`, for candidate `5` whose leaves contain the
query node `9`. -/
theorem searchDescriptors_excludes_self_containing_witness :
    (9 ∈ [5, 9] ∧ 5 ∈ [1, 2, 3, 4, 5]) ∧
    5 ∉ exampleResult.match_root ∧ 5 ∉ exampleResult.valid_matches :=
  ⟨⟨by decide, by decide⟩,
   searchDescriptors_excludes_self_containing exampleExt exampleExt_sortsDescending exampleQuery
     (exampleConfig 2) [1, 2, 3, 4, 5] exampleCache exampleRootLeafMap 9 exampleResult
     exampleSearch 5 [5, 9] (by simp [mapAt, exampleRootLeafMap]) (by decide)⟩

/-- C7 at the example run of `searchDescriptors`, for candidate `4` whose timestamp equals the
query timestamp. -/
theorem searchDescriptors_excludes_recent_witness :
    4 ∉ exampleResult.match_root ∧ 4 ∉ exampleResult.valid_matches ∧
    (∃ best, finalBestScore exampleExt exampleQuery (exampleConfig 2) [1, 2, 3, 4, 5]
        exampleCache exampleRootLeafMap 9 = some best ∧
      finalBestScore exampleExt exampleQuery (exampleConfig 2)
        ([1, 2, 3, 4, 5].filter (fun x => x ≠ 4)) exampleCache exampleRootLeafMap 9
        = some best) ∧
    searchDescriptors exampleExt exampleQuery (exampleConfig 2)
      ([1, 2, 3, 4, 5].filter (fun x => x ≠ 4)) exampleCache exampleRootLeafMap 9
      = some exampleResult :=
  searchDescriptors_excludes_recent exampleExt exampleExt_sortsDescending exampleQuery
    (exampleConfig 2) [1, 2, 3, 4, 5] exampleCache exampleRootLeafMap 9 exampleResult
    exampleSearch 4 (exampleDescriptor 4 10 9 1) (by simp [mapAt, exampleCache])
    (by norm_num [exampleQuery, exampleDescriptor, exampleConfig])

/-- C8 at the example run of `searchDescriptors`. -/
theorem searchDescriptors_new_valid_matches_witness :
    (∀ c, c ∈ exampleResult.valid_matches ↔
      c ∈ [1, 2, 3, 4, 5] ∧ ∃ leaves d s, mapAt exampleRootLeafMap c = some leaves ∧
        9 ∉ leaves ∧ mapAt exampleCache c = some d ∧
        exampleQuery.timestamp - d.timestamp ≥ (exampleConfig 2).min_time_separation_s ∧
        computeDescriptorScore exampleExt exampleQuery d (exampleConfig 2).type = some s ∧
        s > (exampleConfig 2).min_score) ∧
    (∀ c d, mapAt exampleCache c = some d →
      computeDescriptorScore exampleExt exampleQuery d (exampleConfig 2).type
        = some (exampleConfig 2).min_score → c ∉ exampleResult.valid_matches) ∧
    (∀ cfg' : DescriptorMatchConfig ℚ, cfg'.type = (exampleConfig 2).type →
      cfg'.min_time_separation_s = (exampleConfig 2).min_time_separation_s →
      cfg'.min_score = (exampleConfig 2).min_score →
      ∃ r', searchDescriptors exampleExt exampleQuery cfg' [1, 2, 3, 4, 5] exampleCache
          exampleRootLeafMap 9 = some r' ∧
        r'.valid_matches = exampleResult.valid_matches) :=
  searchDescriptors_new_valid_matches exampleExt exampleExt_sortsDescending exampleQuery
    (exampleConfig 2) [1, 2, 3, 4, 5] exampleCache exampleRootLeafMap 9 exampleResult
    exampleSearch

/-- C9 at the example run of `searchDescriptors`. -/
theorem searchDescriptors_matches_registered_witness :
    ∃ best, finalBestScore exampleExt exampleQuery (exampleConfig 2) [1, 2, 3, 4, 5]
        exampleCache exampleRootLeafMap 9 = some best ∧
      0 ≤ best ∧
      (∀ c ∈ [1, 2, 3, 4, 5], ∀ s,
        candidateScore exampleExt exampleQuery (exampleConfig 2) exampleCache
          exampleRootLeafMap 9 c = some (some s) → s ≤ best) ∧
      (best = 0 ∨ ∃ c ∈ [1, 2, 3, 4, 5],
        candidateScore exampleExt exampleQuery (exampleConfig 2) exampleCache
          exampleRootLeafMap 9 c = some (some best)) ∧
      exampleResult.score.length = exampleResult.match_root.length ∧
      ∀ p ∈ List.zip exampleResult.match_root exampleResult.score,
        p.1 ∈ exampleResult.valid_matches ∧
        candidateScore exampleExt exampleQuery (exampleConfig 2) exampleCache
          exampleRootLeafMap 9 p.1 = some (some p.2) ∧
        p.2 ≥ (exampleConfig 2).min_registration_score ∧
        p.2 > best * (exampleConfig 2).min_score_ratio ∧
        p.2 ≠ best * (exampleConfig 2).min_score_ratio :=
  searchDescriptors_matches_registered exampleExt exampleExt_sortsDescending exampleQuery
    (exampleConfig 2) [1, 2, 3, 4, 5] exampleCache exampleRootLeafMap 9 exampleResult
    exampleSearch

/-- C10 (counterexample): a query whose node set is `[9]` and a leaf cache in which no leaf
passes the self-match and temporal filters: the search returns, every list of the result is
empty and the query root is populated, but the query node set of the result is empty, not the
query descriptor's node set. -/
theorem searchLeafDescriptors_query_nodes_dropped :
    (∀ root ∈ [1], ∀ cache, mapAt exampleLeafMap root = some cache →
      ∀ p ∈ cache, p.1 = 9 ∨
        exampleQuery.timestamp - p.2.timestamp < (exampleConfig 1).min_time_separation_s) ∧
    ∃ r, searchLeafDescriptors exampleExt exampleQuery (exampleConfig 1) [1] exampleLeafMap 9
        = some r ∧
      r.score = [] ∧ r.valid_matches = [] ∧ r.match_root = [] ∧
      r.query_root = exampleQuery.root_node ∧
      exampleQuery.nodes = [9] ∧ r.query_nodes = [] ∧ r.query_nodes ≠ exampleQuery.nodes := by
  refine ⟨exampleLeafMap_no_pass, _, exampleLeafSearch, rfl, rfl, rfl, rfl, rfl, rfl, ?_⟩
  simp [exampleQuery, exampleDescriptor]

/-- C10 (as amended) at the example run of `searchLeafDescriptors`. -/
theorem searchLeafDescriptors_no_match_witness :
    ∃ r, searchLeafDescriptors exampleExt exampleQuery (exampleConfig 1) [1] exampleLeafMap 9
        = some r ∧
      r.score = [] ∧ r.valid_matches = [] ∧ r.match_nodes = [] ∧ r.match_root = [] ∧
      r.query_nodes = [] ∧ r.query_root = exampleQuery.root_node :=
  ⟨_, exampleLeafSearch,
   searchLeafDescriptors_no_match exampleExt exampleQuery (exampleConfig 1) [1] exampleLeafMap 9
     _ exampleLeafSearch exampleLeafMap_no_pass⟩

end Instances

section DistanceMore

variable {K : Type} [LinearOrderedField K]

/-- C14: `computeDistance` fails exactly when a `CHECK_EQ` fails: on the dense path (both word
lists empty) iff the two value vectors differ in length, on the sparse path (some word list
non-empty) iff some descriptor's values and words differ in length; in every other case it
returns a value; a dense descriptor with non-empty values paired with a sparse descriptor fails
on either side. -/
theorem computeDistance_fails_iff (lhs rhs : Descriptor K) (f : K → K → K) :
    (computeDistance lhs rhs f = none ↔
      (lhs.words = [] ∧ rhs.words = [] ∧ lhs.values.length ≠ rhs.values.length) ∨
      (¬ (lhs.words = [] ∧ rhs.words = []) ∧
        (lhs.values.length ≠ lhs.words.length ∨ rhs.values.length ≠ rhs.words.length))) ∧
    ((∃ v, computeDistance lhs rhs f = some v) ↔
      (lhs.words = [] ∧ rhs.words = [] ∧ lhs.values.length = rhs.values.length) ∨
      (¬ (lhs.words = [] ∧ rhs.words = []) ∧
        lhs.values.length = lhs.words.length ∧ rhs.values.length = rhs.words.length)) ∧
    (lhs.words = [] → lhs.values ≠ [] → rhs.words ≠ [] →
      computeDistance lhs rhs f = none ∧ computeDistance rhs lhs f = none) := by
  have key : ∀ a b : Descriptor K,
      (computeDistance a b f = none ↔
        (a.words = [] ∧ b.words = [] ∧ a.values.length ≠ b.values.length) ∨
        (¬ (a.words = [] ∧ b.words = []) ∧
          (a.values.length ≠ a.words.length ∨ b.values.length ≠ b.words.length))) := by
    intro a b
    unfold computeDistance computeDistanceHist computeDistanceBow
    simp only [List.length_eq_zero]
    have hsome : ∀ x : K, (some x = none) ↔ False := by simp
    by_cases hd : a.words = [] ∧ b.words = []
    · rw [if_pos hd]
      by_cases hl : a.values.length = b.values.length
      · rw [if_pos hl, hsome]
        tauto
      · rw [if_neg hl]
        tauto
    · rw [if_neg hd]
      by_cases h1 : a.values.length = a.words.length
      · by_cases h2 : b.values.length = b.words.length
        · rw [if_pos h1, if_pos h2, hsome]
          tauto
        · rw [if_pos h1, if_neg h2]
          tauto
      · rw [if_neg h1]
        tauto
  refine ⟨key lhs rhs, ?_, ?_⟩
  · rw [← Option.ne_none_iff_exists', Ne, key lhs rhs]
    tauto
  · intro h1 h2 h3
    constructor
    · rw [key lhs rhs]
      right
      refine ⟨fun h => h3 h.2, Or.inl ?_⟩
      rw [h1]
      simpa using h2
    · rw [key rhs lhs]
      right
      refine ⟨fun h => h3 h.1, Or.inr ?_⟩
      rw [h1]
      simpa using h2

end DistanceMore

section DistanceSymmetry

variable {K : Type} [LinearOrderedField K]

theorem histStep_symm (lhs rhs : Descriptor K) (f : K → K → K)
    (hf : ∀ a b, f a b = f b a) (score : K) (r : Nat) :
    histStep lhs rhs f score r = histStep rhs lhs f score r := by
  unfold histStep
  rw [hf (lhs.values.getD r 0) (rhs.values.getD r 0)]
  by_cases h : lhs.values.getD r 0 = 0 ∨ rhs.values.getD r 0 = 0
  · rw [if_pos h, if_pos (Or.symm h)]
  · rw [if_neg h, if_neg (fun h' => h (Or.symm h'))]

/-- The merge loop moves its two cursors the same way when the descriptors are exchanged. -/
theorem bowLoop_symm (lhs rhs : Descriptor K) (f : K → K → K)
    (hf : ∀ a b, f a b = f b a) :
    ∀ (m r1 r2 : Nat) (score : K),
      (lhs.values.length - r1) + (rhs.values.length - r2) = m →
      bowLoop lhs rhs f r1 r2 score = bowLoop rhs lhs f r2 r1 score := by
  intro m
  induction m using Nat.strong_induction_on with
  | _ m ih =>
    intro r1 r2 score hm
    rw [bowLoop]
    conv_rhs => rw [bowLoop]
    by_cases hc : r1 < lhs.values.length ∧ r2 < rhs.values.length
    · rw [if_pos hc, if_pos (And.symm hc)]
      simp only
      by_cases heq : lhs.words.getD r1 0 = rhs.words.getD r2 0
      · rw [if_pos heq, if_pos heq.symm, hf (rhs.values.getD r2 0)]
        exact ih _ (by omega) (r1 + 1) (r2 + 1) _ rfl
      · have heq' : ¬ rhs.words.getD r2 0 = lhs.words.getD r1 0 := fun h => heq h.symm
        rw [if_neg heq, if_neg heq']
        by_cases hlt : lhs.words.getD r1 0 < rhs.words.getD r2 0
        · have hlt' : ¬ rhs.words.getD r2 0 < lhs.words.getD r1 0 := by omega
          rw [if_pos hlt, if_neg hlt']
          exact ih _ (by omega) (r1 + 1) r2 _ rfl
        · have hlt' : rhs.words.getD r2 0 < lhs.words.getD r1 0 := by omega
          rw [if_neg hlt, if_pos hlt']
          exact ih _ (by omega) r1 (r2 + 1) _ rfl
    · rw [if_neg hc, if_neg (fun h => hc (And.symm h))]

/-- C20: for a symmetric pairwise function, `computeDistance` gives the same outcome on
`(lhs, rhs)` and on `(rhs, lhs)`, whether the descriptors are dense or sparse and whether or
not their word lists are sorted: the same value when it succeeds, and it fails on one order
iff it fails on the other. -/
theorem computeDistance_symm (lhs rhs : Descriptor K) (f : K → K → K)
    (hf : ∀ a b, f a b = f b a) :
    computeDistance lhs rhs f = computeDistance rhs lhs f ∧
    (computeDistance lhs rhs f = none ↔ computeDistance rhs lhs f = none) ∧
    (∀ v, computeDistance lhs rhs f = some v → computeDistance rhs lhs f = some v) := by
  have main : computeDistance lhs rhs f = computeDistance rhs lhs f := by
    unfold computeDistance
    by_cases hd : lhs.words.length = 0 ∧ rhs.words.length = 0
    · rw [if_pos hd, if_pos (And.symm hd)]
      unfold computeDistanceHist
      by_cases hl : lhs.values.length = rhs.values.length
      · rw [if_pos hl, if_pos hl.symm, ← hl]
        congr 2
        funext score r
        exact histStep_symm lhs rhs f hf score r
      · rw [if_neg hl, if_neg (fun h => hl h.symm)]
    · rw [if_neg hd, if_neg (fun h => hd (And.symm h))]
      unfold computeDistanceBow
      by_cases h1 : lhs.values.length = lhs.words.length
      · by_cases h2 : rhs.values.length = rhs.words.length
        · rw [if_pos h1, if_pos h2, if_pos h2, if_pos h1,
            bowLoop_symm lhs rhs f hf _ 0 0 0 rfl]
        · rw [if_pos h1, if_neg h2, if_neg h2]
      · rw [if_neg h1]
        by_cases h2 : rhs.values.length = rhs.words.length
        · rw [if_pos h2, if_neg h1]
        · rw [if_neg h2]
  exact ⟨main, by rw [main], fun v hv => by rw [← main]; exact hv⟩

/-- C15: for a dense descriptor `d` whose values are all non-zero and a pairwise function that
returns `0` on equal arguments, `computeDistance d d` is `0`, and when that is the raw L1
distance the L1-scheme score of `d` against itself is exactly `1`. -/
theorem computeDistance_self_score_one (ext : Externals K) (d : Descriptor K)
    (f : K → K → K) (hdense : d.words = []) (_hnz : ∀ v ∈ d.values, v ≠ 0)
    (hf : ∀ a, f a a = 0) (hext : ext.computeL1Distance d d = computeDistance d d f) :
    computeDistance d d f = some 0 ∧
    computeDescriptorScore ext d d DescriptorScoreType.L1 = some 1 := by
  have h0 : computeDistance d d f = some 0 := by
    unfold computeDistance computeDistanceHist
    rw [if_pos ⟨by simp [hdense], by simp [hdense]⟩, if_pos rfl, histFold_eq_sum]
    congr 1
    apply Finset.sum_eq_zero
    intro i _
    exact hf _
  refine ⟨h0, ?_⟩
  have : computeDescriptorScore ext d d DescriptorScoreType.L1
      = (ext.computeL1Distance d d).map (fun raw => 1.0 - 0.5 * raw) := rfl
  rw [this, hext, h0, Option.map_some']
  norm_num

end DistanceSymmetry

section DenseSparse

variable {K : Type} [LinearOrderedField K]

theorem sparseOf_words_sorted (d : Descriptor K) : (sparseOf d).words.Sorted (· < ·) :=
  List.Sorted.filter _ (List.sorted_lt_range _)

theorem sparseOf_length (d : Descriptor K) :
    (sparseOf d).values.length = (sparseOf d).words.length := by
  simp [sparseOf]

theorem mem_sparseOf_words (d : Descriptor K) (w : Nat) :
    w ∈ (sparseOf d).words ↔ w < d.values.length ∧ d.values.getD w 0 ≠ 0 := by
  simp [sparseOf]

theorem valueAt_sparseOf (d : Descriptor K) (w : Nat) (hw : w ∈ (sparseOf d).words) :
    valueAt (sparseOf d) w = d.values.getD w 0 := by
  have hlt : (sparseOf d).words.indexOf w < (sparseOf d).words.length :=
    List.indexOf_lt_length.2 hw
  have hv : (sparseOf d).values
      = (sparseOf d).words.map (fun i => d.values.getD i 0) := rfl
  unfold valueAt
  rw [hv, List.getD_eq_getElem _ _ (by simpa using hlt), List.getElem_map,
    List.getElem_indexOf hlt]

/-- C18: for dense descriptors of equal length, `computeDistanceHist` returns what
`computeDistanceBow` returns on their bag-of-words forms (words: the rows of the non-zero
entries in ascending order, values: those entries), for every pairwise function. -/
theorem computeDistanceHist_eq_bow_sparseOf (lhs rhs : Descriptor K) (f : K → K → K)
    (h : lhs.values.length = rhs.values.length) :
    computeDistanceHist lhs rhs f = computeDistanceBow (sparseOf lhs) (sparseOf rhs) f := by
  unfold computeDistanceHist computeDistanceBow
  rw [if_pos h, if_pos (sparseOf_length lhs), if_pos (sparseOf_length rhs), histFold_eq_sum,
    bowLoop_eq_sum (sparseOf lhs) (sparseOf rhs) f (sparseOf_length lhs) (sparseOf_length rhs)
      (sparseOf_words_sorted lhs) (sparseOf_words_sorted rhs) _ 0 0 0 rfl]
  congr 1
  rw [zero_add]
  simp only [List.drop_zero]
  have hset : (sparseOf lhs).words.toFinset ∩ (sparseOf rhs).words.toFinset
      = (Finset.range lhs.values.length).filter
          (fun i => lhs.values.getD i 0 ≠ 0 ∧ rhs.values.getD i 0 ≠ 0) := by
    ext w
    simp only [Finset.mem_inter, List.mem_toFinset, mem_sparseOf_words, Finset.mem_filter,
      Finset.mem_range, ← h]
    tauto
  rw [hset]
  apply Finset.sum_congr rfl
  intro w hw
  rw [← hset, Finset.mem_inter, List.mem_toFinset, List.mem_toFinset] at hw
  rw [valueAt_sparseOf lhs w hw.1, valueAt_sparseOf rhs w hw.2]

end DenseSparse

section DistanceInstances

/-- C15 at the dense example query, with `|a - b|` as the pairwise function. -/
theorem computeDistance_self_score_one_witness :
    (exampleQuery.words = [] ∧ ∀ v ∈ exampleQuery.values, v ≠ 0) ∧
    computeDistance exampleQuery exampleQuery (fun a b => |a - b|) = some 0 ∧
    computeDescriptorScore exampleExt exampleQuery exampleQuery DescriptorScoreType.L1
      = some 1 :=
  ⟨⟨rfl, by simp [exampleQuery, exampleDescriptor]⟩,
   computeDistance_self_score_one exampleExt exampleQuery (fun a b => |a - b|) rfl
     (by simp [exampleQuery, exampleDescriptor]) (by simp) rfl⟩

/-- C18 at two dense descriptors of length three, one with a zero entry. -/
theorem computeDistanceHist_eq_bow_sparseOf_witness :
    exampleDenseA.values.length = exampleDenseB.values.length ∧
    computeDistanceHist exampleDenseA exampleDenseB (fun a b => |a - b|)
      = computeDistanceBow (sparseOf exampleDenseA) (sparseOf exampleDenseB)
          (fun a b => |a - b|) :=
  ⟨rfl, computeDistanceHist_eq_bow_sparseOf exampleDenseA exampleDenseB (fun a b => |a - b|) rfl⟩

/-- C20 at a sparse pair whose left word list is not sorted, with the product as the pairwise
function. -/
theorem computeDistance_symm_witness :
    ¬ exampleSparseUnsorted.words.Sorted (· < ·) ∧
    computeDistance exampleSparseUnsorted exampleSparseB (fun a b => a * b)
      = computeDistance exampleSparseB exampleSparseUnsorted (fun a b => a * b) ∧
    (computeDistance exampleSparseUnsorted exampleSparseB (fun a b => a * b) = none ↔
      computeDistance exampleSparseB exampleSparseUnsorted (fun a b => a * b) = none) ∧
    (∀ v, computeDistance exampleSparseUnsorted exampleSparseB (fun a b => a * b) = some v →
      computeDistance exampleSparseB exampleSparseUnsorted (fun a b => a * b) = some v) :=
  ⟨by decide,
   computeDistance_symm exampleSparseUnsorted exampleSparseB (fun a b => a * b)
     (fun a b => mul_comm a b)⟩

end DistanceInstances

section LeafInvariant

variable {K : Type} [LinearOrderedField K]

/-- What the inner loop of `searchLeafDescriptors` guarantees about its final state. -/
theorem leafInner_spec (ext : Externals K) (q : Descriptor K)
    (cfg : DescriptorMatchConfig K) (qid : NodeId) :
    ∀ (cache : List (NodeId × Descriptor K)) (st st' : LeafState K),
      leafInner ext q cfg qid cache st = some st' →
      st.best_score ≤ st'.best_score ∧
      (∀ p ∈ cache, p.1 ≠ qid → cfg.min_time_separation_s ≤ q.timestamp - p.2.timestamp →
        ∃ s, computeDescriptorScore ext q p.2 cfg.type = some s ∧ s ≤ st'.best_score) ∧
      (st' = st ∨
        (st'.found_match = true ∧ st.best_score < st'.best_score ∧
          ∃ p ∈ cache, p.1 ≠ qid ∧
            cfg.min_time_separation_s ≤ q.timestamp - p.2.timestamp ∧
            computeDescriptorScore ext q p.2 cfg.type = some st'.best_score ∧
            st'.best_node = p.1 ∧ st'.best_root = p.2.root_node)) := by
  intro cache
  induction cache with
  | nil =>
    intro st st' h
    simp only [leafInner, Option.some.injEq] at h
    subst h
    exact ⟨le_refl _, by simp, Or.inl rfl⟩
  | cons p0 rest ih =>
    intro st st' h
    rw [leafInner] at h
    by_cases h1 : p0.1 = qid
    · rw [if_pos h1] at h
      obtain ⟨i1, i2, i3⟩ := ih st st' h
      refine ⟨i1, ?_, ?_⟩
      · intro p hp hne ht
        rcases List.mem_cons.1 hp with e | e
        · subst e; exact absurd h1 hne
        · exact i2 p e hne ht
      · rcases i3 with e | ⟨f, lt, p, hp, rest'⟩
        · exact Or.inl e
        · exact Or.inr ⟨f, lt, p, List.mem_cons_of_mem _ hp, rest'⟩
    · rw [if_neg h1] at h
      by_cases h2 : q.timestamp - p0.2.timestamp < cfg.min_time_separation_s
      · rw [if_pos h2] at h
        obtain ⟨i1, i2, i3⟩ := ih st st' h
        refine ⟨i1, ?_, ?_⟩
        · intro p hp hne ht
          rcases List.mem_cons.1 hp with e | e
          · subst e; exact absurd h2 (not_lt.2 ht)
          · exact i2 p e hne ht
        · rcases i3 with e | ⟨f, lt, p, hp, rest'⟩
          · exact Or.inl e
          · exact Or.inr ⟨f, lt, p, List.mem_cons_of_mem _ hp, rest'⟩
      · rw [if_neg h2] at h
        cases hs : computeDescriptorScore ext q p0.2 cfg.type with
        | none => rw [hs] at h; simp at h
        | some s0 =>
          rw [hs] at h
          simp only at h
          by_cases h3 : s0 > st.best_score
          · rw [if_pos h3] at h
            obtain ⟨i1, i2, i3⟩ := ih _ st' h
            simp only at i1 i3
            refine ⟨le_trans (le_of_lt h3) i1, ?_, Or.inr ?_⟩
            · intro p hp hne ht
              rcases List.mem_cons.1 hp with e | e
              · subst e; exact ⟨s0, hs, i1⟩
              · exact i2 p e hne ht
            · rcases i3 with e | ⟨f, lt, p, hp, rest'⟩
              · subst e
                exact ⟨rfl, h3, p0, List.mem_cons_self _ _, h1, not_lt.1 h2, hs, rfl, rfl⟩
              · exact ⟨f, lt_trans h3 lt, p, List.mem_cons_of_mem _ hp, rest'⟩
          · rw [if_neg h3] at h
            obtain ⟨i1, i2, i3⟩ := ih st st' h
            refine ⟨i1, ?_, ?_⟩
            · intro p hp hne ht
              rcases List.mem_cons.1 hp with e | e
              · subst e; exact ⟨s0, hs, le_trans (not_lt.1 h3) i1⟩
              · exact i2 p e hne ht
            · rcases i3 with e | ⟨f, lt, p, hp, rest'⟩
              · exact Or.inl e
              · exact Or.inr ⟨f, lt, p, List.mem_cons_of_mem _ hp, rest'⟩

/-- What the two nested loops of `searchLeafDescriptors` guarantee about their final state. -/
theorem leafOuter_spec (ext : Externals K) (q : Descriptor K)
    (cfg : DescriptorMatchConfig K) (lcm : DescriptorCacheMap K) (qid : NodeId) :
    ∀ (valid : List NodeId) (st st' : LeafState K),
      leafOuter ext q cfg lcm qid valid st = some st' →
      st.best_score ≤ st'.best_score ∧
      (∀ root ∈ valid, ∃ cache, mapAt lcm root = some cache ∧
        ∀ p ∈ cache, p.1 ≠ qid →
          cfg.min_time_separation_s ≤ q.timestamp - p.2.timestamp →
          ∃ s, computeDescriptorScore ext q p.2 cfg.type = some s ∧ s ≤ st'.best_score) ∧
      (st' = st ∨
        (st'.found_match = true ∧ st.best_score < st'.best_score ∧
          ∃ root ∈ valid, ∃ cache, mapAt lcm root = some cache ∧ ∃ p ∈ cache, p.1 ≠ qid ∧
            cfg.min_time_separation_s ≤ q.timestamp - p.2.timestamp ∧
            computeDescriptorScore ext q p.2 cfg.type = some st'.best_score ∧
            st'.best_node = p.1 ∧ st'.best_root = p.2.root_node)) := by
  intro valid
  induction valid with
  | nil =>
    intro st st' h
    simp only [leafOuter, Option.some.injEq] at h
    subst h
    exact ⟨le_refl _, by simp, Or.inl rfl⟩
  | cons root0 rest ih =>
    intro st st' h
    rw [leafOuter] at h
    cases hc : mapAt lcm root0 with
    | none => rw [hc] at h; simp at h
    | some cache0 =>
      rw [hc] at h
      simp only at h
      cases hin : leafInner ext q cfg qid cache0 st with
      | none => rw [hin] at h; simp at h
      | some st1 =>
        rw [hin] at h
        simp only at h
        obtain ⟨j1, j2, j3⟩ := leafInner_spec ext q cfg qid cache0 st st1 hin
        obtain ⟨i1, i2, i3⟩ := ih st1 st' h
        refine ⟨le_trans j1 i1, ?_, ?_⟩
        · intro root hroot
          rcases List.mem_cons.1 hroot with e | e
          · subst e
            refine ⟨cache0, hc, ?_⟩
            intro p hp hne ht
            obtain ⟨s, hs, hle⟩ := j2 p hp hne ht
            exact ⟨s, hs, le_trans hle i1⟩
          · exact i2 root e
        · rcases i3 with e | ⟨f, lt, root, hroot, cache, hcache, rest'⟩
          · subst e
            rcases j3 with e' | ⟨f, lt, p, hp, rest'⟩
            · exact Or.inl e'
            · exact Or.inr ⟨f, lt, root0, List.mem_cons_self _ _, cache0, hc, p, hp, rest'⟩
          · exact Or.inr ⟨f, lt_of_le_of_lt j1 lt, root, List.mem_cons_of_mem _ hroot, cache,
              hcache, rest'⟩

/-- A returning call of `searchLeafDescriptors` ran both loops from the initial state. -/
theorem searchLeafDescriptors_eq_some (ext : Externals K) (q : Descriptor K)
    (cfg : DescriptorMatchConfig K) (valid : List NodeId) (lcm : DescriptorCacheMap K)
    (qid : NodeId) (r : LayerSearchResults K)
    (h : searchLeafDescriptors ext q cfg valid lcm qid = some r) :
    ∃ st, leafOuter ext q cfg lcm qid valid
        { best_score := 0, best_node := 0, best_root := 0, found_match := false } = some st ∧
      ((st.found_match = false ∧
          r = { score := [], valid_matches := [], query_nodes := [], match_nodes := [],
                query_root := q.root_node, match_root := [] }) ∨
       (st.found_match = true ∧
          r = { score := [st.best_score], valid_matches := [st.best_node],
                query_nodes := q.nodes, match_nodes := [[st.best_node]],
                query_root := q.root_node, match_root := [st.best_root] })) := by
  unfold searchLeafDescriptors at h
  cases ho : leafOuter ext q cfg lcm qid valid
      { best_score := 0, best_node := 0, best_root := 0, found_match := false } with
  | none => rw [ho] at h; simp at h
  | some st =>
    rw [ho] at h
    refine ⟨st, rfl, ?_⟩
    simp only at h
    cases hf : st.found_match with
    | false =>
      simp only [hf, Bool.not_false, if_true, Option.some.injEq] at h
      exact Or.inl ⟨rfl, h.symm⟩
    | true =>
      simp only [hf, Bool.not_true, Bool.false_eq_true, if_false, Option.some.injEq] at h
      exact Or.inr ⟨rfl, h.symm⟩

end LeafInvariant

section LeafExampleRuns

theorem exampleLeafScore (id root : NodeId) (t x v : ℚ) (hv : v ≠ 0) :
    computeDescriptorScore exampleExt exampleQuery (exampleLeaf id root t x v)
      DescriptorScoreType.L1 = some (1 - |1 - v| / 2) := by
  simp [computeDescriptorScore, exampleExt, computeDistance, computeDistanceHist, histStep,
    exampleQuery, exampleDescriptor, exampleLeaf, List.range_succ, hv]
  ring

/-- The run of `searchLeafDescriptors` that finds leaf `2`. -/
theorem exampleLeafSearchFound :
    searchLeafDescriptors exampleExt exampleQuery (exampleConfig 1) [1, 5] exampleLeafMapFound 9
      = some exampleLeafResult := by
  simp [searchLeafDescriptors, leafOuter, leafInner, mapAt, exampleLeafMapFound, exampleConfig,
    exampleLeafScore]
  norm_num [exampleQuery, exampleDescriptor, exampleLeaf, exampleLeafResult, abs_of_pos]

/-- The run of `searchLeafDescriptors` on a leaf scoring exactly `0`. -/
theorem exampleLeafSearchZero :
    searchLeafDescriptors exampleExt exampleQuery (exampleConfig 1) [1] exampleLeafMapZero 9
      = some { score := [], valid_matches := [], query_nodes := [], match_nodes := [],
               query_root := 9, match_root := [] } := by
  simp [searchLeafDescriptors, leafOuter, leafInner, mapAt, exampleLeafMapZero, exampleConfig,
    exampleLeafScore]
  norm_num [exampleQuery, exampleDescriptor, exampleLeaf, abs_of_neg]

end LeafExampleRuns

section LeafClaims

variable {K : Type} [LinearOrderedField K]

/-- C11: when `searchLeafDescriptors` returns, the result holds at most one match (and as many
scores); when it holds one, the matched leaf id `L` is an entry of the leaf cache of some root
in the valid roots, differs from the query id, is at least `min_time_separation_s` older than
the query, the returned score is the score of that leaf against the query and is not below the
score of any leaf that passes the same two filters, and the returned match root is the
`root_node` field of that leaf's descriptor. -/
theorem searchLeafDescriptors_single_best (ext : Externals K) (q : Descriptor K)
    (cfg : DescriptorMatchConfig K) (valid : List NodeId) (lcm : DescriptorCacheMap K)
    (qid : NodeId) (r : LayerSearchResults K)
    (h : searchLeafDescriptors ext q cfg valid lcm qid = some r) :
    r.match_root.length ≤ 1 ∧ r.score.length = r.match_root.length ∧
    (r.match_root ≠ [] →
      ∃ root ∈ valid, ∃ cache, mapAt lcm root = some cache ∧
      ∃ p ∈ cache, p.1 ≠ qid ∧
        q.timestamp - p.2.timestamp ≥ cfg.min_time_separation_s ∧
        ∃ s, computeDescriptorScore ext q p.2 cfg.type = some s ∧
          r.score = [s] ∧ r.valid_matches = [p.1] ∧ r.match_nodes = [[p.1]] ∧
          r.match_root = [p.2.root_node] ∧
          ∀ root' ∈ valid, ∀ cache', mapAt lcm root' = some cache' →
            ∀ p' ∈ cache', p'.1 ≠ qid →
              q.timestamp - p'.2.timestamp ≥ cfg.min_time_separation_s →
              ∃ s', computeDescriptorScore ext q p'.2 cfg.type = some s' ∧ s' ≤ s) := by
  obtain ⟨st, ho, hr⟩ := searchLeafDescriptors_eq_some ext q cfg valid lcm qid r h
  obtain ⟨_, i2, i3⟩ := leafOuter_spec ext q cfg lcm qid valid _ st ho
  rcases hr with ⟨_, hr⟩ | ⟨hf, hr⟩
  · subst hr
    exact ⟨by simp, rfl, fun hne => absurd rfl hne⟩
  · subst hr
    refine ⟨by simp, rfl, fun _ => ?_⟩
    rcases i3 with e | ⟨_, _, root, hroot, cache, hcache, p, hp, hne, ht, hs, hn, hrt⟩
    · rw [e] at hf
      simp at hf
    · refine ⟨root, hroot, cache, hcache, p, hp, hne, ht, st.best_score, hs, rfl, by rw [hn],
        by rw [hn], by rw [hrt], ?_⟩
      intro root' hroot' cache' hcache' p' hp' hne' ht'
      obtain ⟨cache'', hc'', hall⟩ := i2 root' hroot'
      rw [hcache'] at hc''
      simp only [Option.some.injEq] at hc''
      subst hc''
      exact hall p' hp' hne' ht'

/-- C17 (as amended): when `searchLeafDescriptors` returns, the result contains exactly one
match if and only if some leaf in the caches of the valid roots has an id different from the
query id, is at least `min_time_separation_s` older than the query and scores strictly more
than `0`. -/
theorem searchLeafDescriptors_match_iff_positive (ext : Externals K) (q : Descriptor K)
    (cfg : DescriptorMatchConfig K) (valid : List NodeId) (lcm : DescriptorCacheMap K)
    (qid : NodeId) (r : LayerSearchResults K)
    (h : searchLeafDescriptors ext q cfg valid lcm qid = some r) :
    r.match_root.length = 1 ↔
      ∃ root ∈ valid, ∃ cache, mapAt lcm root = some cache ∧
      ∃ p ∈ cache, p.1 ≠ qid ∧
        q.timestamp - p.2.timestamp ≥ cfg.min_time_separation_s ∧
        ∃ s, computeDescriptorScore ext q p.2 cfg.type = some s ∧ 0 < s := by
  obtain ⟨st, ho, hr⟩ := searchLeafDescriptors_eq_some ext q cfg valid lcm qid r h
  obtain ⟨_, i2, i3⟩ := leafOuter_spec ext q cfg lcm qid valid _ st ho
  constructor
  · intro hlen
    rcases hr with ⟨_, hr⟩ | ⟨hf, hr⟩
    · subst hr
      simp at hlen
    · rcases i3 with e | ⟨_, hlt, root, hroot, cache, hcache, p, hp, hne, ht, hs, _, _⟩
      · rw [e] at hf
        simp at hf
      · exact ⟨root, hroot, cache, hcache, p, hp, hne, ht, st.best_score, hs, hlt⟩
  · rintro ⟨root, hroot, cache, hcache, p, hp, hne, ht, s, hs, hpos⟩
    rcases hr with ⟨hf, hr⟩ | ⟨_, hr⟩
    · exfalso
      obtain ⟨cache', hc', hall⟩ := i2 root hroot
      rw [hcache] at hc'
      simp only [Option.some.injEq] at hc'
      subst hc'
      obtain ⟨s', hs', hle⟩ := hall p hp hne ht
      rw [hs] at hs'
      simp only [Option.some.injEq] at hs'
      subst hs'
      rcases i3 with e | ⟨hf', _⟩
      · rw [e] at hle
        exact absurd hpos (not_lt.2 hle)
      · rw [hf] at hf'
        simp at hf'
    · subst hr
      rfl

end LeafClaims

section LeafInstances

/-- C11 at the example run of `searchLeafDescriptors` that finds leaf `2`, whose descriptor
records root `7` although it is stored under the root key `1`. -/
theorem searchLeafDescriptors_single_best_witness :
    searchLeafDescriptors exampleExt exampleQuery (exampleConfig 1) [1, 5] exampleLeafMapFound 9
      = some exampleLeafResult ∧
    exampleLeafResult.match_root.length ≤ 1 ∧
    exampleLeafResult.score.length = exampleLeafResult.match_root.length ∧
    (exampleLeafResult.match_root ≠ [] →
      ∃ root ∈ [1, 5], ∃ cache, mapAt exampleLeafMapFound root = some cache ∧
      ∃ p ∈ cache, p.1 ≠ 9 ∧
        exampleQuery.timestamp - p.2.timestamp ≥ (exampleConfig 1).min_time_separation_s ∧
        ∃ s, computeDescriptorScore exampleExt exampleQuery p.2 (exampleConfig 1).type = some s ∧
          exampleLeafResult.score = [s] ∧ exampleLeafResult.valid_matches = [p.1] ∧
          exampleLeafResult.match_nodes = [[p.1]] ∧
          exampleLeafResult.match_root = [p.2.root_node] ∧
          ∀ root' ∈ [1, 5], ∀ cache', mapAt exampleLeafMapFound root' = some cache' →
            ∀ p' ∈ cache', p'.1 ≠ 9 →
              exampleQuery.timestamp - p'.2.timestamp
                ≥ (exampleConfig 1).min_time_separation_s →
              ∃ s', computeDescriptorScore exampleExt exampleQuery p'.2 (exampleConfig 1).type
                  = some s' ∧ s' ≤ s) :=
  ⟨exampleLeafSearchFound,
   searchLeafDescriptors_single_best exampleExt exampleQuery (exampleConfig 1) [1, 5]
     exampleLeafMapFound 9 exampleLeafResult exampleLeafSearchFound⟩

/-- C17 (counterexample): the only leaf is not the query, is ten seconds older than the query
(the minimum is one second) and scores exactly `0`; the search returns no match. -/
theorem searchLeafDescriptors_zero_score_not_matched :
    (∃ root ∈ [1], ∃ cache, mapAt exampleLeafMapZero root = some cache ∧
      ∃ p ∈ cache, p.1 ≠ 9 ∧
        exampleQuery.timestamp - p.2.timestamp ≥ (exampleConfig 1).min_time_separation_s ∧
        computeDescriptorScore exampleExt exampleQuery p.2 (exampleConfig 1).type = some 0) ∧
    ∃ r, searchLeafDescriptors exampleExt exampleQuery (exampleConfig 1) [1] exampleLeafMapZero 9
        = some r ∧ r.match_root = [] ∧ r.score = [] ∧ r.match_root.length ≠ 1 := by
  refine ⟨⟨1, by simp, [(3, exampleLeaf 3 7 0 7 3)], by simp [mapAt, exampleLeafMapZero],
    (3, exampleLeaf 3 7 0 7 3), by simp, by decide, ?_, ?_⟩,
    _, exampleLeafSearchZero, rfl, rfl, by simp⟩
  · norm_num [exampleQuery, exampleDescriptor, exampleLeaf, exampleConfig]
  · rw [show (exampleConfig 1).type = DescriptorScoreType.L1 from rfl, exampleLeafScore _ _ _ _ _
      (by norm_num)]
    norm_num [abs_of_neg]

/-- C17 (as amended) at the example run of `searchLeafDescriptors` that finds leaf `2`. -/
theorem searchLeafDescriptors_match_iff_positive_witness :
    searchLeafDescriptors exampleExt exampleQuery (exampleConfig 1) [1, 5] exampleLeafMapFound 9
      = some exampleLeafResult ∧
    (exampleLeafResult.match_root.length = 1 ↔
      ∃ root ∈ [1, 5], ∃ cache, mapAt exampleLeafMapFound root = some cache ∧
      ∃ p ∈ cache, p.1 ≠ 9 ∧
        exampleQuery.timestamp - p.2.timestamp ≥ (exampleConfig 1).min_time_separation_s ∧
        ∃ s, computeDescriptorScore exampleExt exampleQuery p.2 (exampleConfig 1).type = some s ∧
          0 < s) :=
  ⟨exampleLeafSearchFound,
   searchLeafDescriptors_match_iff_positive exampleExt exampleQuery (exampleConfig 1) [1, 5]
     exampleLeafMapFound 9 exampleLeafResult exampleLeafSearchFound⟩

end LeafInstances

section ReturnLemmas

variable {K : Type} [LinearOrderedField K]

/-- The first loop returns when no candidate throws. -/
theorem scoringPass_isSome (ext : Externals K) (q : Descriptor K)
    (cfg : DescriptorMatchConfig K) (descriptors : DescriptorCache K)
    (rlm : StdMap (List NodeId)) (qid : NodeId) :
    ∀ (valid : List NodeId) (st : ScoringState K),
      (∀ c ∈ valid, candidateScore ext q cfg descriptors rlm qid c ≠ none) →
      ∃ st', scoringPass ext q cfg descriptors rlm qid valid st = some st' := by
  intro valid
  induction valid with
  | nil => intro st _; exact ⟨st, rfl⟩
  | cons c rest ih =>
    intro st hall
    have hrest : ∀ x ∈ rest, candidateScore ext q cfg descriptors rlm qid x ≠ none :=
      fun x hx => hall x (List.mem_cons_of_mem _ hx)
    rw [scoringPass]
    cases hc : candidateScore ext q cfg descriptors rlm qid c with
    | none => exact absurd hc (hall c (List.mem_cons_self _ _))
    | some o =>
      cases o with
      | none => exact ih st hrest
      | some s => exact ih _ hrest

/-- Once the first loop has returned, the second loop returns too: every id it looks up was
looked up by the first loop. -/
theorem searchDescriptors_isSome_of_scoringPass (ext : Externals K)
    (hsort : SortsDescending ext.sort) (q : Descriptor K)
    (cfg : DescriptorMatchConfig K) (valid : List NodeId) (descriptors : DescriptorCache K)
    (rlm : StdMap (List NodeId)) (qid : NodeId) (st : ScoringState K)
    (h1 : scoringPass ext q cfg descriptors rlm qid valid
      { best_score := 0, new_valid_match_scores := [], new_valid_matches := [] } = some st) :
    ∃ ms, filterPass ext cfg descriptors st.best_score (ext.sort st.new_valid_match_scores)
        { match_nodes := [], matches_ := [], match_scores := [] } = some ms ∧
      searchDescriptors ext q cfg valid descriptors rlm qid
        = some { score := ms.match_scores, valid_matches := st.new_valid_matches,
                 query_nodes := q.nodes, match_nodes := ms.match_nodes,
                 query_root := q.root_node, match_root := ms.matches_ } := by
  obtain ⟨_, i2, _⟩ := scoringPass_spec ext q cfg descriptors rlm qid _ _ _ h1
  obtain ⟨hperm, _⟩ := hsort st.new_valid_match_scores
  have hdesc : ∀ p ∈ ext.sort st.new_valid_match_scores,
      ∃ d, mapAt descriptors p.1 = some d := by
    intro p hp
    rcases (i2 p).1 (hperm.subset hp) with e | ⟨_, e, _⟩
    · simp at e
    · obtain ⟨_, d, _, _, e3, _⟩ :=
        (candidateScore_eq_some_some ext q cfg descriptors rlm qid p.1 p.2).1 e
      exact ⟨d, e3⟩
  obtain ⟨ms, hms⟩ := filterPass_isSome ext cfg descriptors st.best_score _
    { match_nodes := [], matches_ := [], match_scores := [] } hdesc (by simp)
  refine ⟨ms, hms, ?_⟩
  unfold searchDescriptors
  rw [h1]
  simp only
  rw [hms]

theorem candidateScore_ne_none_iff (ext : Externals K) (q : Descriptor K)
    (cfg : DescriptorMatchConfig K) (descriptors : DescriptorCache K)
    (rlm : StdMap (List NodeId)) (qid c : NodeId)
    (hscore : ∀ c d, mapAt descriptors c = some d →
      ∃ s, computeDescriptorScore ext q d cfg.type = some s) :
    candidateScore ext q cfg descriptors rlm qid c ≠ none ↔
      ∃ leaves, mapAt rlm c = some leaves ∧
        (qid ∈ leaves ∨ ∃ d, mapAt descriptors c = some d) := by
  unfold candidateScore
  cases h1 : mapAt rlm c with
  | none => simp
  | some leaves =>
    by_cases h2 : qid ∈ leaves
    · simp [h2]
    · cases h3 : mapAt descriptors c with
      | none => simp [h2]
      | some d =>
        by_cases h4 : q.timestamp - d.timestamp < cfg.min_time_separation_s
        · simp [h2, h4]
        · obtain ⟨s, hs⟩ := hscore c d h3
          simp [h2, h4, hs]

/-- C13 (as amended): when the score of the query against every cached descriptor is defined,
`searchDescriptors` returns a result exactly when every valid candidate id has a
`root_leaf_map` entry and every candidate whose entry does not contain the query id also has
an entry in the descriptor cache; so it produces no result when some candidate has no
`root_leaf_map` entry, and it returns when every candidate has an entry in both. -/
theorem searchDescriptors_returns_iff (ext : Externals K) (hsort : SortsDescending ext.sort)
    (q : Descriptor K) (cfg : DescriptorMatchConfig K) (valid : List NodeId)
    (descriptors : DescriptorCache K) (rlm : StdMap (List NodeId)) (qid : NodeId)
    (hscore : ∀ c d, mapAt descriptors c = some d →
      ∃ s, computeDescriptorScore ext q d cfg.type = some s) :
    ((∃ r, searchDescriptors ext q cfg valid descriptors rlm qid = some r) ↔
      ∀ c ∈ valid, ∃ leaves, mapAt rlm c = some leaves ∧
        (qid ∈ leaves ∨ ∃ d, mapAt descriptors c = some d)) ∧
    ((∃ c ∈ valid, mapAt rlm c = none) →
      searchDescriptors ext q cfg valid descriptors rlm qid = none) ∧
    ((∃ c ∈ valid, ∃ leaves, mapAt rlm c = some leaves ∧ qid ∉ leaves ∧
        mapAt descriptors c = none) →
      searchDescriptors ext q cfg valid descriptors rlm qid = none) ∧
    ((∀ c ∈ valid, (∃ leaves, mapAt rlm c = some leaves) ∧
        ∃ d, mapAt descriptors c = some d) →
      ∃ r, searchDescriptors ext q cfg valid descriptors rlm qid = some r) := by
  have main : (∃ r, searchDescriptors ext q cfg valid descriptors rlm qid = some r) ↔
      ∀ c ∈ valid, ∃ leaves, mapAt rlm c = some leaves ∧
        (qid ∈ leaves ∨ ∃ d, mapAt descriptors c = some d) := by
    constructor
    · rintro ⟨r, h⟩ c hc
      obtain ⟨st, _, h1, _⟩ := searchDescriptors_eq_some ext q cfg valid descriptors rlm qid r h
      obtain ⟨_, _, _, _, _, i6⟩ := scoringPass_spec ext q cfg descriptors rlm qid _ _ _ h1
      exact (candidateScore_ne_none_iff ext q cfg descriptors rlm qid c hscore).1 (i6 c hc)
    · intro hall
      obtain ⟨st, h1⟩ := scoringPass_isSome ext q cfg descriptors rlm qid valid
        { best_score := 0, new_valid_match_scores := [], new_valid_matches := [] }
        (fun c hc =>
          (candidateScore_ne_none_iff ext q cfg descriptors rlm qid c hscore).2 (hall c hc))
      obtain ⟨ms, _, hr⟩ :=
        searchDescriptors_isSome_of_scoringPass ext hsort q cfg valid descriptors rlm qid st h1
      exact ⟨_, hr⟩
  have hnone : ∀ o : Option (LayerSearchResults K), (¬ ∃ r, o = some r) → o = none := by
    intro o ho
    cases o with
    | none => rfl
    | some r => exact absurd ⟨r, rfl⟩ ho
  refine ⟨main, ?_, ?_, ?_⟩
  · rintro ⟨c, hc, hnone'⟩
    apply hnone
    rw [main]
    intro hall
    obtain ⟨leaves, hl, _⟩ := hall c hc
    rw [hnone'] at hl
    simp at hl
  · rintro ⟨c, hc, leaves, hl, hq, hd⟩
    apply hnone
    rw [main]
    intro hall
    obtain ⟨leaves', hl', hor⟩ := hall c hc
    rw [hl] at hl'
    simp only [Option.some.injEq] at hl'
    subst hl'
    rcases hor with e | ⟨d, e⟩
    · exact hq e
    · rw [hd] at e
      simp at e
  · intro hall
    rw [main]
    intro c hc
    obtain ⟨⟨leaves, hl⟩, hd⟩ := hall c hc
    exact ⟨leaves, hl, Or.inr hd⟩

end ReturnLemmas

section ReturnInstances

theorem exampleCache_scores (c : NodeId) (d : Descriptor ℚ)
    (h : mapAt exampleCache c = some d) :
    ∃ s, computeDescriptorScore exampleExt exampleQuery d (exampleConfig 2).type = some s := by
  have hd : d = exampleDescriptor 1 0 5 (1 / 2) ∨ d = exampleDescriptor 2 0 5 1 ∨
      d = exampleDescriptor 3 0 7 (1 / 2) ∨ d = exampleDescriptor 4 10 9 1 := by
    simp only [exampleCache, mapAt] at h
    split_ifs at h <;> simp_all
  rcases hd with e | e | e | e <;> subst e <;>
    exact ⟨_, exampleScore _ _ _ _ (by norm_num)⟩

/-- C13 (counterexample): candidate `5` has no entry in the descriptor cache, yet the search
returns a result, because its `root_leaf_map` entry contains the query id `9` and it is
skipped before the cache is consulted. -/
theorem searchDescriptors_returns_without_cache_entry :
    5 ∈ [1, 2, 3, 4, 5] ∧ mapAt exampleCache 5 = none ∧
    mapAt exampleRootLeafMap 5 = some [5, 9] ∧
    searchDescriptors exampleExt exampleQuery (exampleConfig 2) [1, 2, 3, 4, 5] exampleCache
      exampleRootLeafMap 9 = some exampleResult :=
  ⟨by decide, by simp [mapAt, exampleCache], by simp [mapAt, exampleRootLeafMap], exampleSearch⟩

/-- C13 (as amended) at the example run of `searchDescriptors`. -/
theorem searchDescriptors_returns_iff_witness :
    ((∃ r, searchDescriptors exampleExt exampleQuery (exampleConfig 2) [1, 2, 3, 4, 5]
        exampleCache exampleRootLeafMap 9 = some r) ↔
      ∀ c ∈ [1, 2, 3, 4, 5], ∃ leaves, mapAt exampleRootLeafMap c = some leaves ∧
        (9 ∈ leaves ∨ ∃ d, mapAt exampleCache c = some d)) ∧
    ((∃ c ∈ [1, 2, 3, 4, 5], mapAt exampleRootLeafMap c = none) →
      searchDescriptors exampleExt exampleQuery (exampleConfig 2) [1, 2, 3, 4, 5] exampleCache
        exampleRootLeafMap 9 = none) ∧
    ((∃ c ∈ [1, 2, 3, 4, 5], ∃ leaves, mapAt exampleRootLeafMap c = some leaves ∧
        9 ∉ leaves ∧ mapAt exampleCache c = none) →
      searchDescriptors exampleExt exampleQuery (exampleConfig 2) [1, 2, 3, 4, 5] exampleCache
        exampleRootLeafMap 9 = none) ∧
    ((∀ c ∈ [1, 2, 3, 4, 5], (∃ leaves, mapAt exampleRootLeafMap c = some leaves) ∧
        ∃ d, mapAt exampleCache c = some d) →
      ∃ r, searchDescriptors exampleExt exampleQuery (exampleConfig 2) [1, 2, 3, 4, 5]
        exampleCache exampleRootLeafMap 9 = some r) :=
  searchDescriptors_returns_iff exampleExt exampleExt_sortsDescending exampleQuery
    (exampleConfig 2) [1, 2, 3, 4, 5] exampleCache exampleRootLeafMap 9 exampleCache_scores

end ReturnInstances

section RecordedPairs

variable {K : Type} [LinearOrderedField K]

/-- The pairs recorded by the first loop are those of `recordedPair`, in candidate order. -/
theorem scoringPass_pairs (ext : Externals K) (q : Descriptor K)
    (cfg : DescriptorMatchConfig K) (descriptors : DescriptorCache K)
    (rlm : StdMap (List NodeId)) (qid : NodeId) :
    ∀ (valid : List NodeId) (st st' : ScoringState K),
      scoringPass ext q cfg descriptors rlm qid valid st = some st' →
      st'.new_valid_match_scores = st.new_valid_match_scores ++
        valid.filterMap (recordedPair ext q cfg descriptors rlm qid) := by
  intro valid
  induction valid with
  | nil =>
    intro st st' h
    simp only [scoringPass, Option.some.injEq] at h
    subst h
    simp
  | cons c rest ih =>
    intro st st' h
    rw [scoringPass] at h
    cases hc : candidateScore ext q cfg descriptors rlm qid c with
    | none => rw [hc] at h; simp at h
    | some o =>
      cases o with
      | none =>
        rw [hc] at h
        simp only at h
        have hr : recordedPair ext q cfg descriptors rlm qid c = none := by
          unfold recordedPair; rw [hc]
        rw [List.filterMap_cons_none hr]
        exact ih st st' h
      | some s =>
        rw [hc] at h
        simp only at h
        rw [ih _ st' h]
        unfold scoringStep
        by_cases hgt : s > cfg.min_score
        · have hr : recordedPair ext q cfg descriptors rlm qid c = some (c, s) := by
            unfold recordedPair; rw [hc]; simp only; rw [if_pos hgt]
          rw [List.filterMap_cons_some hr]
          simp only [hgt, if_true, List.append_assoc, List.singleton_append]
        · have hr : recordedPair ext q cfg descriptors rlm qid c = none := by
            unfold recordedPair; rw [hc]; simp only; rw [if_neg hgt]
          rw [List.filterMap_cons_none hr]
          simp only [hgt, if_false]

theorem filterMap_eq_nil_of_forall_none {β : Type} (g : Nat → Option β) :
    ∀ l : List Nat, (∀ c ∈ l, g c = none) → l.filterMap g = [] := by
  intro l
  induction l with
  | nil => intro _; rfl
  | cons c t ih =>
    intro h
    rw [List.filterMap_cons_none (h c (List.mem_cons_self _ _))]
    exact ih (fun d hd => h d (List.mem_cons_of_mem _ hd))

theorem filterMap_eq_singleton {β : Type} (g : Nat → Option β) (b : Nat) (y : β)
    (hgb : g b = some y) :
    ∀ l : List Nat, l.Sorted (· < ·) → b ∈ l → (∀ c ∈ l, c ≠ b → g c = none) →
      l.filterMap g = [y] := by
  intro l
  induction l with
  | nil => intro _ hb; simp at hb
  | cons c t ih =>
    intro hs hb ho
    have hs' := List.pairwise_cons.1 hs
    by_cases hcb : c = b
    · subst hcb
      rw [List.filterMap_cons_some hgb, filterMap_eq_nil_of_forall_none g t]
      intro d hd
      exact ho d (List.mem_cons_of_mem _ hd) (ne_of_gt (hs'.1 d hd))
    · rw [List.filterMap_cons_none (ho c (List.mem_cons_self _ _) hcb)]
      rcases List.mem_cons.1 hb with e | e
      · exact absurd e.symm hcb
      · exact ih hs'.2 e (fun d hd => ho d (List.mem_cons_of_mem _ hd))

theorem filterMap_eq_pair {β : Type} (g : Nat → Option β) (a b : Nat) (x y : β)
    (hab : a < b) (hga : g a = some x) (hgb : g b = some y) :
    ∀ l : List Nat, l.Sorted (· < ·) → a ∈ l → b ∈ l →
      (∀ c ∈ l, c ≠ a → c ≠ b → g c = none) → l.filterMap g = [x, y] := by
  intro l
  induction l with
  | nil => intro _ ha; simp at ha
  | cons c t ih =>
    intro hs ha hb ho
    have hs' := List.pairwise_cons.1 hs
    by_cases hca : c = a
    · subst hca
      have hbt : b ∈ t := by
        rcases List.mem_cons.1 hb with e | e
        · exact absurd e (ne_of_gt hab)
        · exact e
      rw [List.filterMap_cons_some hga, filterMap_eq_singleton g b y hgb t hs'.2 hbt]
      intro d hd hdb
      exact ho d (List.mem_cons_of_mem _ hd) (ne_of_gt (hs'.1 d hd)) hdb
    · have hat : a ∈ t := by
        rcases List.mem_cons.1 ha with e | e
        · exact absurd e.symm hca
        · exact e
      have hcb : c ≠ b := by
        intro e
        subst e
        exact absurd (hs'.1 a hat) (not_lt.2 (le_of_lt hab))
      have hbt : b ∈ t := by
        rcases List.mem_cons.1 hb with e | e
        · exact absurd e.symm hcb
        · exact e
      rw [List.filterMap_cons_none (ho c (List.mem_cons_self _ _) hca hcb)]
      exact ih hs'.2 hat hbt (fun d hd => ho d (List.mem_cons_of_mem _ hd))

theorem perm_pair_cases {α : Type} (l : List α) (x y : α) (h : l.Perm [x, y]) :
    l = [x, y] ∨ l = [y, x] := by
  have hlen := h.length_eq
  match l, hlen with
  | [u, v], _ =>
    have hu : u ∈ [x, y] := h.subset (List.mem_cons_self _ _)
    simp only [List.mem_cons, List.mem_singleton, List.not_mem_nil, or_false] at hu
    rcases hu with e | e
    · subst e
      have := (List.perm_cons u).1 h
      rw [List.perm_singleton] at this
      left; rw [this]
    · subst e
      have h' : [u, v].Perm [u, x] := h.trans (List.Perm.swap _ _ _)
      have := (List.perm_cons u).1 h'
      rw [List.perm_singleton] at this
      right; rw [this]

/-- The second loop on two equally scored pairs whose positions are too close: the first is
accepted, the second is rejected by the spatial test (or never reached). -/
theorem filterPass_two_close (ext : Externals K) (cfg : DescriptorMatchConfig K)
    (descriptors : DescriptorCache K) (best s : K) (x y : NodeId) (dx dy : Descriptor K)
    (hreg : cfg.min_registration_score ≤ s) (hratio : best * cfg.min_score_ratio < s)
    (hdx : mapAt descriptors x = some dx) (hdy : mapAt descriptors y = some dy)
    (hclose : ext.norm (dy.root_position - dx.root_position) < cfg.min_match_separation_m) :
    filterPass ext cfg descriptors best [(x, s), (y, s)]
      { match_nodes := [], matches_ := [], match_scores := [] }
      = some { match_nodes := [dx.nodes], matches_ := [x], match_scores := [s] } := by
  have hreg' : ¬ s < cfg.min_registration_score := not_lt.2 hreg
  rw [filterPass]
  simp only [if_neg hreg', gt_iff_lt, if_pos hratio, spatiallyDistinct, hdx, List.nil_append]
  by_cases hcap : [x].length = cfg.max_registration_matches
  · rw [if_pos hcap]
  · rw [if_neg hcap, filterPass]
    simp only [if_neg hreg', gt_iff_lt, if_pos hratio, spatiallyDistinct, hdx, hdy,
      if_pos hclose, filterPass]

end RecordedPairs

section TwoCandidates

variable {K : Type} [LinearOrderedField K]

/-- C16: when exactly two candidates `a < b` of the candidate set pass the scoring pass (every
other candidate is skipped, or scored at most `min_score`), both with the same score `s`, with
`s > min_score`, `s ≥ min_registration_score` and `s > best_score * min_score_ratio` (where
`best_score` is `max 0 s`), and their root positions are closer than
`min_match_separation_m`, then `searchDescriptors` returns exactly one match, the id that
`std::sort` puts first, with score `s`, and the new-valid-matches set contains both ids. -/
theorem searchDescriptors_two_close_candidates (ext : Externals K)
    (hsort : SortsDescending ext.sort)
    (hnorm : ∀ p p' : Vector3 K, ext.norm (p - p') = ext.norm (p' - p))
    (q : Descriptor K) (cfg : DescriptorMatchConfig K) (valid : List NodeId)
    (descriptors : DescriptorCache K) (rlm : StdMap (List NodeId)) (qid : NodeId)
    (a b : NodeId) (s : K) (da db : Descriptor K)
    (hvalid : valid.Sorted (· < ·)) (hab : a < b) (ha : a ∈ valid) (hb : b ∈ valid)
    (hsa : candidateScore ext q cfg descriptors rlm qid a = some (some s))
    (hsb : candidateScore ext q cfg descriptors rlm qid b = some (some s))
    (hothers : ∀ c ∈ valid, c ≠ a → c ≠ b →
      candidateScore ext q cfg descriptors rlm qid c = some none ∨
      ∃ s', candidateScore ext q cfg descriptors rlm qid c = some (some s') ∧
        s' ≤ cfg.min_score)
    (hmin : s > cfg.min_score) (hreg : s ≥ cfg.min_registration_score)
    (hratio : s > max 0 s * cfg.min_score_ratio)
    (hda : mapAt descriptors a = some da) (hdb : mapAt descriptors b = some db)
    (hclose : ext.norm (da.root_position - db.root_position)
      < cfg.min_match_separation_m) :
    ∃ r, searchDescriptors ext q cfg valid descriptors rlm qid = some r ∧
      finalBestScore ext q cfg valid descriptors rlm qid = some (max 0 s) ∧
      r.score = [s] ∧ (r.match_root = [a] ∨ r.match_root = [b]) ∧
      r.match_root = ((ext.sort [(a, s), (b, s)]).take 1).map Prod.fst ∧
      a ∈ r.valid_matches ∧ b ∈ r.valid_matches := by
  have hall : ∀ c ∈ valid, candidateScore ext q cfg descriptors rlm qid c ≠ none := by
    intro c hc
    by_cases e1 : c = a
    · rw [e1, hsa]; simp
    · by_cases e2 : c = b
      · rw [e2, hsb]; simp
      · rcases hothers c hc e1 e2 with e | ⟨s', e, _⟩ <;> rw [e] <;> simp
  obtain ⟨st, h1⟩ := scoringPass_isSome ext q cfg descriptors rlm qid valid
    { best_score := 0, new_valid_match_scores := [], new_valid_matches := [] } hall
  obtain ⟨i1, _, i3, i4, i5, _⟩ := scoringPass_spec ext q cfg descriptors rlm qid _ _ _ h1
  have hpairs : st.new_valid_match_scores = [(a, s), (b, s)] := by
    rw [scoringPass_pairs ext q cfg descriptors rlm qid _ _ _ h1, List.nil_append]
    apply filterMap_eq_pair _ a b (a, s) (b, s) hab _ _ valid hvalid ha hb
    · intro c hc e1 e2
      unfold recordedPair
      rcases hothers c hc e1 e2 with e | ⟨s', e, hle⟩
      · rw [e]
      · rw [e]
        simp only
        rw [if_neg (not_lt.2 hle)]
    · unfold recordedPair
      rw [hsa]
      simp only
      rw [if_pos hmin]
    · unfold recordedPair
      rw [hsb]
      simp only
      rw [if_pos hmin]
  have hbest : st.best_score = max 0 s := by
    have hs : s ≤ st.best_score := i4 a ha s hsa
    have h0 : (0 : K) ≤ st.best_score := i3
    rcases i5 with e | ⟨c, hc, e⟩
    · have e' : st.best_score = 0 := e
      rw [e'] at hs
      rw [e', max_eq_left hs]
    · have : st.best_score = s := by
        by_cases e1 : c = a
        · rw [e1, hsa] at e
          simp only [Option.some.injEq] at e
          exact e.symm
        · by_cases e2 : c = b
          · rw [e2, hsb] at e
            simp only [Option.some.injEq] at e
            exact e.symm
          · rcases hothers c hc e1 e2 with e' | ⟨s', e', hle⟩
            · rw [e'] at e
              simp at e
            · rw [e'] at e
              simp only [Option.some.injEq] at e
              rw [e] at hle
              exact absurd (lt_of_lt_of_le (lt_of_le_of_lt hle hmin) hs) (lt_irrefl _)
      rw [this] at h0
      rw [this, max_eq_right h0]
  obtain ⟨ms, hms, hr⟩ :=
    searchDescriptors_isSome_of_scoringPass ext hsort q cfg valid descriptors rlm qid st h1
  rw [hpairs, hbest] at hms
  have hva : a ∈ st.new_valid_matches := (i1 a).2 (Or.inr ⟨ha, s, hsa, hmin⟩)
  have hvb : b ∈ st.new_valid_matches := (i1 b).2 (Or.inr ⟨hb, s, hsb, hmin⟩)
  have hfb : finalBestScore ext q cfg valid descriptors rlm qid = some (max 0 s) := by
    unfold finalBestScore
    rw [h1, Option.map_some', hbest]
  have hclose' : ext.norm (db.root_position - da.root_position)
      < cfg.min_match_separation_m := by
    rw [hnorm]; exact hclose
  rcases perm_pair_cases _ _ _ (hsort [(a, s), (b, s)]).1 with e | e
  · rw [e, filterPass_two_close ext cfg descriptors _ s a b da db hreg hratio hda hdb hclose']
      at hms
    simp only [Option.some.injEq] at hms
    subst hms
    exact ⟨_, hr, hfb, rfl, Or.inl rfl, by rw [e]; rfl, hva, hvb⟩
  · rw [e, filterPass_two_close ext cfg descriptors _ s b a db da hreg hratio hdb hda hclose]
      at hms
    simp only [Option.some.injEq] at hms
    subst hms
    exact ⟨_, hr, hfb, rfl, Or.inr rfl, by rw [e]; rfl, hva, hvb⟩

end TwoCandidates

section TwoCandidatesInstance

theorem exampleCandidatesWide :
    candidateScore exampleExt exampleQuery exampleConfigWide exampleCache exampleRootLeafMap
      9 1 = some (some (3 / 4)) ∧
    candidateScore exampleExt exampleQuery exampleConfigWide exampleCache exampleRootLeafMap
      9 3 = some (some (3 / 4)) ∧
    candidateScore exampleExt exampleQuery exampleConfigWide exampleCache exampleRootLeafMap
      9 4 = some none ∧
    candidateScore exampleExt exampleQuery exampleConfigWide exampleCache exampleRootLeafMap
      9 5 = some none := by
  obtain ⟨h1, _, h3, h4, h5⟩ := exampleCandidates 2
  have hc : ∀ c, candidateScore exampleExt exampleQuery exampleConfigWide exampleCache
      exampleRootLeafMap 9 c
      = candidateScore exampleExt exampleQuery (exampleConfig 2) exampleCache
          exampleRootLeafMap 9 c :=
    fun c => candidateScore_config exampleExt exampleQuery (exampleConfig 2) exampleConfigWide
      exampleCache exampleRootLeafMap 9 c rfl rfl
  exact ⟨by rw [hc, h1], by rw [hc, h3], by rw [hc, h4], by rw [hc, h5]⟩

/-- C16 at the candidates `1` and `3` of the example cache, both scoring `3/4`, two metres
apart with a minimum separation of three metres. -/
theorem searchDescriptors_two_close_candidates_witness :
    ∃ r, searchDescriptors exampleExt exampleQuery exampleConfigWide [1, 3, 4, 5] exampleCache
        exampleRootLeafMap 9 = some r ∧
      finalBestScore exampleExt exampleQuery exampleConfigWide [1, 3, 4, 5] exampleCache
        exampleRootLeafMap 9 = some (max 0 (3 / 4)) ∧
      r.score = [3 / 4] ∧ (r.match_root = [1] ∨ r.match_root = [3]) ∧
      r.match_root = ((exampleExt.sort [(1, 3 / 4), (3, 3 / 4)]).take 1).map Prod.fst ∧
      1 ∈ r.valid_matches ∧ 3 ∈ r.valid_matches :=
  searchDescriptors_two_close_candidates exampleExt exampleExt_sortsDescending
    exampleExt_norm_symm exampleQuery exampleConfigWide [1, 3, 4, 5] exampleCache
    exampleRootLeafMap 9 1 3 (3 / 4) (exampleDescriptor 1 0 5 (1 / 2))
    (exampleDescriptor 3 0 7 (1 / 2))
    (by decide) (by decide) (by decide) (by decide)
    exampleCandidatesWide.1 exampleCandidatesWide.2.1
    (by
      intro c hc h1 h3
      simp only [List.mem_cons, List.mem_singleton, List.not_mem_nil, or_false] at hc
      rcases hc with e | e | e | e
      · exact absurd e h1
      · exact absurd e h3
      · rw [e]; exact Or.inl exampleCandidatesWide.2.2.1
      · rw [e]; exact Or.inl exampleCandidatesWide.2.2.2)
    (by norm_num [exampleConfigWide]) (by norm_num [exampleConfigWide])
    (by norm_num [exampleConfigWide])
    (by simp [mapAt, exampleCache]) (by simp [mapAt, exampleCache])
    (by norm_num [exampleExt, exampleDescriptor, exampleConfigWide])

end TwoCandidatesInstance

section GreedyMaximal

variable {K : Type} [LinearOrderedField K]

theorem spatiallyDistinct_false (ext : Externals K) (cfg : DescriptorMatchConfig K)
    (descriptors : DescriptorCache K) (id : NodeId) :
    ∀ ms : List NodeId, spatiallyDistinct ext cfg descriptors id ms = some false →
      ∃ m ∈ ms, ∃ d dm, mapAt descriptors id = some d ∧ mapAt descriptors m = some dm ∧
        ext.norm (d.root_position - dm.root_position) < cfg.min_match_separation_m := by
  intro ms
  induction ms with
  | nil => intro h; simp [spatiallyDistinct] at h
  | cons m0 ms ih =>
    intro h
    rw [spatiallyDistinct] at h
    cases hd : mapAt descriptors id with
    | none => rw [hd] at h; simp at h
    | some d =>
      cases hdm : mapAt descriptors m0 with
      | none => rw [hd, hdm] at h; simp at h
      | some dm =>
        rw [hd, hdm] at h
        simp only at h
        by_cases hlt : ext.norm (d.root_position - dm.root_position)
            < cfg.min_match_separation_m
        · exact ⟨m0, List.mem_cons_self _ _, d, dm, rfl, hdm, hlt⟩
        · rw [if_neg hlt] at h
          obtain ⟨m, hm, d', dm', e1, e2, e3⟩ := ih h
          rw [hd] at e1
          exact ⟨m, List.mem_cons_of_mem _ hm, d', dm', e1, e2, e3⟩

theorem exists_mem_zip_of_mem {α β : Type} (m : α) :
    ∀ (l1 : List α) (l2 : List β), l1.length = l2.length → m ∈ l1 →
      ∃ s, (m, s) ∈ List.zip l1 l2 := by
  intro l1
  induction l1 with
  | nil => intro _ _ hm; simp at hm
  | cons a t ih =>
    intro l2 hlen hm
    cases l2 with
    | nil => simp at hlen
    | cons b t2 =>
      rcases List.mem_cons.1 hm with e | e
      · exact ⟨b, by rw [e]; simp⟩
      · obtain ⟨s, hs⟩ := ih t2 (by simpa using hlen) e
        exact ⟨s, by simp [hs]⟩

/-- The second loop only appends to its vectors, keeping ids and scores aligned. -/
theorem filterPass_extends (ext : Externals K) (cfg : DescriptorMatchConfig K)
    (descriptors : DescriptorCache K) (best : K) (l : List (NodeId × K))
    (st r : MatchState K) (hlen : st.matches_.length = st.match_scores.length)
    (h : filterPass ext cfg descriptors best l st = some r) :
    (∀ m ∈ st.matches_, m ∈ r.matches_) ∧
    (∀ x ∈ List.zip st.matches_ st.match_scores, x ∈ List.zip r.matches_ r.match_scores) := by
  obtain ⟨acc, _, a2, a3, _⟩ := filterPass_spec ext cfg descriptors best l st r h
  refine ⟨fun m hm => by rw [a2]; exact List.mem_append_left _ hm, ?_⟩
  intro x hx
  rw [a2, a3, List.zip_append hlen]
  exact List.mem_append_left _ hx

/-- Greedy maximality of the second loop on a list in non-increasing score order: a pair that
passes both score tests is accepted, or is too close to an accepted id whose score is not
smaller, or the loop stopped at the cap with scores that are not smaller. -/
theorem filterPass_maximal (ext : Externals K) (cfg : DescriptorMatchConfig K)
    (descriptors : DescriptorCache K) (best : K) :
    ∀ (l : List (NodeId × K)) (st r : MatchState K),
      l.Pairwise (fun a b => b.2 ≤ a.2) →
      st.matches_.length = st.match_scores.length →
      (∀ x ∈ st.match_scores, ∀ p ∈ l, p.2 ≤ x) →
      filterPass ext cfg descriptors best l st = some r →
      ∀ p ∈ l, cfg.min_registration_score ≤ p.2 → best * cfg.min_score_ratio < p.2 →
        p.1 ∈ r.matches_ ∨
        (∃ m ∈ List.zip r.matches_ r.match_scores, p.2 ≤ m.2 ∧
          ∃ d dm, mapAt descriptors p.1 = some d ∧ mapAt descriptors m.1 = some dm ∧
            ext.norm (d.root_position - dm.root_position) < cfg.min_match_separation_m) ∨
        (r.matches_.length = cfg.max_registration_matches ∧
          ∀ x ∈ r.match_scores, p.2 ≤ x) := by
  intro l
  induction l with
  | nil => intro st r _ _ _ _ p hp; simp at hp
  | cons p0 rest ih =>
    intro st r hsorted hlen hst h p hp hreg hratio
    obtain ⟨hhead, hsorted'⟩ := List.pairwise_cons.1 hsorted
    have hst' : ∀ x ∈ st.match_scores, ∀ p' ∈ rest, p'.2 ≤ x :=
      fun x hx p' hp' => hst x hx p' (List.mem_cons_of_mem _ hp')
    have hle0 : p.2 ≤ p0.2 := by
      rcases List.mem_cons.1 hp with e | e
      · rw [e]
      · exact hhead p e
    rw [filterPass] at h
    by_cases h1 : p0.2 < cfg.min_registration_score
    · exact absurd (lt_of_le_of_lt (le_trans hreg hle0) h1) (lt_irrefl _)
    · rw [if_neg h1] at h
      by_cases h2 : p0.2 > best * cfg.min_score_ratio
      · rw [if_pos h2] at h
        cases hsd : spatiallyDistinct ext cfg descriptors p0.1 st.matches_ with
        | none => rw [hsd] at h; simp at h
        | some bflag =>
          rw [hsd] at h
          cases bflag with
          | false =>
            simp only at h
            rcases List.mem_cons.1 hp with e | e
            · obtain ⟨m, hm, d, dm, e1, e2, e3⟩ :=
                spatiallyDistinct_false ext cfg descriptors p0.1 st.matches_ hsd
              obtain ⟨x, hx⟩ := exists_mem_zip_of_mem m st.matches_ st.match_scores hlen hm
              have hxr := (filterPass_extends ext cfg descriptors best rest st r hlen h).2 _ hx
              right; left
              refine ⟨(m, x), hxr, ?_, d, dm, by rw [e]; exact e1, e2, e3⟩
              rw [e]
              exact hst x (List.of_mem_zip hx).2 p0 (List.mem_cons_self _ _)
            · exact ih st r hsorted' hlen hst' h p e hreg hratio
          | true =>
            simp only at h
            cases hd : mapAt descriptors p0.1 with
            | none => rw [hd] at h; simp at h
            | some d =>
              rw [hd] at h
              simp only at h
              have hlen1 : (st.matches_ ++ [p0.1]).length
                  = (st.match_scores ++ [p0.2]).length := by
                simp [hlen]
              have hst1 : ∀ x ∈ st.match_scores ++ [p0.2], ∀ p' ∈ rest, p'.2 ≤ x := by
                intro x hx p' hp'
                rcases List.mem_append.1 hx with e | e
                · exact hst' x e p' hp'
                · rw [List.mem_singleton] at e
                  rw [e]
                  exact hhead p' hp'
              by_cases h3 : (st.matches_ ++ [p0.1]).length = cfg.max_registration_matches
              · rw [if_pos h3] at h
                simp only [Option.some.injEq] at h
                subst h
                rcases List.mem_cons.1 hp with e | e
                · left
                  rw [e]
                  simp
                · right; right
                  exact ⟨h3, fun x hx => hst1 x hx p e⟩
              · rw [if_neg h3] at h
                rcases List.mem_cons.1 hp with e | e
                · left
                  rw [e]
                  exact (filterPass_extends ext cfg descriptors best rest _ r hlen1 h).1 p0.1
                    (by simp)
                · exact ih _ r hsorted' hlen1 hst1 h p e hreg hratio
      · exact absurd (lt_of_lt_of_le hratio hle0) h2

/-- C19: when `searchDescriptors` returns, every id of the new-valid-matches set that is not
returned and whose score `s` satisfies `s ≥ min_registration_score` and
`s > best_score * min_score_ratio` is closer than `min_match_separation_m` to a returned match
whose score is at least `s`, or the result holds exactly `max_registration_matches` matches,
all with score at least `s`. -/
theorem searchDescriptors_greedy_maximal (ext : Externals K)
    (hsort : SortsDescending ext.sort)
    (q : Descriptor K) (cfg : DescriptorMatchConfig K) (valid : List NodeId)
    (descriptors : DescriptorCache K) (rlm : StdMap (List NodeId)) (qid : NodeId)
    (r : LayerSearchResults K)
    (h : searchDescriptors ext q cfg valid descriptors rlm qid = some r) :
    ∃ best, finalBestScore ext q cfg valid descriptors rlm qid = some best ∧
      ∀ c ∈ r.valid_matches, c ∉ r.match_root →
        ∀ s, candidateScore ext q cfg descriptors rlm qid c = some (some s) →
          s ≥ cfg.min_registration_score → s > best * cfg.min_score_ratio →
          (∃ m ∈ List.zip r.match_root r.score, m.2 ≥ s ∧
            ∃ d dm, mapAt descriptors c = some d ∧ mapAt descriptors m.1 = some dm ∧
              ext.norm (d.root_position - dm.root_position)
                < cfg.min_match_separation_m) ∨
          (r.match_root.length = cfg.max_registration_matches ∧ ∀ x ∈ r.score, x ≥ s) := by
  obtain ⟨st, ms, h1, h2, h3⟩ := searchDescriptors_eq_some ext q cfg valid descriptors rlm qid r h
  obtain ⟨i1, i2, _⟩ := scoringPass_spec ext q cfg descriptors rlm qid _ _ _ h1
  obtain ⟨hperm, hsorted⟩ := hsort st.new_valid_match_scores
  refine ⟨st.best_score, by unfold finalBestScore; rw [h1]; rfl, ?_⟩
  subst h3
  intro c hc hnot s hs hreg hratio
  have hmin : cfg.min_score < s := by
    rcases (i1 c).1 hc with e | ⟨_, s', hs', hlt⟩
    · simp at e
    · rw [hs] at hs'
      simp only [Option.some.injEq] at hs'
      rw [hs']
      exact hlt
  have hvalid : c ∈ valid := by
    rcases (i1 c).1 hc with e | ⟨hv, _⟩
    · simp at e
    · exact hv
  have hmem : (c, s) ∈ ext.sort st.new_valid_match_scores :=
    hperm.symm.subset ((i2 (c, s)).2 (Or.inr ⟨hvalid, hs, hmin⟩))
  rcases filterPass_maximal ext cfg descriptors st.best_score _ _ ms hsorted rfl (by simp) h2
      (c, s) hmem hreg hratio with e | e | e
  · exact absurd e hnot
  · exact Or.inl e
  · exact Or.inr e

end GreedyMaximal

section GreedyMaximalInstance

/-- C19 at the example run of `searchDescriptors`, where candidate `1` is valid, passes both
score tests and is not returned for being at the position of the returned match `2`. -/
theorem searchDescriptors_greedy_maximal_witness :
    ∃ best, finalBestScore exampleExt exampleQuery (exampleConfig 2) [1, 2, 3, 4, 5]
        exampleCache exampleRootLeafMap 9 = some best ∧
      ∀ c ∈ exampleResult.valid_matches, c ∉ exampleResult.match_root →
        ∀ s, candidateScore exampleExt exampleQuery (exampleConfig 2) exampleCache
            exampleRootLeafMap 9 c = some (some s) →
          s ≥ (exampleConfig 2).min_registration_score →
          s > best * (exampleConfig 2).min_score_ratio →
          (∃ m ∈ List.zip exampleResult.match_root exampleResult.score, m.2 ≥ s ∧
            ∃ d dm, mapAt exampleCache c = some d ∧ mapAt exampleCache m.1 = some dm ∧
              exampleExt.norm (d.root_position - dm.root_position)
                < (exampleConfig 2).min_match_separation_m) ∨
          (exampleResult.match_root.length = (exampleConfig 2).max_registration_matches ∧
            ∀ x ∈ exampleResult.score, x ≥ s) :=
  searchDescriptors_greedy_maximal exampleExt exampleExt_sortsDescending exampleQuery
    (exampleConfig 2) [1, 2, 3, 4, 5] exampleCache exampleRootLeafMap 9 exampleResult
    exampleSearch

end GreedyMaximalInstance

section RoundingLemmas

theorem roundHalfEven_bounds (x : ℚ) :
    ⌊x⌋ ≤ roundHalfEven x ∧ roundHalfEven x ≤ ⌊x⌋ + 1 := by
  unfold roundHalfEven
  split_ifs <;> constructor <;> omega

theorem roundHalfEven_intCast (n : ℤ) : roundHalfEven (n : ℚ) = n := by
  unfold roundHalfEven
  rw [Int.floor_intCast]
  simp

theorem roundHalfEven_mono {x y : ℚ} (h : x ≤ y) : roundHalfEven x ≤ roundHalfEven y := by
  have hf : ⌊x⌋ ≤ ⌊y⌋ := Int.floor_mono h
  rcases lt_or_eq_of_le hf with hlt | heq
  · have h1 := (roundHalfEven_bounds x).2
    have h2 := (roundHalfEven_bounds y).1
    omega
  · unfold roundHalfEven
    rw [← heq]
    have hfrac : x - ⌊x⌋ ≤ y - ⌊x⌋ := by linarith
    by_cases c1 : x - ⌊x⌋ < 1 / 2
    · rw [if_pos c1]
      split_ifs <;> omega
    · rw [if_neg c1]
      have d1 : ¬ y - ⌊x⌋ < 1 / 2 := by
        intro hh; exact c1 (lt_of_le_of_lt hfrac hh)
      rw [if_neg d1]
      by_cases c2 : 1 / 2 < x - ⌊x⌋
      · have d2 : 1 / 2 < y - ⌊x⌋ := lt_of_lt_of_le c2 hfrac
        rw [if_pos c2, if_pos d2]
      · rw [if_neg c2]
        split_ifs <;> omega

theorem float32Spacing_pos (x : ℚ) : 0 < float32Spacing x := by
  unfold float32Spacing
  positivity

theorem roundFloat32Magnitude_nonneg {x : ℚ} (hx : 0 ≤ x) : 0 ≤ roundFloat32Magnitude x := by
  unfold roundFloat32Magnitude
  have h0 : (0 : ℚ) ≤ x / float32Spacing x := div_nonneg hx (le_of_lt (float32Spacing_pos x))
  have h1 : roundHalfEven ((0 : ℤ) : ℚ) ≤ roundHalfEven (x / float32Spacing x) :=
    roundHalfEven_mono (by simpa using h0)
  rw [roundHalfEven_intCast] at h1
  exact mul_nonneg (by exact_mod_cast h1) (le_of_lt (float32Spacing_pos x))

theorem roundFloat32Magnitude_zero : roundFloat32Magnitude 0 = 0 := by
  unfold roundFloat32Magnitude
  rw [zero_div]
  have : roundHalfEven 0 = 0 := by simpa using roundHalfEven_intCast 0
  rw [this]
  simp

theorem two_pow_24_mul_spacing (e : ℤ) : (16777216 : ℚ) * 2 ^ (e - 23) = 2 ^ (e + 1) := by
  have h : (16777216 : ℚ) = 2 ^ (24 : ℤ) := by norm_num
  rw [h, ← zpow_add₀ (by norm_num : (2 : ℚ) ≠ 0)]
  congr 1
  omega

theorem two_pow_23_mul_spacing (e : ℤ) : (8388608 : ℚ) * 2 ^ (e - 23) = 2 ^ e := by
  have h : (8388608 : ℚ) = 2 ^ (23 : ℤ) := by norm_num
  rw [h, ← zpow_add₀ (by norm_num : (2 : ℚ) ≠ 0)]
  congr 1
  omega

/-- The exponent used for the spacing at `x` bounds `x` from above by the next power of
two. -/
theorem lt_two_zpow_exponent (x : ℚ) :
    x < 2 ^ (max (Int.log 2 x) (-126) + 1) := by
  have h1 : x < ((2 : ℕ) : ℚ) ^ (Int.log 2 x + 1) := Int.lt_zpow_succ_log_self (by norm_num) x
  have h2 : ((2 : ℕ) : ℚ) ^ (Int.log 2 x + 1) ≤ ((2 : ℕ) : ℚ) ^ (max (Int.log 2 x) (-126) + 1) :=
    zpow_le_zpow_right₀ (by norm_num) (by omega)
  exact_mod_cast lt_of_lt_of_le h1 h2

/-- Rounding a magnitude never passes the power of two that ends its binade. -/
theorem roundFloat32Magnitude_le_top (x : ℚ) :
    roundFloat32Magnitude x ≤ 2 ^ (max (Int.log 2 x) (-126) + 1) := by
  unfold roundFloat32Magnitude float32Spacing
  set e := max (Int.log 2 x) (-126) with he
  have hpos : (0 : ℚ) < 2 ^ (e - 23) := by positivity
  have hlt : x / 2 ^ (e - 23) ≤ ((2 ^ 24 : ℤ) : ℚ) := by
    rw [div_le_iff₀ hpos]
    have h := le_of_lt (lt_two_zpow_exponent x)
    rw [← he] at h
    have : ((2 ^ 24 : ℤ) : ℚ) * 2 ^ (e - 23) = 2 ^ (e + 1) := by
      push_cast
      exact two_pow_24_mul_spacing e
    rw [this]
    exact h
  have hr := roundHalfEven_mono hlt
  rw [roundHalfEven_intCast] at hr
  have hr' : ((roundHalfEven (x / 2 ^ (e - 23)) : ℤ) : ℚ) ≤ ((2 ^ 24 : ℤ) : ℚ) := by
    exact_mod_cast hr
  calc ((roundHalfEven (x / 2 ^ (e - 23)) : ℤ) : ℚ) * 2 ^ (e - 23)
      ≤ ((2 ^ 24 : ℤ) : ℚ) * 2 ^ (e - 23) := mul_le_mul_of_nonneg_right hr' (le_of_lt hpos)
    _ = 2 ^ (e + 1) := by
      push_cast
      exact two_pow_24_mul_spacing e

/-- Rounding a magnitude in a normal binade never drops below the power of two that starts
it. -/
theorem bottom_le_roundFloat32Magnitude {x : ℚ} (hx : 0 < x) (hn : -126 ≤ Int.log 2 x) :
    2 ^ (Int.log 2 x) ≤ roundFloat32Magnitude x := by
  unfold roundFloat32Magnitude float32Spacing
  rw [max_eq_left hn]
  set e := Int.log 2 x with he
  have hpos : (0 : ℚ) < 2 ^ (e - 23) := by positivity
  have hle : ((2 : ℕ) : ℚ) ^ e ≤ x := Int.zpow_log_le_self (by norm_num) hx
  have hge : ((2 ^ 23 : ℤ) : ℚ) ≤ x / 2 ^ (e - 23) := by
    rw [le_div_iff₀ hpos]
    have : ((2 ^ 23 : ℤ) : ℚ) * 2 ^ (e - 23) = 2 ^ e := by
      push_cast
      exact two_pow_23_mul_spacing e
    rw [this]
    exact_mod_cast hle
  have hr := roundHalfEven_mono hge
  rw [roundHalfEven_intCast] at hr
  have hr' : ((2 ^ 23 : ℤ) : ℚ) ≤ ((roundHalfEven (x / 2 ^ (e - 23)) : ℤ) : ℚ) := by
    exact_mod_cast hr
  calc (2 : ℚ) ^ e = ((2 ^ 23 : ℤ) : ℚ) * 2 ^ (e - 23) := by
        push_cast
        exact (two_pow_23_mul_spacing e).symm
    _ ≤ ((roundHalfEven (x / 2 ^ (e - 23)) : ℤ) : ℚ) * 2 ^ (e - 23) :=
        mul_le_mul_of_nonneg_right hr' (le_of_lt hpos)

theorem roundFloat32Magnitude_mono {x y : ℚ} (hx : 0 ≤ x) (h : x ≤ y) :
    roundFloat32Magnitude x ≤ roundFloat32Magnitude y := by
  rcases eq_or_lt_of_le hx with h0 | hpos
  · rw [← h0, roundFloat32Magnitude_zero]
    exact roundFloat32Magnitude_nonneg (le_trans hx h)
  · have hypos : 0 < y := lt_of_lt_of_le hpos h
    have hlog : Int.log 2 x ≤ Int.log 2 y := Int.log_mono_right hpos h
    have hexp : max (Int.log 2 x) (-126) ≤ max (Int.log 2 y) (-126) :=
      max_le_max hlog (le_refl _)
    rcases eq_or_lt_of_le hexp with heq | hlt
    · unfold roundFloat32Magnitude float32Spacing
      rw [heq]
      have hpos' : (0 : ℚ) < 2 ^ (max (Int.log 2 y) (-126) - 23) := by positivity
      have hdiv : x / 2 ^ (max (Int.log 2 y) (-126) - 23)
          ≤ y / 2 ^ (max (Int.log 2 y) (-126) - 23) :=
        div_le_div_of_nonneg_right h (le_of_lt hpos')
      have hr := roundHalfEven_mono hdiv
      exact mul_le_mul_of_nonneg_right (by exact_mod_cast hr) (le_of_lt hpos')
    · have hn : -126 ≤ Int.log 2 y := by
        by_contra hc
        rw [max_eq_right (by omega : Int.log 2 y ≤ -126)] at hlt
        have := le_max_right (Int.log 2 x) (-126)
        omega
      have hey : max (Int.log 2 y) (-126) = Int.log 2 y := max_eq_left hn
      rw [hey] at hlt
      calc roundFloat32Magnitude x
          ≤ 2 ^ (max (Int.log 2 x) (-126) + 1) := roundFloat32Magnitude_le_top x
        _ ≤ 2 ^ (Int.log 2 y) := zpow_le_zpow_right₀ (by norm_num) (by omega)
        _ ≤ roundFloat32Magnitude y := bottom_le_roundFloat32Magnitude hypos hn

/-- Rounding to `float` preserves order. -/
theorem roundFloat32_mono : Monotone roundFloat32 := by
  intro x y h
  unfold roundFloat32
  by_cases hx : 0 ≤ x
  · have hy : 0 ≤ y := le_trans hx h
    rw [if_pos hx, if_pos hy]
    exact roundFloat32Magnitude_mono hx h
  · rw [if_neg hx]
    have hx' : 0 ≤ -x := by linarith
    by_cases hy : 0 ≤ y
    · rw [if_pos hy]
      have h1 := roundFloat32Magnitude_nonneg hx'
      have h2 := roundFloat32Magnitude_nonneg hy
      linarith
    · rw [if_neg hy]
      have hy' : 0 ≤ -y := by linarith
      have := roundFloat32Magnitude_mono hy' (by linarith : -y ≤ -x)
      linarith

end RoundingLemmas

section RoundingValues

theorem log_two_eq {x : ℚ} {k : ℤ} (h1 : 2 ^ k ≤ x) (h2 : x < 2 ^ (k + 1)) :
    Int.log 2 x = k := by
  have hx : 0 < x := lt_of_lt_of_le (by positivity) h1
  have a : k ≤ Int.log 2 x :=
    (Int.zpow_le_iff_le_log (by norm_num) hx).1 (by exact_mod_cast h1)
  have b : Int.log 2 x < k + 1 :=
    (Int.lt_zpow_iff_log_lt (by norm_num) hx).1 (by exact_mod_cast h2)
  omega

/-- Between two neighbouring `float` values of a normal binade, rounding yields one of the
two. -/
theorem roundFloat32Magnitude_between {x : ℚ} (k n : ℤ) (hk : -126 ≤ k)
    (hlo : (2 : ℚ) ^ k ≤ n * 2 ^ (k - 23)) (hhi : ((n : ℚ) + 1) * 2 ^ (k - 23) ≤ 2 ^ (k + 1))
    (h1 : (n : ℚ) * 2 ^ (k - 23) ≤ x) (h2 : x < ((n : ℚ) + 1) * 2 ^ (k - 23)) :
    roundFloat32Magnitude x = n * 2 ^ (k - 23) ∨
    roundFloat32Magnitude x = ((n : ℚ) + 1) * 2 ^ (k - 23) := by
  have hlog : Int.log 2 x = k :=
    log_two_eq (le_trans hlo h1) (lt_of_lt_of_le h2 hhi)
  have hpos : (0 : ℚ) < 2 ^ (k - 23) := by positivity
  unfold roundFloat32Magnitude float32Spacing
  rw [hlog, max_eq_left hk]
  have hfloor : ⌊x / 2 ^ (k - 23)⌋ = n := by
    rw [Int.floor_eq_iff]
    constructor
    · rw [le_div_iff₀ hpos]; exact h1
    · rw [div_lt_iff₀ hpos]; exact h2
  have hb := roundHalfEven_bounds (x / 2 ^ (k - 23))
  rw [hfloor] at hb
  have hcases : roundHalfEven (x / 2 ^ (k - 23)) = n ∨
      roundHalfEven (x / 2 ^ (k - 23)) = n + 1 := by omega
  rcases hcases with e | e
  · left; rw [e]
  · right; rw [e]; push_cast; rfl

/-- A multiple of the spacing of its own normal binade is a `float`: rounding keeps it. -/
theorem roundFloat32Magnitude_of_representable {x : ℚ} (k n : ℤ) (hk : -126 ≤ k)
    (h1 : (2 : ℚ) ^ k ≤ x) (h2 : x < 2 ^ (k + 1)) (hn : x = n * 2 ^ (k - 23)) :
    roundFloat32Magnitude x = x := by
  have hlog : Int.log 2 x = k := log_two_eq h1 h2
  have hpos : (0 : ℚ) < 2 ^ (k - 23) := by positivity
  unfold roundFloat32Magnitude float32Spacing
  rw [hlog, max_eq_left hk]
  have hq : x / 2 ^ (k - 23) = (n : ℚ) := by
    rw [div_eq_iff (ne_of_gt hpos)]; exact hn
  rw [hq, roundHalfEven_intCast, ← hn]

theorem roundFloat32_zero : roundFloat32 0 = 0 := by
  unfold roundFloat32
  rw [if_pos (le_refl _), roundFloat32Magnitude_zero]

theorem roundFloat32_one : roundFloat32 1 = 1 := by
  unfold roundFloat32
  rw [if_pos (by norm_num)]
  exact roundFloat32Magnitude_of_representable 0 8388608 (by norm_num) (by norm_num)
    (by norm_num) (by norm_num)

theorem roundFloat32_half : roundFloat32 (1 / 2) = 1 / 2 := by
  unfold roundFloat32
  rw [if_pos (by norm_num)]
  exact roundFloat32Magnitude_of_representable (-1) 8388608 (by norm_num) (by norm_num)
    (by norm_num) (by norm_num)

theorem roundFloat32_neg_half : roundFloat32 (-(1 / 2)) = -(1 / 2) := by
  unfold roundFloat32
  rw [if_neg (by norm_num), neg_neg]
  congr 1
  exact roundFloat32Magnitude_of_representable (-1) 8388608 (by norm_num) (by norm_num)
    (by norm_num) (by norm_num)

theorem roundFloat32_two_pow_neg_24 : roundFloat32 (2 ^ (-24 : ℤ)) = 2 ^ (-24 : ℤ) := by
  unfold roundFloat32
  rw [if_pos (by positivity)]
  exact roundFloat32Magnitude_of_representable (-24) 8388608 (by norm_num) (by norm_num)
    (by norm_num) (by norm_num)

theorem roundFloat32_two_pow_neg_25 : roundFloat32 (2 ^ (-25 : ℤ)) = 2 ^ (-25 : ℤ) := by
  unfold roundFloat32
  rw [if_pos (by positivity)]
  exact roundFloat32Magnitude_of_representable (-25) 8388608 (by norm_num) (by norm_num)
    (by norm_num) (by norm_num)

/-- The largest `float` below `1`. -/
theorem roundFloat32_pred_one :
    roundFloat32 (1 - 2 ^ (-24 : ℤ)) = 1 - 2 ^ (-24 : ℤ) := by
  unfold roundFloat32
  rw [if_pos (by norm_num)]
  exact roundFloat32Magnitude_of_representable (-1) 16777215 (by norm_num) (by norm_num)
    (by norm_num) (by norm_num)

/-- The largest `float` below `1/2`. -/
theorem roundFloat32_pred_half :
    roundFloat32 (1 / 2 - 2 ^ (-25 : ℤ)) = 1 / 2 - 2 ^ (-25 : ℤ) := by
  unfold roundFloat32
  rw [if_pos (by norm_num)]
  exact roundFloat32Magnitude_of_representable (-2) 16777215 (by norm_num) (by norm_num)
    (by norm_num) (by norm_num)

/-- The midpoint of `1` and the `float` below it rounds to `1` (tie to even). -/
theorem roundFloat32_tie_below_one : roundFloat32 (1 - 2 ^ (-25 : ℤ)) = 1 := by
  have hlog : Int.log 2 (1 - 2 ^ (-25 : ℤ) : ℚ) = -1 :=
    log_two_eq (by norm_num) (by norm_num)
  have hq : (1 - 2 ^ (-25 : ℤ) : ℚ) / 2 ^ ((-1 : ℤ) - 23) = 33554431 / 2 := by norm_num
  have hfloor : ⌊(33554431 / 2 : ℚ)⌋ = 16777215 := by
    rw [Int.floor_eq_iff]
    constructor <;> norm_num
  have hr : roundHalfEven (33554431 / 2 : ℚ) = 16777216 := by
    unfold roundHalfEven
    rw [hfloor]
    norm_num
  unfold roundFloat32
  rw [if_pos (by norm_num)]
  unfold roundFloat32Magnitude float32Spacing
  rw [hlog, max_eq_left (by norm_num), hq, hr]
  norm_num

/-- No `float` lies strictly between `1 - 2 ^ (-24)` and `1`. -/
theorem roundFloat32_lt_one (z : ℚ) (h : roundFloat32 z < 1) :
    roundFloat32 z ≤ 1 - 2 ^ (-24 : ℤ) := by
  by_cases h1 : z ≤ 1 - 2 ^ (-24 : ℤ)
  · have := roundFloat32_mono h1
    rw [roundFloat32_pred_one] at this
    exact this
  · by_cases h2 : 1 ≤ z
    · have := roundFloat32_mono h2
      rw [roundFloat32_one] at this
      exact absurd h (not_lt.2 this)
    · have hz : 0 ≤ z := by
        have : (0 : ℚ) ≤ 1 - 2 ^ (-24 : ℤ) := by norm_num
        linarith
      have hval : roundFloat32 z = roundFloat32Magnitude z := by
        unfold roundFloat32; rw [if_pos hz]
      rw [hval] at h ⊢
      rcases roundFloat32Magnitude_between (x := z) (-1) 16777215 (by norm_num)
          (by norm_num) (by norm_num)
          (by norm_num at h1 ⊢; linarith) (by norm_num at h2 ⊢; linarith) with e | e
      · rw [e]; norm_num
      · rw [e] at h; norm_num at h

/-- No `float` lies strictly between `-1/2` and `-1/2 + 2 ^ (-25)`. -/
theorem neg_half_lt_roundFloat32 (z : ℚ) (h : -(1 / 2) < roundFloat32 z) :
    -(1 / 2) + 2 ^ (-25 : ℤ) ≤ roundFloat32 z := by
  by_cases h1 : -(1 / 2) + 2 ^ (-25 : ℤ) ≤ z
  · have := roundFloat32_mono h1
    have hv : roundFloat32 (-(1 / 2) + 2 ^ (-25 : ℤ)) = -(1 / 2) + 2 ^ (-25 : ℤ) := by
      have hneg : (-(1 / 2) + 2 ^ (-25 : ℤ) : ℚ) = -(1 / 2 - 2 ^ (-25 : ℤ)) := by ring
      have hm := roundFloat32_pred_half
      unfold roundFloat32 at hm ⊢
      rw [if_pos (by norm_num)] at hm
      rw [if_neg (by norm_num), hneg, neg_neg, hm]
    rw [hv] at this
    exact this
  · by_cases h2 : z ≤ -(1 / 2)
    · have := roundFloat32_mono h2
      rw [roundFloat32_neg_half] at this
      exact absurd h (not_lt.2 this)
    · have hz : ¬ 0 ≤ z := by
        have : (-(1 / 2) + 2 ^ (-25 : ℤ) : ℚ) < 0 := by norm_num
        intro hh; linarith
      have hval : roundFloat32 z = -roundFloat32Magnitude (-z) := by
        unfold roundFloat32; rw [if_neg hz]
      rw [hval] at h ⊢
      rcases roundFloat32Magnitude_between (x := -z) (-2) 16777215 (by norm_num)
          (by norm_num) (by norm_num)
          (by norm_num at h1 ⊢; linarith) (by norm_num at h2 ⊢; linarith) with e | e
      · rw [e]; norm_num
      · rw [e] at h; norm_num at h

end RoundingValues

section RoundedScore

variable {K : Type} [LinearOrderedField K]

theorem scoreFromL1_eq (fl : K → K) (raw : K) :
    scoreFromL1 fl raw = fl (1 - fl (raw / 2)) := by
  unfold scoreFromL1
  have h : (0.5 : K) * raw = raw / 2 := by norm_num; ring
  have h1 : (1.0 : K) = 1 := by norm_num
  rw [h, h1]

theorem scoreFromCosine_eq (fl : K → K) (raw : K) :
    scoreFromCosine fl raw = fl (fl (raw / 2) + 1 / 2) := by
  unfold scoreFromCosine
  have h : (0.5 : K) * raw = raw / 2 := by norm_num; ring
  have h1 : (0.5 : K) = 1 / 2 := by norm_num
  rw [h, h1]

/-- With exact arithmetic in place of the rounding, the rounded score is the score used by
the search functions. -/
theorem computeDescriptorScoreRounded_id (ext : Externals K) (lhs rhs : Descriptor K)
    (t : DescriptorScoreType) :
    computeDescriptorScoreRounded id ext lhs rhs t = computeDescriptorScore ext lhs rhs t := by
  cases t <;> rfl

/-- For any order-preserving rounding that keeps `0`, `1/2`, `-1/2` and `1`, the L1 map is
non-increasing and sends `[0, 2]` into `[0, 1]`, `0` to `1` and `2` to `0`. -/
theorem scoreFromL1_rounded (fl : K → K) (hmono : Monotone fl) (h0 : fl 0 = 0)
    (h1 : fl 1 = 1) :
    Antitone (scoreFromL1 fl) ∧
    (∀ raw ∈ Set.Icc (0 : K) 2, scoreFromL1 fl raw ∈ Set.Icc (0 : K) 1) ∧
    scoreFromL1 fl 0 = 1 ∧ scoreFromL1 fl 2 = 0 := by
  have hanti : Antitone (scoreFromL1 fl) := by
    intro a b hab
    rw [scoreFromL1_eq, scoreFromL1_eq]
    apply hmono
    have : fl (a / 2) ≤ fl (b / 2) := hmono (by linarith)
    linarith
  have e0 : scoreFromL1 fl 0 = 1 := by
    rw [scoreFromL1_eq, zero_div, h0, sub_zero, h1]
  have e2 : scoreFromL1 fl 2 = 0 := by
    rw [scoreFromL1_eq, div_self (by norm_num), h1, sub_self, h0]
  refine ⟨hanti, ?_, e0, e2⟩
  intro raw hraw
  rw [Set.mem_Icc] at hraw ⊢
  constructor
  · rw [← e2]; exact hanti hraw.2
  · rw [← e0]; exact hanti hraw.1

/-- For any order-preserving rounding that keeps `0`, `1/2`, `-1/2` and `1`, the cosine map
is non-decreasing and sends `[-1, 1]` into `[0, 1]`, `-1` to `0` and `1` to `1`. -/
theorem scoreFromCosine_rounded (fl : K → K) (hmono : Monotone fl) (h0 : fl 0 = 0)
    (h1 : fl 1 = 1) (hhalf : fl (1 / 2) = 1 / 2) (hneg : fl (-(1 / 2)) = -(1 / 2)) :
    Monotone (scoreFromCosine fl) ∧
    (∀ raw ∈ Set.Icc (-1 : K) 1, scoreFromCosine fl raw ∈ Set.Icc (0 : K) 1) ∧
    scoreFromCosine fl (-1) = 0 ∧ scoreFromCosine fl 1 = 1 := by
  have hm : Monotone (scoreFromCosine fl) := by
    intro a b hab
    rw [scoreFromCosine_eq, scoreFromCosine_eq]
    apply hmono
    have : fl (a / 2) ≤ fl (b / 2) := hmono (by linarith)
    linarith
  have e0 : scoreFromCosine fl (-1) = 0 := by
    rw [scoreFromCosine_eq]
    have : (-1 : K) / 2 = -(1 / 2) := by ring
    rw [this, hneg, neg_add_cancel, h0]
  have e1 : scoreFromCosine fl 1 = 1 := by
    rw [scoreFromCosine_eq, hhalf]
    have : (1 / 2 : K) + 1 / 2 = 1 := by ring
    rw [this, h1]
  refine ⟨hm, ?_, e0, e1⟩
  intro raw hraw
  rw [Set.mem_Icc] at hraw ⊢
  constructor
  · rw [← e0]; exact hm hraw.1
  · rw [← e1]; exact hm hraw.2

end RoundedScore

section Float32Score

/-- No raw distance gets an L1 score strictly between `0` and `2 ^ (-24)`. -/
theorem scoreFromL1_float32_gap (raw : ℚ) :
    scoreFromL1 roundFloat32 raw ≤ 0 ∨ 2 ^ (-24 : ℤ) ≤ scoreFromL1 roundFloat32 raw := by
  rw [scoreFromL1_eq]
  by_cases h : roundFloat32 (raw / 2) < 1
  · right
    have h' := roundFloat32_lt_one _ h
    have := roundFloat32_mono (by linarith : (2 : ℚ) ^ (-24 : ℤ) ≤ 1 - roundFloat32 (raw / 2))
    rw [roundFloat32_two_pow_neg_24] at this
    exact this
  · left
    have := roundFloat32_mono (by linarith : 1 - roundFloat32 (raw / 2) ≤ (0 : ℚ))
    rw [roundFloat32_zero] at this
    exact this

/-- No raw distance gets a cosine score strictly between `0` and `2 ^ (-25)`. -/
theorem scoreFromCosine_float32_gap (raw : ℚ) :
    scoreFromCosine roundFloat32 raw ≤ 0 ∨
    2 ^ (-25 : ℤ) ≤ scoreFromCosine roundFloat32 raw := by
  rw [scoreFromCosine_eq]
  by_cases h : -(1 / 2) < roundFloat32 (raw / 2)
  · right
    have h' := neg_half_lt_roundFloat32 _ h
    have := roundFloat32_mono
      (by linarith : (2 : ℚ) ^ (-25 : ℤ) ≤ roundFloat32 (raw / 2) + 1 / 2)
    rw [roundFloat32_two_pow_neg_25] at this
    exact this
  · left
    have := roundFloat32_mono (by linarith : roundFloat32 (raw / 2) + 1 / 2 ≤ (0 : ℚ))
    rw [roundFloat32_zero] at this
    exact this

/-- C12 (counterexample): in `float` arithmetic the raw L1 distances `0` and `2 ^ (-24)`
(both `float` values) score `1`, so the L1 map is not strictly decreasing, and the raw cosine
distances `1 - 2 ^ (-24)` and `1` (both `float` values) score `1`, so the cosine map is not
strictly increasing; the value `2 ^ (-25)` of `[0, 1]` is the L1 score of no raw distance and
`2 ^ (-26)` is the cosine score of none, so neither map is onto `[0, 1]`. -/
theorem computeDescriptorScore_float32_not_strict_not_onto :
    (roundFloat32 (2 ^ (-24 : ℤ)) = 2 ^ (-24 : ℤ) ∧
      scoreFromL1 roundFloat32 0 = 1 ∧ scoreFromL1 roundFloat32 (2 ^ (-24 : ℤ)) = 1 ∧
      ¬ StrictAnti (scoreFromL1 roundFloat32)) ∧
    ((2 : ℚ) ^ (-25 : ℤ) ∈ Set.Icc (0 : ℚ) 1 ∧
      (∀ raw, scoreFromL1 roundFloat32 raw ≠ 2 ^ (-25 : ℤ)) ∧
      Set.image (scoreFromL1 roundFloat32) (Set.Icc 0 2) ≠ Set.Icc 0 1) ∧
    (roundFloat32 (1 - 2 ^ (-24 : ℤ)) = 1 - 2 ^ (-24 : ℤ) ∧
      scoreFromCosine roundFloat32 (1 - 2 ^ (-24 : ℤ)) = 1 ∧
      scoreFromCosine roundFloat32 1 = 1 ∧
      ¬ StrictMono (scoreFromCosine roundFloat32)) ∧
    ((2 : ℚ) ^ (-26 : ℤ) ∈ Set.Icc (0 : ℚ) 1 ∧
      (∀ raw, scoreFromCosine roundFloat32 raw ≠ 2 ^ (-26 : ℤ)) ∧
      Set.image (scoreFromCosine roundFloat32) (Set.Icc (-1) 1) ≠ Set.Icc 0 1) := by
  have a0 : scoreFromL1 roundFloat32 0 = 1 :=
    (scoreFromL1_rounded roundFloat32 roundFloat32_mono roundFloat32_zero
      roundFloat32_one).2.2.1
  have a1 : scoreFromL1 roundFloat32 (2 ^ (-24 : ℤ)) = 1 := by
    rw [scoreFromL1_eq]
    have : (2 : ℚ) ^ (-24 : ℤ) / 2 = 2 ^ (-25 : ℤ) := by norm_num
    rw [this, roundFloat32_two_pow_neg_25, roundFloat32_tie_below_one]
  have b1 : scoreFromCosine roundFloat32 1 = 1 :=
    (scoreFromCosine_rounded roundFloat32 roundFloat32_mono roundFloat32_zero
      roundFloat32_one roundFloat32_half roundFloat32_neg_half).2.2.2
  have b0 : scoreFromCosine roundFloat32 (1 - 2 ^ (-24 : ℤ)) = 1 := by
    rw [scoreFromCosine_eq]
    have h1 : ((1 : ℚ) - 2 ^ (-24 : ℤ)) / 2 = 1 / 2 - 2 ^ (-25 : ℤ) := by norm_num
    have h2 : ((1 : ℚ) / 2 - 2 ^ (-25 : ℤ)) + 1 / 2 = 1 - 2 ^ (-25 : ℤ) := by ring
    rw [h1, roundFloat32_pred_half, h2, roundFloat32_tie_below_one]
  have gl : ∀ raw, scoreFromL1 roundFloat32 raw ≠ 2 ^ (-25 : ℤ) := by
    intro raw h
    rcases scoreFromL1_float32_gap raw with g | g
    · rw [h] at g; norm_num at g
    · rw [h] at g; norm_num at g
  have gc : ∀ raw, scoreFromCosine roundFloat32 raw ≠ 2 ^ (-26 : ℤ) := by
    intro raw h
    rcases scoreFromCosine_float32_gap raw with g | g
    · rw [h] at g; norm_num at g
    · rw [h] at g; norm_num at g
  refine ⟨⟨roundFloat32_two_pow_neg_24, a0, a1, ?_⟩, ⟨by norm_num, gl, ?_⟩,
    ⟨roundFloat32_pred_one, b0, b1, ?_⟩, ⟨by norm_num, gc, ?_⟩⟩
  · intro hs
    have := hs (by norm_num : (0 : ℚ) < 2 ^ (-24 : ℤ))
    rw [a0, a1] at this
    exact lt_irrefl _ this
  · intro himg
    have hmem : (2 : ℚ) ^ (-25 : ℤ) ∈ Set.Icc (0 : ℚ) 1 := by norm_num
    rw [← himg] at hmem
    obtain ⟨raw, _, hraw⟩ := hmem
    exact gl raw hraw
  · intro hs
    have := hs (by norm_num : (1 : ℚ) - 2 ^ (-24 : ℤ) < 1)
    rw [b0, b1] at this
    exact lt_irrefl _ this
  · intro himg
    have hmem : (2 : ℚ) ^ (-26 : ℤ) ∈ Set.Icc (0 : ℚ) 1 := by norm_num
    rw [← himg] at hmem
    obtain ⟨raw, _, hraw⟩ := hmem
    exact gc raw hraw

/-- C12 (as amended): `computeDescriptorScore` maps the raw cosine distance by the `float`
evaluation of `raw / 2 + 1 / 2` for the `COSINE` scheme and the raw L1 distance by the `float`
evaluation of `1 - raw / 2` for every other scheme value; the L1 map is non-increasing and
maps `[0, 2]` into `[0, 1]` with `0` going to `1` and `2` to `0`; the cosine map is
non-decreasing and maps `[-1, 1]` into `[0, 1]` with `-1` going to `0` and `1` to `1`. -/
theorem computeDescriptorScoreRounded_mapping (ext : Externals ℚ) (lhs rhs : Descriptor ℚ) :
    computeDescriptorScoreRounded roundFloat32 ext lhs rhs DescriptorScoreType.COSINE
      = (ext.computeCosineDistance lhs rhs).map (scoreFromCosine roundFloat32) ∧
    (∀ t, t ≠ DescriptorScoreType.COSINE →
      computeDescriptorScoreRounded roundFloat32 ext lhs rhs t
        = (ext.computeL1Distance lhs rhs).map (scoreFromL1 roundFloat32)) ∧
    (∀ raw, scoreFromL1 roundFloat32 raw = roundFloat32 (1 - roundFloat32 (raw / 2))) ∧
    (∀ raw, scoreFromCosine roundFloat32 raw
      = roundFloat32 (roundFloat32 (raw / 2) + 1 / 2)) ∧
    Antitone (scoreFromL1 roundFloat32) ∧
    (∀ raw ∈ Set.Icc (0 : ℚ) 2, scoreFromL1 roundFloat32 raw ∈ Set.Icc (0 : ℚ) 1) ∧
    scoreFromL1 roundFloat32 0 = 1 ∧ scoreFromL1 roundFloat32 2 = 0 ∧
    Monotone (scoreFromCosine roundFloat32) ∧
    (∀ raw ∈ Set.Icc (-1 : ℚ) 1, scoreFromCosine roundFloat32 raw ∈ Set.Icc (0 : ℚ) 1) ∧
    scoreFromCosine roundFloat32 (-1) = 0 ∧ scoreFromCosine roundFloat32 1 = 1 := by
  obtain ⟨l1, l2, l3, l4⟩ :=
    scoreFromL1_rounded roundFloat32 roundFloat32_mono roundFloat32_zero roundFloat32_one
  obtain ⟨c1, c2, c3, c4⟩ :=
    scoreFromCosine_rounded roundFloat32 roundFloat32_mono roundFloat32_zero roundFloat32_one
      roundFloat32_half roundFloat32_neg_half
  refine ⟨rfl, ?_, scoreFromL1_eq roundFloat32, scoreFromCosine_eq roundFloat32,
    l1, l2, l3, l4, c1, c2, c3, c4⟩
  intro t ht
  cases t with
  | COSINE => exact absurd rfl ht
  | L1 => rfl
  | other v => rfl

end Float32Score

end kimera.lcd
